import Mathlib

/-!
NeoMutt sidebar: entry store, page calculation, mailbox notifications,
highlight navigation, the divider and the abbreviation of mailbox paths.

A shallow embedding of `sidebar/sidebar.c` and `sidebar/wdata.c`, and a model of
`mutt_list_str_split` after `test/list/mutt_list_str_split.c`.

* C `int` cursors (`top_index`, `opn_index`, `hil_index`, `bot_index`) are `Int`;
  `-1` is the "unset" value used by the source.
* `wdata->entries` together with `wdata->entry_count` is the list of the live
  slots `entries[0 .. entry_count)`.  A read of `entries[i]` with `i` outside
  that range is the fault `Fault.oob`.
* Pointers are natural numbers, `0` being `NULL`.  An `SbEntry` carries the
  address of its heap cell (`addr`), which is what the source compares when it
  compares `struct SbEntry *` values; a `struct Mailbox *` is an address that
  is resolved through `Env.mailboxes`.
* Ambient globals (`C_Sidebar*`, `Context`, `SidebarWhitelist`, the mailbox
  list) are gathered in `Env`.
* Index arithmetic is on unbounded `Int`: every index the functions compute is
  bounded by `entry_count + page_size`, and `page_size` is a window height.  The
  one subtraction on message counts, in `cb_qsort_sbe`, is wrapped to 32 bits.
* Bounded C loops over the array are structural recursions on the slots; the
  `do ... while` and `while` loops whose exit depends on the data carry an
  iteration budget (`Fault.fuel` when it runs out) that the theorems show to
  be sufficient.
-/

namespace Sidebar

/-! ## Data model -/

/-- The fields of `struct Mailbox` that the sidebar reads.  A `char *` is a
`String`; `NULL` is the empty string, as under `NONULL`. -/
structure Mailbox where
  realpath : String
  path : String
  name : String
  msg_count : Int
  msg_unread : Int
  msg_flagged : Int
  has_new : Bool
deriving DecidableEq, Repr

/-- `struct SbEntry` (sidebar.c:74), with the address of the heap cell. -/
structure SbEntry where
  addr : Nat
  box : String
  mailbox : Nat
  is_hidden : Bool
  color : Nat
deriving DecidableEq, Repr

/-- `enum DivType`: the source of the divider character. -/
inductive DivType where
  | SB_DIV_USER
  | SB_DIV_ASCII
  | SB_DIV_UTF8
deriving DecidableEq, Repr

/-- `struct SidebarWindowData`: the live entry slots, the capacity of the
backing array and the four cursors. -/
structure SidebarWindowData where
  entries : List SbEntry
  entry_max : Int
  top_index : Int
  opn_index : Int
  hil_index : Int
  bot_index : Int
  previous_sort : Nat
  divider_type : DivType := DivType.SB_DIV_USER
  divider_width : Int := 0
deriving DecidableEq, Repr

/-- `wdata->entry_count`. -/
def SidebarWindowData.entry_count (w : SidebarWindowData) : Int :=
  (w.entries.length : Int)

/-- Globals read by the sidebar.  `Context` is the address of
`Context->mailbox` when `Context` is set.  `strcoll` and `mutt_inbox_cmp` are
the collation and inbox comparisons, which live outside these sources.
`C_SidebarDividerChar` is the byte string of the option (`none` when unset)
and `mutt_strwidth` the screen width that `mutt_strwidth` measures for a byte
string, also outside these sources.  `qsort_order l` is a rearrangement of the
array `l` that fixes the order in which the C library's `qsort` leaves elements
that compare equal, which the C standard leaves open. -/
structure Env where
  C_SidebarNewMailOnly : Bool
  C_SidebarNonEmptyMailboxOnly : Bool
  C_SidebarNextNewWrap : Bool
  C_SidebarSortMethod : Nat
  SidebarWhitelist : List String
  Context : Option Nat
  mailboxes : Nat → Mailbox
  mailboxlist : List Nat
  strcoll : String → String → Int
  mutt_inbox_cmp : String → String → Int
  C_SidebarVisible : Bool := true
  C_AsciiChars : Bool := false
  C_SidebarDividerChar : Option (List Nat) := none
  mutt_strwidth : List Nat → Int := fun s => (s.length : Int)
  qsort_order : (l : List SbEntry) → { r : List SbEntry // r.Perm l } :=
    fun l => ⟨l, List.Perm.refl l⟩

/-- Faults of the embedding: a read of an entry slot outside
`[0, entry_count)`, or a loop that used up its iteration budget. -/
inductive Fault where
  | oob
  | fuel
deriving DecidableEq, Repr

deriving instance DecidableEq for Except

/-- Read of `wdata->entries[i]`. -/
def entry_at (w : SidebarWindowData) (i : Int) : Except Fault SbEntry :=
  if i < 0 then .error .oob
  else
    match w.entries[i.toNat]? with
    | some e => .ok e
    | none => .error .oob

/-- `sb_wdata_new` (wdata.c:40): `mutt_mem_calloc` zeroes every field. -/
def sb_wdata_new : SidebarWindowData :=
  { entries := [], entry_max := 0, top_index := 0, opn_index := 0,
    hil_index := 0, bot_index := 0, previous_sort := 0 }

/-- The character loop of `strcmp`: the sign of the first difference. -/
def strcmp_chars : List Char → List Char → Int
  | [], [] => 0
  | [], _ :: _ => -1
  | _ :: _, [] => 1
  | a :: as, b :: bs =>
    if a.toNat < b.toNat then -1 else if b.toNat < a.toNat then 1 else strcmp_chars as bs

/-- Modelled from the spec: `mutt_str_strcmp(a, b)` of `mutt/string.c`, which
is outside these sources: the sign of the lexicographic comparison of the two
strings, `NULL` being read as the empty string. -/
def mutt_str_strcmp (a b : String) : Int :=
  strcmp_chars a.toList b.toList

/-- The test `Context && (mutt_str_strcmp(m->realpath,
Context->mailbox->realpath) == 0)` (sidebar.c:393, 1259). -/
def is_active (env : Env) (m : Nat) : Bool :=
  match env.Context with
  | none => false
  | some c =>
    decide (mutt_str_strcmp (env.mailboxes m).realpath (env.mailboxes c).realpath = 0)

/-! ## sb_notify_mailbox (sidebar.c:1234) -/

/-- The search loop `for (del_index = 0; del_index < entry_count; del_index++)
if (entries[del_index]->mailbox == m) break;` started at index `j` on the
slots from `j` on.  It returns the final `del_index`. -/
def scan_mailbox (m : Nat) : List SbEntry → Nat → Nat
  | [], j => j
  | e :: es, j => if e.mailbox = m then j else scan_mailbox m es (j + 1)

/-- `sb_notify_mailbox(m, created)`.  `fresh` is the address returned by
`mutt_mem_calloc` for the new `SbEntry`.  The second component tells whether
`mutt_menu_set_current_redraw(REDRAW_SIDEBAR)` was reached. -/
def sb_notify_mailbox (env : Env) (w : SidebarWindowData) (fresh : Nat)
    (m : Nat) (created : Bool) : SidebarWindowData × Bool :=
  if m = 0 then (w, false)
  else if created then
    let entry_max := if w.entry_count ≥ w.entry_max then w.entry_max + 10 else w.entry_max
    let sbe : SbEntry :=
      { addr := fresh, box := "", mailbox := m, is_hidden := false, color := 0 }
    let top_index := if w.top_index < 0 then w.entry_count else w.top_index
    let bot_index := if w.bot_index < 0 then w.entry_count else w.bot_index
    let opn_index :=
      if w.opn_index < 0 ∧ is_active env m = true then w.entry_count else w.opn_index
    ({ w with entries := w.entries ++ [sbe], entry_max := entry_max,
              top_index := top_index, bot_index := bot_index,
              opn_index := opn_index }, true)
  else
    let del_index : Int := (scan_mailbox m w.entries 0 : Nat)
    if del_index = w.entry_count then (w, false)
    else
      let entry_count := w.entry_count - 1
      let top_index :=
        if w.top_index > del_index ∨ w.top_index = entry_count then w.top_index - 1
        else w.top_index
      let opn_index :=
        if w.opn_index = del_index then -1
        else if w.opn_index > del_index then w.opn_index - 1
        else w.opn_index
      let hil_index :=
        if w.hil_index > del_index ∨ w.hil_index = entry_count then w.hil_index - 1
        else w.hil_index
      let bot_index :=
        if w.bot_index > del_index ∨ w.bot_index = entry_count then w.bot_index - 1
        else w.bot_index
      ({ w with entries := w.entries.eraseIdx del_index.toNat,
                top_index := top_index, opn_index := opn_index,
                hil_index := hil_index, bot_index := bot_index }, true)

/-! ## Visibility (sidebar.c:370) -/

/-- Modelled from the spec: `mutt_list_find(&SidebarWhitelist, s)` of
`mutt/list.c`, which is outside these sources: some node of the whitelist
holds a string equal to `s`. -/
def mutt_list_find (l : List String) (s : String) : Bool :=
  l.any (fun d => decide (mutt_str_strcmp d s = 0))

/-- Body of the general loop of `update_entries_visibility` for slot `i`. -/
def entry_visibility (env : Env) (opn_index : Int) (i : Nat) (sbe : SbEntry) : SbEntry :=
  let m := env.mailboxes sbe.mailbox
  if is_active env sbe.mailbox = true then { sbe with is_hidden := false }
  else if (mutt_list_find env.SidebarWhitelist m.path ||
           mutt_list_find env.SidebarWhitelist m.name) = true then
    { sbe with is_hidden := false }
  else
    let h1 : Bool := env.C_SidebarNonEmptyMailboxOnly && decide ((i : Int) ≠ opn_index) &&
      decide (m.msg_count = 0)
    let h2 : Bool := env.C_SidebarNewMailOnly && decide ((i : Int) ≠ opn_index) &&
      decide (m.msg_unread = 0) && decide (m.msg_flagged = 0) && !m.has_new
    { sbe with is_hidden := h1 || h2 }

/-- The general loop of `update_entries_visibility`, from slot `i` on. -/
def visibility_loop (env : Env) (opn_index : Int) : Nat → List SbEntry → List SbEntry
  | _, [] => []
  | i, sbe :: es => entry_visibility env opn_index i sbe :: visibility_loop env opn_index (i + 1) es

/-- `update_entries_visibility`: the fast path clears every flag, the general
loop decides each entry. -/
def update_entries_visibility (env : Env) (w : SidebarWindowData) : SidebarWindowData :=
  if env.C_SidebarNewMailOnly = false ∧ env.C_SidebarNonEmptyMailboxOnly = false then
    { w with entries := w.entries.map (fun sbe => { sbe with is_hidden := false }) }
  else
    { w with entries := visibility_loop env w.opn_index 0 w.entries }

/-! ## Sorting (sidebar.c:312, 422, 459) -/

/-- Modelled from the spec: the sort tags of `enum SortType` and the masks of
`sort.h`, which is outside these sources: one tag per mode (insertion order,
count, unread, flagged, path, name), a mask that selects the mode and an
independent reverse bit.  The values are those of NeoMutt. -/
def SORT_ORDER : Nat := 5
def SORT_COUNT : Nat := 15
def SORT_UNREAD : Nat := 16
def SORT_FLAGGED : Nat := 17
def SORT_PATH : Nat := 18
def SORT_DESC : Nat := 20
def SORT_MASK : Nat := 255
def SORT_REVERSE : Nat := 256

/-- A 32-bit two's complement `int` result. -/
def wrap32 (x : Int) : Int := (x + 2147483648) % 4294967296 - 2147483648

/-- `cb_qsort_sbe`: the comparison used by `qsort`.  The subtraction of two
counts is wrapped to 32 bits.  The final `rc = -rc` is taken on `Int`: that is
C's negation for every `int` value of `rc` except `INT_MIN`, the one value whose
negation overflows. -/
def cb_qsort_sbe (env : Env) (sbe1 sbe2 : SbEntry) : Int :=
  let m1 := env.mailboxes sbe1.mailbox
  let m2 := env.mailboxes sbe2.mailbox
  let ssm := env.C_SidebarSortMethod &&& SORT_MASK
  let rc : Int :=
    if ssm = SORT_COUNT then
      if m2.msg_count = m1.msg_count then env.strcoll m1.path m2.path
      else wrap32 (m2.msg_count - m1.msg_count)
    else if ssm = SORT_UNREAD then
      if m2.msg_unread = m1.msg_unread then env.strcoll m1.path m2.path
      else wrap32 (m2.msg_unread - m1.msg_unread)
    else if ssm = SORT_DESC then mutt_str_strcmp m1.name m2.name
    else if ssm = SORT_FLAGGED then
      if m2.msg_flagged = m1.msg_flagged then env.strcoll m1.path m2.path
      else wrap32 (m2.msg_flagged - m1.msg_flagged)
    else if ssm = SORT_PATH then
      let r := env.mutt_inbox_cmp m1.path m2.path
      if r = 0 then env.strcoll m1.path m2.path else r
    else 0
  if env.C_SidebarSortMethod &&& SORT_REVERSE ≠ 0 then -rc else rc

/-- The C library's `qsort` under comparison `cmp`.  The C standard leaves the
order of elements that compare equal open: the result is the sorted
rearrangement of the array in which such elements keep the order they have in
`order l`, an arbitrary rearrangement of the array. -/
def qsort (order : (l : List SbEntry) → { r : List SbEntry // r.Perm l })
    (cmp : SbEntry → SbEntry → Int) (l : List SbEntry) : List SbEntry :=
  (order l).1.insertionSort (fun a b => cmp a b ≤ 0)

/-- Exchange of `entries[i]` and `entries[j]`. -/
def swap_entries (es : List SbEntry) (i j : Nat) : List SbEntry :=
  match es[i]?, es[j]? with
  | some a, some b => (es.set i b).set j a
  | _, _ => es

/-- The `STAILQ_FOREACH` loop of `unsort_entries` over the mailbox list,
with the current value of `i`. -/
def unsort_loop : List Nat → Nat → List SbEntry → List SbEntry
  | [], _, es => es
  | np :: ml, i, es =>
    if i ≥ es.length then es
    else
      let j := scan_mailbox np (es.drop i) i
      if j < es.length then
        unsort_loop ml (i + 1) (if j ≠ i then swap_entries es i j else es)
      else unsort_loop ml i es

/-- `unsort_entries`. -/
def unsort_entries (env : Env) (w : SidebarWindowData) : SidebarWindowData :=
  { w with entries := unsort_loop env.mailboxlist 0 w.entries }

/-- `sort_entries`. -/
def sort_entries (env : Env) (w : SidebarWindowData) : SidebarWindowData :=
  let ssm := env.C_SidebarSortMethod &&& SORT_MASK
  if ssm = SORT_COUNT ∨ ssm = SORT_UNREAD ∨ ssm = SORT_FLAGGED ∨ ssm = SORT_PATH then
    { w with entries := qsort env.qsort_order (cb_qsort_sbe env) w.entries }
  else if ssm = SORT_ORDER ∧ env.C_SidebarSortMethod ≠ w.previous_sort then
    unsort_entries env w
  else w

/-! ## select_next (sidebar.c:475) -/

/-- The `do ... while` loop of `select_next`: `none` is the `return false`
at the end of the array, `some entry` the index the loop stopped at. -/
def select_next_loop (w : SidebarWindowData) : Nat → Int → Except Fault (Option Int)
  | 0, _ => .error .fuel
  | n + 1, entry =>
    let entry := entry + 1
    if entry = w.entry_count then .ok none
    else
      match entry_at w entry with
      | .error f => .error f
      | .ok sbe => if sbe.is_hidden = true then select_next_loop w n entry else .ok (some entry)

/-- `select_next`. -/
def select_next (w : SidebarWindowData) : Except Fault (SidebarWindowData × Bool) :=
  if w.entry_count = 0 ∨ w.hil_index < 0 then .ok (w, false)
  else
    match select_next_loop w (w.entries.length + 1) w.hil_index with
    | .error f => .error f
    | .ok none => .ok (w, false)
    | .ok (some entry) => .ok ({ w with hil_index := entry }, true)

/-! ## calc_page (sidebar.c:673) -/

/-- The loop that finds the new positions of the remembered opened and
highlighted entries (sidebar.c:686), from slot `i` on. -/
def resolve_loop (opn_entry hil_entry : Option Nat) :
    Nat → List SbEntry → Int × Int → Int × Int
  | _, [], c => c
  | i, sbe :: es, (opn, hil) =>
    resolve_loop opn_entry hil_entry (i + 1) es
      (if opn_entry = some sbe.addr then (i : Int) else opn,
       if hil_entry = some sbe.addr then (i : Int) else hil)

/-- The highlight repair (sidebar.c:694). -/
def repair_highlight (env : Env) (w : SidebarWindowData) : Except Fault SidebarWindowData :=
  let snap : Except Fault SidebarWindowData :=
    if w.opn_index ≥ 0 then .ok { w with hil_index := w.opn_index }
    else
      let w0 := { w with hil_index := 0 }
      match entry_at w0 0 with
      | .error f => .error f
      | .ok sbe =>
        if sbe.is_hidden = true then
          match select_next w0 with
          | .error f => .error f
          | .ok r => .ok r.1
        else .ok w0
  if w.hil_index < 0 then snap
  else
    match entry_at w w.hil_index with
    | .error f => .error f
    | .ok sbe =>
      if sbe.is_hidden = true ∨ env.C_SidebarSortMethod ≠ w.previous_sort then snap
      else .ok w

/-- The inner `while (page_entries < page_size)` loop of the filtered
framing (sidebar.c:719); returns the final `bot_index`. -/
def frame_inner (w : SidebarWindowData) (page_size : Int) :
    Nat → Int → Int → Except Fault Int
  | 0, _, _ => .error .fuel
  | n + 1, bot, page_entries =>
    if page_entries < page_size then
      let bot := bot + 1
      if bot ≥ w.entry_count then .ok bot
      else
        match entry_at w bot with
        | .error f => .error f
        | .ok sbe =>
          frame_inner w page_size n bot
            (if sbe.is_hidden = false then page_entries + 1 else page_entries)
    else .ok bot

/-- The outer `while (bot_index < hil_index)` loop of the filtered framing
(sidebar.c:715); returns the final `(top_index, bot_index)`. -/
def frame_outer (w : SidebarWindowData) (page_size : Int) :
    Nat → Int → Int → Except Fault (Int × Int)
  | 0, _, _ => .error .fuel
  | n + 1, top, bot =>
    if bot < w.hil_index then
      match frame_inner w page_size (w.entries.length + 1) bot 0 with
      | .error f => .error f
      | .ok bot1 => frame_outer w page_size n (bot + 1) bot1
    else .ok (top, bot)

/-- The page bounds before the clamp (sidebar.c:711-734): the scan when a
filter is enabled, the page arithmetic otherwise (C division truncates). -/
def frame_bounds (env : Env) (w : SidebarWindowData) (page_size : Int) :
    Except Fault (Int × Int) :=
  if env.C_SidebarNewMailOnly = true ∨ env.C_SidebarNonEmptyMailboxOnly = true then
    frame_outer w page_size (w.entries.length + 1) (-1) (-1)
  else
    let top := (Int.tdiv w.hil_index page_size) * page_size
    .ok (top, top + page_size - 1)

/-- Framing of the page around `hil_index` (sidebar.c:711-737), the clamp of
`bot_index` included. -/
def frame_page (env : Env) (w : SidebarWindowData) (page_size : Int) :
    Except Fault SidebarWindowData :=
  match frame_bounds env w page_size with
  | .error f => .error f
  | .ok (top, bot) =>
    .ok { w with top_index := top,
                 bot_index := if bot > w.entry_count - 1 then w.entry_count - 1 else bot }

/-- The remembered `opn_entry` / `hil_entry` pointer (sidebar.c:678): `NULL`
for a negative cursor, else the content of the slot. -/
def remember_entry (w : SidebarWindowData) (i : Int) : Except Fault (Option Nat) :=
  if i ≥ 0 then
    match entry_at w i with
    | .error f => .error f
    | .ok sbe => .ok (some sbe.addr)
  else .ok none

/-- `calc_page(win, wdata, page_size)`. -/
def calc_page (env : Env) (w : SidebarWindowData) (page_size : Int) :
    Except Fault SidebarWindowData :=
  if page_size ≤ 0 then .ok w
  else
    match remember_entry w w.opn_index, remember_entry w w.hil_index with
    | .error f, _ => .error f
    | _, .error f => .error f
    | .ok opn_entry, .ok hil_entry =>
      let w1 := sort_entries env (update_entries_visibility env w)
      let c := resolve_loop opn_entry hil_entry 0 w1.entries (w1.opn_index, w1.hil_index)
      let w2 := { w1 with opn_index := c.1, hil_index := c.2 }
      match repair_highlight env w2 with
      | .error f => .error f
      | .ok w3 =>
        match frame_page env w3 page_size with
        | .error f => .error f
        | .ok w4 => .ok { w4 with previous_sort := env.C_SidebarSortMethod }

/-! ## Predicates and examples -/

/-- A cursor is `-1` or an index of a live slot of a store with `n` entries. -/
def cursor_ok (n : Int) (c : Int) : Prop := c = -1 ∨ (0 ≤ c ∧ c < n)

instance (n c : Int) : Decidable (cursor_ok n c) := by
  unfold cursor_ok; infer_instance

/-- All four cursors are `-1` or in `[0, entry_count)`. -/
def cursors_ok (w : SidebarWindowData) : Prop :=
  cursor_ok w.entry_count w.top_index ∧ cursor_ok w.entry_count w.bot_index ∧
  cursor_ok w.entry_count w.opn_index ∧ cursor_ok w.entry_count w.hil_index

instance (w : SidebarWindowData) : Decidable (cursors_ok w) := by
  unfold cursors_ok; infer_instance

/-- A small environment for the worked examples: no filter, no active mailbox. -/
def env_plain : Env :=
  { C_SidebarNewMailOnly := false, C_SidebarNonEmptyMailboxOnly := false,
    C_SidebarNextNewWrap := false, C_SidebarSortMethod := 0,
    SidebarWhitelist := [], Context := none,
    mailboxes := fun a =>
      { realpath := "", path := "", name := "", msg_count := (a : Int),
        msg_unread := 0, msg_flagged := 0, has_new := false },
    mailboxlist := [],
    strcoll := fun _ _ => 0, mutt_inbox_cmp := fun _ _ => 0 }

/-- An entry as `sb_notify_mailbox` creates it. -/
def mk_entry (addr m : Nat) : SbEntry :=
  { addr := addr, box := "", mailbox := m, is_hidden := false, color := 0 }

/-- A one-entry store whose page top is unset. -/
def w_one : SidebarWindowData :=
  { entries := [mk_entry 101 1], entry_max := 10, top_index := -1, opn_index := -1,
    hil_index := 0, bot_index := 0, previous_sort := 0 }

/-- A three-entry store at capacity, highlight on the middle entry, last entry opened. -/
def w_three : SidebarWindowData :=
  { entries := [mk_entry 101 1, mk_entry 102 2, mk_entry 103 3], entry_max := 3,
    top_index := 0, opn_index := 2, hil_index := 1, bot_index := 2, previous_sort := 0 }

/-- The store after its last mailbox was removed. -/
def w_empty : SidebarWindowData :=
  { entries := [], entry_max := 10, top_index := -1, opn_index := -1,
    hil_index := -1, bot_index := -1, previous_sort := 0 }

/-- An environment with the non-empty-only filter on; mailbox `a` holds `a % 4` messages. -/
def env_non_empty : Env :=
  { env_plain with
    C_SidebarNonEmptyMailboxOnly := true,
    mailboxes := fun a =>
      { realpath := "", path := "", name := "", msg_count := ((a % 4 : Nat) : Int),
        msg_unread := 0, msg_flagged := 0, has_new := false } }

/-- Five entries whose mailboxes hold 0, 3, 0, 1, 1 messages; all cursors unset. -/
def w_counts : SidebarWindowData :=
  { entries := [mk_entry 101 4, mk_entry 102 3, mk_entry 103 8, mk_entry 104 5,
                mk_entry 105 1],
    entry_max := 10, top_index := -1, opn_index := -1, hil_index := -1, bot_index := -1,
    previous_sort := 0 }

/-- A store holding a single mailbox, highlighted and framed. -/
def w_last : SidebarWindowData :=
  { entries := [mk_entry 101 1], entry_max := 10, top_index := 0, opn_index := -1,
    hil_index := 0, bot_index := 0, previous_sort := 0 }
/-- The comparison `cb_qsort_sbe` orders the entries `es` consistently: any two
are comparable and the order is transitive (what `qsort` asks of its callback). -/
def cmp_consistent (env : Env) (es : List SbEntry) : Prop :=
  (∀ a ∈ es, ∀ b ∈ es, cb_qsort_sbe env a b ≤ 0 ∨ cb_qsort_sbe env b a ≤ 0) ∧
  (∀ a ∈ es, ∀ b ∈ es, ∀ c ∈ es,
    cb_qsort_sbe env a b ≤ 0 → cb_qsort_sbe env b c ≤ 0 → cb_qsort_sbe env a c ≤ 0)

instance (env : Env) (es : List SbEntry) : Decidable (cmp_consistent env es) := by
  unfold cmp_consistent; infer_instance

/-- The heap cells of the entries are pairwise distinct. -/
def addrs_distinct (es : List SbEntry) : Prop := (es.map (fun e => e.addr)).Nodup

instance (es : List SbEntry) : Decidable (addrs_distinct es) := by
  unfold addrs_distinct; infer_instance

/-- The sort method is one of those that `sort_entries` hands to `qsort`
(sidebar.c:464). -/
def qsort_mode (env : Env) : Prop :=
  env.C_SidebarSortMethod &&& SORT_MASK = SORT_COUNT ∨
  env.C_SidebarSortMethod &&& SORT_MASK = SORT_UNREAD ∨
  env.C_SidebarSortMethod &&& SORT_MASK = SORT_FLAGGED ∨
  env.C_SidebarSortMethod &&& SORT_MASK = SORT_PATH

instance (env : Env) : Decidable (qsort_mode env) := by
  unfold qsort_mode; infer_instance

/-- No two different entries compare equal: entries that `cb_qsort_sbe` puts
before each other are the same cell. -/
def cmp_no_ties (env : Env) (es : List SbEntry) : Prop :=
  ∀ a ∈ es, ∀ b ∈ es, cb_qsort_sbe env a b ≤ 0 → cb_qsort_sbe env b a ≤ 0 → a.addr = b.addr

instance (env : Env) (es : List SbEntry) : Decidable (cmp_no_ties env es) := by
  unfold cmp_no_ties; infer_instance

/-- The page cursors are set: `top_index` and `bot_index` are `>= 0`, unless the
store is empty.  The zeroed store of `sb_wdata_new` has this property and
`sb_notify_mailbox`, `calc_page` and the navigator keep it. -/
def page_cursors_set (w : SidebarWindowData) : Prop :=
  (0 ≤ w.top_index ∧ 0 ≤ w.bot_index) ∨ w.entry_count = 0

instance (w : SidebarWindowData) : Decidable (page_cursors_set w) := by
  unfold page_cursors_set; infer_instance
/-- The flag that the body of the general visibility loop assigns to an entry
of mailbox `m`; `at_opn` tells whether the slot is `opn_index`. -/
def hidden_flag (env : Env) (m : Nat) (at_opn : Bool) : Bool :=
  if is_active env m = true then false
  else if (mutt_list_find env.SidebarWhitelist (env.mailboxes m).path ||
           mutt_list_find env.SidebarWhitelist (env.mailboxes m).name) = true then false
  else
    (env.C_SidebarNonEmptyMailboxOnly && !at_opn && decide ((env.mailboxes m).msg_count = 0)) ||
    (env.C_SidebarNewMailOnly && !at_opn && decide ((env.mailboxes m).msg_unread = 0) &&
      decide ((env.mailboxes m).msg_flagged = 0) && !(env.mailboxes m).has_new)
/-- The non-empty-only filter together with sorting by message count. -/
def env_sort_count : Env :=
  { env_non_empty with C_SidebarSortMethod := SORT_COUNT,
                       strcoll := fun a b => mutt_str_strcmp a b }

/-- `init_data` (sidebar.c:1301): every mailbox of the list is announced with
`sb_notify_mailbox(np->mailbox, true)`; `cells` are the addresses that
`mutt_mem_calloc` returns for the new entries. -/
def init_data (env : Env) (w : SidebarWindowData) (cells : List Nat) : SidebarWindowData :=
  (List.zip cells env.mailboxlist).foldl
    (fun acc p => (sb_notify_mailbox env acc p.1 p.2 true).1) w

/-- Five mailboxes 1..5 holding 0, 3, 0, 5, 1 messages, the non-empty-only
filter on, no active mailbox and no whitelist. -/
def env_scenario_a : Env :=
  { env_plain with
    C_SidebarNonEmptyMailboxOnly := true,
    mailboxlist := [1, 2, 3, 4, 5],
    mailboxes := fun a =>
      { realpath := "", path := "", name := "",
        msg_count := (match a with
          | 2 => 3
          | 4 => 5
          | 5 => 1
          | _ => 0),
        msg_unread := 0, msg_flagged := 0, has_new := false } }

/-- The five mailboxes of `env_scenario_a` in a store with every cursor unset. -/
def w_scenario_a : SidebarWindowData :=
  { entries := [mk_entry 101 1, mk_entry 102 2, mk_entry 103 3, mk_entry 104 4,
                mk_entry 105 5],
    entry_max := 10, top_index := -1, opn_index := -1, hil_index := -1, bot_index := -1,
    previous_sort := 0 }

/-- Mailboxes 1, 2, 3 with real paths `/a`, `/b`, `/c`; mailbox `c` is the active one. -/
def env_active (c : Nat) : Env :=
  { env_plain with
    Context := some c,
    mailboxlist := [1, 2, 3],
    mailboxes := fun a =>
      { realpath := (match a with
          | 1 => "/a"
          | 2 => "/b"
          | _ => "/c"),
        path := "", name := "", msg_count := 0, msg_unread := 0, msg_flagged := 0,
        has_new := false } }

/-- The active mailbox of `env_active 1` together with the new-mail-only filter. -/
def env_active_new_only : Env :=
  { env_active 1 with C_SidebarNewMailOnly := true }

/-- `mailbox_path(sbe->mailbox)`. -/
def entry_path (env : Env) (sbe : SbEntry) : String :=
  (env.mailboxes sbe.mailbox).path

/-- The count that the selected numeric sort mode compares: `msg_count`,
`msg_unread` or `msg_flagged` of the mailbox at address `m`. -/
def numeric_key (env : Env) (m : Nat) : Int :=
  if env.C_SidebarSortMethod &&& SORT_MASK = SORT_COUNT then (env.mailboxes m).msg_count
  else if env.C_SidebarSortMethod &&& SORT_MASK = SORT_UNREAD then (env.mailboxes m).msg_unread
  else (env.mailboxes m).msg_flagged

/-- The sort mode is one of the three numeric modes. -/
def numeric_mode (env : Env) : Prop :=
  env.C_SidebarSortMethod &&& SORT_MASK = SORT_COUNT ∨
  env.C_SidebarSortMethod &&& SORT_MASK = SORT_UNREAD ∨
  env.C_SidebarSortMethod &&& SORT_MASK = SORT_FLAGGED

instance (env : Env) : Decidable (numeric_mode env) := by
  unfold numeric_mode; infer_instance

/-- The compared counts of the entries lie in `[0, INT_MAX]`. -/
def counts_in_range (env : Env) (es : List SbEntry) : Prop :=
  ∀ e ∈ es, 0 ≤ numeric_key env e.mailbox ∧ numeric_key env e.mailbox ≤ 2147483647

instance (env : Env) (es : List SbEntry) : Decidable (counts_in_range env es) := by
  unfold counts_in_range; infer_instance

/-- On the paths of the entries, `strcoll(a, b) <= 0` compares any two paths
and is transitive. -/
def strcoll_preorder (env : Env) (es : List SbEntry) : Prop :=
  (∀ a ∈ es, ∀ b ∈ es,
    env.strcoll (entry_path env a) (entry_path env b) ≤ 0 ∨
    env.strcoll (entry_path env b) (entry_path env a) ≤ 0) ∧
  (∀ a ∈ es, ∀ b ∈ es, ∀ c ∈ es,
    env.strcoll (entry_path env a) (entry_path env b) ≤ 0 →
    env.strcoll (entry_path env b) (entry_path env c) ≤ 0 →
    env.strcoll (entry_path env a) (entry_path env c) ≤ 0)

instance (env : Env) (es : List SbEntry) : Decidable (strcoll_preorder env es) := by
  unfold strcoll_preorder; infer_instance

/-- On the paths of the entries, `strcoll` is a total order: swapping the
arguments swaps the sign, `<= 0` is transitive, and the result is 0 only for
equal paths. -/
def strcoll_total_order (env : Env) (es : List SbEntry) : Prop :=
  (∀ a ∈ es, ∀ b ∈ es,
    (env.strcoll (entry_path env a) (entry_path env b) ≤ 0 ↔
      0 ≤ env.strcoll (entry_path env b) (entry_path env a))) ∧
  (∀ a ∈ es, ∀ b ∈ es, ∀ c ∈ es,
    env.strcoll (entry_path env a) (entry_path env b) ≤ 0 →
    env.strcoll (entry_path env b) (entry_path env c) ≤ 0 →
    env.strcoll (entry_path env a) (entry_path env c) ≤ 0) ∧
  (∀ a ∈ es, ∀ b ∈ es,
    env.strcoll (entry_path env a) (entry_path env b) = 0 → entry_path env a = entry_path env b)

instance (env : Env) (es : List SbEntry) : Decidable (strcoll_total_order env es) := by
  unfold strcoll_total_order; infer_instance

/-- Scenario B: mailboxes 1, 2, 3 with paths `b`, `a`, `c` and 2, 2, 5 unread
messages, sorted by unread count. -/
def env_scenario_b : Env :=
  { env_plain with
    C_SidebarSortMethod := SORT_UNREAD,
    strcoll := fun a b => mutt_str_strcmp a b,
    mailboxlist := [1, 2, 3],
    mailboxes := fun a =>
      { realpath := "",
        path := (match a with
          | 1 => "b"
          | 2 => "a"
          | _ => "c"),
        name := "", msg_count := 0,
        msg_unread := (match a with
          | 1 => 2
          | 2 => 2
          | _ => 5),
        msg_flagged := 0, has_new := false } }

/-- The three entries of Scenario B in the order `c`, `b`, `a`. -/
def w_three_rotated : SidebarWindowData :=
  { w_three with entries := [mk_entry 103 3, mk_entry 101 1, mk_entry 102 2] }
/-- Mailboxes 1 and 2 named `b` and `a`, sorted by name (`SORT_DESC`). -/
def env_name_mode : Env :=
  { env_plain with
    C_SidebarSortMethod := SORT_DESC,
    strcoll := fun a b => mutt_str_strcmp a b,
    mailboxlist := [1, 2],
    mailboxes := fun a =>
      { realpath := "", path := "",
        name := (match a with
          | 1 => "b"
          | _ => "a"),
        msg_count := 0, msg_unread := 0, msg_flagged := 0, has_new := false } }

/-- Two entries for mailboxes 1 and 2, framed and highlighted on slot 0. -/
def w_two : SidebarWindowData :=
  { entries := [mk_entry 101 1, mk_entry 102 2], entry_max := 10, top_index := 0,
    opn_index := -1, hil_index := 0, bot_index := 1, previous_sort := SORT_DESC }

/-- An inbox comparison for the examples: `/mail/INBOX` is the inbox. -/
def inbox_cmp_example (a b : String) : Int :=
  if mutt_str_strcmp a "/mail/INBOX" = 0 then
    (if mutt_str_strcmp b "/mail/INBOX" = 0 then 0 else -1)
  else if mutt_str_strcmp b "/mail/INBOX" = 0 then 1 else 0

/-- Mailbox 1 at `/mail/work` and mailbox 2 at `/mail/INBOX`, sorted by path
under sort method `method`. -/
def env_path_mode (method : Nat) : Env :=
  { env_plain with
    C_SidebarSortMethod := method,
    strcoll := fun a b => mutt_str_strcmp a b,
    mutt_inbox_cmp := inbox_cmp_example,
    mailboxlist := [1, 2],
    mailboxes := fun a =>
      { realpath := "",
        path := (match a with
          | 1 => "/mail/work"
          | _ => "/mail/INBOX"),
        name := "", msg_count := 0, msg_unread := 0, msg_flagged := 0, has_new := false } }

/-- The external enumeration lists the mailboxes as 3, 1, 2; insertion-order
mode is selected. -/
def env_order_mode : Env :=
  { env_plain with C_SidebarSortMethod := SORT_ORDER, mailboxlist := [3, 1, 2] }

/-! ## Navigation (sidebar.c:500-661) -/

/-- The `do ... while` loop of `select_prev` (sidebar.c:538): `none` is the
`return false` below slot 0, `some entry` the index the loop stopped at. -/
def select_prev_loop (w : SidebarWindowData) : Nat → Int → Except Fault (Option Int)
  | 0, _ => .error .fuel
  | n + 1, entry =>
    let entry := entry - 1
    if entry < 0 then .ok none
    else
      match entry_at w entry with
      | .error f => .error f
      | .ok sbe => if sbe.is_hidden = true then select_prev_loop w n entry else .ok (some entry)

/-- `select_prev`. -/
def select_prev (w : SidebarWindowData) : Except Fault (SidebarWindowData × Bool) :=
  if w.entry_count = 0 ∨ w.hil_index < 0 then .ok (w, false)
  else
    match select_prev_loop w (w.entries.length + 1) w.hil_index with
    | .error f => .error f
    | .ok none => .ok (w, false)
    | .ok (some entry) => .ok ({ w with hil_index := entry }, true)

/-- The loop condition of `select_next_new` / `select_prev_new` negated: the
mailbox of the entry has new mail or unread messages. -/
def has_new_mail (env : Env) (sbe : SbEntry) : Bool :=
  (env.mailboxes sbe.mailbox).has_new || decide ((env.mailboxes sbe.mailbox).msg_unread ≠ 0)

/-- The `do ... while` loop of `select_next_new` (sidebar.c:507). -/
def select_next_new_loop (env : Env) (w : SidebarWindowData) :
    Nat → Int → Except Fault (Option Int)
  | 0, _ => .error .fuel
  | n + 1, entry =>
    let entry := entry + 1
    let wrapped : Option Int :=
      if entry = w.entry_count then (if env.C_SidebarNextNewWrap = true then some 0 else none)
      else some entry
    match wrapped with
    | none => .ok none
    | some entry =>
      if entry = w.hil_index then .ok none
      else
        match entry_at w entry with
        | .error f => .error f
        | .ok sbe =>
          if has_new_mail env sbe = false then select_next_new_loop env w n entry
          else .ok (some entry)

/-- `select_next_new`. -/
def select_next_new (env : Env) (w : SidebarWindowData) :
    Except Fault (SidebarWindowData × Bool) :=
  if w.entry_count = 0 ∨ w.hil_index < 0 then .ok (w, false)
  else
    match select_next_new_loop env w (w.entries.length + 1) w.hil_index with
    | .error f => .error f
    | .ok none => .ok (w, false)
    | .ok (some entry) => .ok ({ w with hil_index := entry }, true)

/-- The `do ... while` loop of `select_prev_new` (sidebar.c:563). -/
def select_prev_new_loop (env : Env) (w : SidebarWindowData) :
    Nat → Int → Except Fault (Option Int)
  | 0, _ => .error .fuel
  | n + 1, entry =>
    let entry := entry - 1
    let wrapped : Option Int :=
      if entry < 0 then
        (if env.C_SidebarNextNewWrap = true then some (w.entry_count - 1) else none)
      else some entry
    match wrapped with
    | none => .ok none
    | some entry =>
      if entry = w.hil_index then .ok none
      else
        match entry_at w entry with
        | .error f => .error f
        | .ok sbe =>
          if has_new_mail env sbe = false then select_prev_new_loop env w n entry
          else .ok (some entry)

/-- `select_prev_new`. -/
def select_prev_new (env : Env) (w : SidebarWindowData) :
    Except Fault (SidebarWindowData × Bool) :=
  if w.entry_count = 0 ∨ w.hil_index < 0 then .ok (w, false)
  else
    match select_prev_new_loop env w (w.entries.length + 1) w.hil_index with
    | .error f => .error f
    | .ok none => .ok (w, false)
    | .ok (some entry) => .ok ({ w with hil_index := entry }, true)

/-- `select_page_down`. -/
def select_page_down (w : SidebarWindowData) : Except Fault (SidebarWindowData × Bool) :=
  if w.entry_count = 0 ∨ w.bot_index < 0 then .ok (w, false)
  else
    match select_next { w with hil_index := w.bot_index } with
    | .error f => .error f
    | .ok r1 =>
      match entry_at r1.1 r1.1.hil_index with
      | .error f => .error f
      | .ok sbe =>
        if sbe.is_hidden = true then
          match select_prev r1.1 with
          | .error f => .error f
          | .ok r2 => .ok (r2.1, decide (w.hil_index ≠ r2.1.hil_index))
        else .ok (r1.1, decide (w.hil_index ≠ r1.1.hil_index))

/-- `select_page_up`. -/
def select_page_up (w : SidebarWindowData) : Except Fault (SidebarWindowData × Bool) :=
  if w.entry_count = 0 ∨ w.top_index < 0 then .ok (w, false)
  else
    match select_prev { w with hil_index := w.top_index } with
    | .error f => .error f
    | .ok r1 =>
      match entry_at r1.1 r1.1.hil_index with
      | .error f => .error f
      | .ok sbe =>
        if sbe.is_hidden = true then
          match select_next r1.1 with
          | .error f => .error f
          | .ok r2 => .ok (r2.1, decide (w.hil_index ≠ r2.1.hil_index))
        else .ok (r1.1, decide (w.hil_index ≠ r1.1.hil_index))

/-- `select_first`. -/
def select_first (w : SidebarWindowData) : Except Fault (SidebarWindowData × Bool) :=
  if w.entry_count = 0 ∨ w.hil_index < 0 then .ok (w, false)
  else
    match entry_at { w with hil_index := 0 } 0 with
    | .error f => .error f
    | .ok sbe =>
      if sbe.is_hidden = true then
        match select_next { w with hil_index := 0 } with
        | .error f => .error f
        | .ok r1 =>
          let hil : Int := if r1.2 = false then w.hil_index else r1.1.hil_index
          .ok ({ r1.1 with hil_index := hil }, decide (w.hil_index ≠ hil))
      else .ok ({ w with hil_index := 0 }, decide (w.hil_index ≠ 0))

/-- `select_last`. -/
def select_last (w : SidebarWindowData) : Except Fault (SidebarWindowData × Bool) :=
  if w.entry_count = 0 ∨ w.hil_index < 0 then .ok (w, false)
  else
    match select_prev { w with hil_index := w.entry_count } with
    | .error f => .error f
    | .ok r1 =>
      let hil : Int := if r1.2 = false then w.hil_index else r1.1.hil_index
      .ok ({ r1.1 with hil_index := hil }, decide (w.hil_index ≠ hil))

/-- `sb_get_highlight` (sidebar.c:1211): the highlighted mailbox, `0` (`NULL`)
when the sidebar is not visible, the store is empty or the highlight is unset. -/
def sb_get_highlight (env : Env) (w : SidebarWindowData) : Except Fault Nat :=
  if env.C_SidebarVisible = false then .ok 0
  else if w.entry_count = 0 ∨ w.hil_index < 0 then .ok 0
  else
    match entry_at w w.hil_index with
    | .error f => .error f
    | .ok sbe => .ok sbe.mailbox

/-- The entry of slot `k` exists and is not hidden. -/
def unhidden_at (w : SidebarWindowData) (k : Int) : Prop :=
  ∃ sbe, entry_at w k = .ok sbe ∧ sbe.is_hidden = false

/-- The entry of slot `k` exists and its mailbox has new mail or unread messages. -/
def new_at (env : Env) (w : SidebarWindowData) (k : Int) : Prop :=
  ∃ sbe, entry_at w k = .ok sbe ∧ has_new_mail env sbe = true

/-- Five entries with hidden flags `[true, false, true, false, false]`,
highlight on slot 3, page `[1, 3]`. -/
def w_flags : SidebarWindowData :=
  { entries := [{ mk_entry 101 1 with is_hidden := true }, mk_entry 102 2,
                { mk_entry 103 3 with is_hidden := true }, mk_entry 104 4, mk_entry 105 5],
    entry_max := 10, top_index := 1, opn_index := -1, hil_index := 3, bot_index := 3,
    previous_sort := 0 }

/-- The two-entry store `w_two` with the highlight on the last entry. -/
def w_two_last : SidebarWindowData := { w_two with hil_index := 1 }

/-- Position of slot `j` in the forward cyclic scan that starts at
`hil_index + 1`. -/
def fwd_rank (w : SidebarWindowData) (j : Int) : Int :=
  (j - (w.hil_index + 1)) % w.entry_count

/-- Position of slot `j` in the backward cyclic scan that starts at
`hil_index - 1`. -/
def bwd_rank (w : SidebarWindowData) (j : Int) : Int :=
  (w.hil_index - 1 - j) % w.entry_count

/-- Mailboxes 1..5 of which 2 has unread messages and 4 has new mail; the
wrap option is the argument. -/
def env_new_mail (wrap : Bool) : Env :=
  { env_plain with
    C_SidebarNextNewWrap := wrap,
    mailboxlist := [1, 2, 3, 4, 5],
    mailboxes := fun a =>
      { realpath := "", path := "", name := "", msg_count := 0,
        msg_unread := (if a = 2 then 7 else 0), msg_flagged := 0,
        has_new := decide (a = 4) } }

/-- The store of `w_scenario_a` with the highlight on slot 3 (mailbox 4). -/
def w_five : SidebarWindowData :=
  { w_scenario_a with top_index := 0, hil_index := 3, bot_index := 4 }

/-- Scenario E of the specification: wrapping enabled, no mailbox with new or
unread mail. -/
def env_scenario_e : Env :=
  { env_plain with C_SidebarNextNewWrap := true, mailboxlist := [1, 2, 3] }

/-- The store of Scenario E: three entries, highlight on slot 0. -/
def w_scenario_e : SidebarWindowData := { w_three with hil_index := 0 }

/-- Frame of a navigator call on `w` with result `r`: the store differs from
`w` in `hil_index` at most, and not at all when the call returned false. -/
def hil_frame (w : SidebarWindowData) (r : SidebarWindowData × Bool) : Prop :=
  (∃ k, r.1 = { w with hil_index := k }) ∧ (r.2 = false → r.1 = w)

/-! ## The divider (sidebar.c:747) -/

/-- Read of `C_SidebarDividerChar[i]`: the bytes of the string, then its
terminating NUL; anything beyond is outside the array. -/
def divider_byte (s : List Nat) (i : Nat) : Except Fault Nat :=
  if i < s.length then .ok (s.getD i 0)
  else if i = s.length then .ok 0
  else .error .oob

/-- The `for` loop of `calc_divider` over `n` more bytes from index `i`: `true`
when a byte with a bit above the low seven (`& ~0x7F`) is met. -/
def divider_high_bit (s : List Nat) : Nat → Nat → Except Fault Bool
  | 0, _ => .ok false
  | n + 1, i =>
    match divider_byte s i with
    | .error f => .error f
    | .ok b => if b &&& 0xFFFFFF80 ≠ 0 then .ok true else divider_high_bit s n (i + 1)

/-- The `$ascii_chars` block that ends `calc_divider` (sidebar.c:769). -/
def calc_divider_ascii (env : Env) (w : SidebarWindowData) : Except Fault SidebarWindowData :=
  if env.C_AsciiChars = true ∧ w.divider_type ≠ DivType.SB_DIV_ASCII then
    if w.divider_type = DivType.SB_DIV_UTF8 then
      .ok { w with divider_type := DivType.SB_DIV_ASCII }
    else
      match env.C_SidebarDividerChar with
      | none => .ok w
      | some s =>
        match divider_high_bit s w.divider_width.toNat 0 with
        | .error f => .error f
        | .ok true => .ok { w with divider_type := DivType.SB_DIV_ASCII, divider_width := 1 }
        | .ok false => .ok w
  else .ok w

/-- `calc_divider`.  `mutt_strwidth (NULL)` is 0. -/
def calc_divider (env : Env) (w : SidebarWindowData) : Except Fault SidebarWindowData :=
  let w := { w with divider_type := DivType.SB_DIV_UTF8 }
  let width : Int :=
    match env.C_SidebarDividerChar with
    | none => 0
    | some s => env.mutt_strwidth s
  let w := { w with divider_width := width }
  if w.divider_width < 0 then calc_divider_ascii env { w with divider_width := 1 }
  else if w.divider_width = 0 then
    if env.C_SidebarDividerChar.isSome = true then .ok w
    else calc_divider_ascii env { w with divider_width := 1 }
  else calc_divider_ascii env { w with divider_type := DivType.SB_DIV_USER }

/-- A divider option set to the empty string. -/
def env_divider_empty : Env := { env_plain with C_SidebarDividerChar := some [] }

/-- A divider option whose bytes `mutt_strwidth` cannot measure (width `-1`),
with `$ascii_chars` set. -/
def env_divider_bad : Env :=
  { env_plain with C_SidebarDividerChar := some [0xFF], C_AsciiChars := true,
                   mutt_strwidth := fun _ => -1 }

/-- A two-byte UTF-8 divider of width 1 with `$ascii_chars` set. -/
def env_divider_utf8 : Env :=
  { env_plain with C_SidebarDividerChar := some [0xC2, 0xA6], C_AsciiChars := true,
                   mutt_strwidth := fun _ => 1 }

/-! ## Splitting a string into a list (test/list/mutt_list_str_split.c) -/

/-- Modelled from the spec: the scan loop of `mutt_list_str_split`, whose body
is missing from the sources (only its test is there).  `field` holds the
characters read since the last separator, `head` the list built so far and
`count` the number of fields appended to it. -/
def str_split_loop (sep : Char) :
    List Char → List Char → List (List Char) → Nat → Nat × List (List Char)
  | [], field, head, count => (count + 1, head ++ [field])
  | c :: rest, field, head, count =>
    if c = sep then str_split_loop sep rest [] (head ++ [field]) (count + 1)
    else str_split_loop sep rest (field ++ [c]) head count

/-- Modelled from the spec: `size_t mutt_list_str_split (const char *src, char
sep, struct ListHead *head)`, declared in the test only.  `none` is a `NULL`
source; the result is the returned count and the list `head` afterwards. -/
def mutt_list_str_split (src : Option (List Char)) (sep : Char) (head : List (List Char)) :
    Nat × List (List Char) :=
  match src with
  | none => (0, head)
  | some [] => (0, head)
  | some (c :: rest) => str_split_loop sep (c :: rest) [] head 0

/-- The fields joined with `sep` between neighbours. -/
def join_fields (sep : Char) : List (List Char) → List Char
  | [] => []
  | [f] => f
  | f :: g :: rest => f ++ sep :: join_fields sep (g :: rest)

/-! ## Path abbreviation (sidebar.c:941-996) -/

/-- Modelled from the spec: `enum MailboxType` is declared outside these
sources (`core/mailbox.h`); the constructors are NeoMutt's mailbox types, of
which `abbrev_url` names four. -/
inductive MailboxType where
  | MUTT_MAILBOX_ANY
  | MUTT_MAILBOX_ERROR
  | MUTT_UNKNOWN
  | MUTT_COMPRESSED
  | MUTT_IMAP
  | MUTT_MAILDIR
  | MUTT_MBOX
  | MUTT_MH
  | MUTT_MMDF
  | MUTT_NNTP
  | MUTT_NOTMUCH
  | MUTT_POP
deriving DecidableEq, Repr

/-- `strchr (s, c)` for a character `c` other than NUL: the suffix of `s` that
starts at the first `c`, `none` (`NULL`) when `s` has none. -/
def strchr : List Char → Char → Option (List Char)
  | [], _ => none
  | x :: rest, c => if x = c then some (x :: rest) else strchr rest c

/-- `strpbrk (s, accept)`: the suffix of `s` that starts at its first character
contained in `accept`, `none` (`NULL`) when there is none. -/
def strpbrk : List Char → List Char → Option (List Char)
  | [], _ => none
  | x :: rest, accept => if x ∈ accept then some (x :: rest) else strpbrk rest accept

/-- `mutt_str_strlen`: the length of a string, 0 for `NULL`. -/
def mutt_str_strlen (s : Option (List Char)) : Nat :=
  match s with
  | none => 0
  | some l => l.length

/-- `abbrev_url`: the returned pointer as the suffix of `mbox` it points to. -/
def abbrev_url (mbox : Option (List Char)) (type : MailboxType) : Option (List Char) :=
  let scheme_len : Nat := 10
  let len := mutt_str_strlen mbox
  if len < scheme_len ∨ (type ≠ MailboxType.MUTT_NNTP ∧ type ≠ MailboxType.MUTT_IMAP ∧
      type ≠ MailboxType.MUTT_NOTMUCH ∧ type ≠ MailboxType.MUTT_POP) then mbox
  else
    match mbox with
    | none => none
    | some s =>
      let split : Char := if type = MailboxType.MUTT_NOTMUCH then '?' else '/'
      match strchr (s.drop scheme_len) split with
      | some last => some last.tail
      | none => some s

/-- The `while` loop of `calc_path_depth` (sidebar.c:988): the final `depth` and
`mbox`.  `match + 1` is the tail of the suffix that `strpbrk` returns. -/
def calc_path_depth_loop (delims : List Char) :
    Nat → List Char → Int → Except Fault (Int × List Char)
  | 0, _, _ => .error .fuel
  | n + 1, mbox, depth =>
    match strpbrk mbox delims with
    | none => .ok (depth, mbox)
    | some m => calc_path_depth_loop delims n m.tail (depth + 1)

/-- `calc_path_depth`.  The out-parameter `last_part` is `none` for a `NULL`
pointer and otherwise holds the string pointer it refers to; the result is the
returned depth and `last_part` afterwards.  `depth` counts characters of the
path, so it stays far below `INT_MAX`. -/
def calc_path_depth (mbox delims : Option (List Char))
    (last_part : Option (Option (List Char))) :
    Except Fault (Int × Option (Option (List Char))) :=
  match mbox, delims, last_part with
  | some m, some d, some _ =>
    match calc_path_depth_loop d (m.length + 1) m 0 with
    | .error f => .error f
    | .ok (depth, rest) => .ok (depth, some (some rest))
  | _, _, _ => .ok (0, last_part)

/-! ## The steps of calc_page -/

/-- The part of `calc_page` up to the end of the re-resolution loop
(sidebar.c:678-692): the cursors remembered, the entries filtered and sorted,
`opn_index` and `hil_index` resolved again. -/
def calc_page_resolve (env : Env) (w : SidebarWindowData) : Except Fault SidebarWindowData :=
  match remember_entry w w.opn_index, remember_entry w w.hil_index with
  | .error f, _ => .error f
  | _, .error f => .error f
  | .ok opn_entry, .ok hil_entry =>
    let w1 := sort_entries env (update_entries_visibility env w)
    let c := resolve_loop opn_entry hil_entry 0 w1.entries (w1.opn_index, w1.hil_index)
    .ok { w1 with opn_index := c.1, hil_index := c.2 }

/-- The condition of the highlight repair (sidebar.c:694): the highlight is
unset, or on a hidden entry, or the sort method changed. -/
def repair_needed (env : Env) (w : SidebarWindowData) : Prop :=
  w.hil_index < 0 ∨ (∃ sbe, entry_at w w.hil_index = .ok sbe ∧ sbe.is_hidden = true) ∨
  env.C_SidebarSortMethod ≠ w.previous_sort

/-- Number of unhidden entries of a list. -/
def unhidden_count (es : List SbEntry) : Nat := es.countP (fun e => !e.is_hidden)

/-- The entries of the slots `[lo, hi]`. -/
def window_entries (w : SidebarWindowData) (lo hi : Int) : List SbEntry :=
  (w.entries.take (hi + 1).toNat).drop lo.toNat

/-- Number of unhidden entries in the slots `[0, b]`. -/
def unhidden_through (w : SidebarWindowData) (b : Int) : Int :=
  (unhidden_count (w.entries.take (b + 1).toNat) : Int)

/-! ## Lemmas on the mailbox search -/

theorem scan_mailbox_bounds (m : Nat) (es : List SbEntry) (j : Nat) :
    j ≤ scan_mailbox m es j ∧ scan_mailbox m es j ≤ j + es.length := by
  induction es generalizing j with
  | nil => simp [scan_mailbox]
  | cons e es ih =>
    simp only [scan_mailbox]
    split
    · simp
    · have := ih (j + 1)
      simp only [List.length_cons]
      omega

theorem scan_mailbox_not_found (m : Nat) (es : List SbEntry) (j : Nat)
    (h : ∀ e ∈ es, e.mailbox ≠ m) : scan_mailbox m es j = j + es.length := by
  induction es generalizing j with
  | nil => simp [scan_mailbox]
  | cons e es ih =>
    have h1 : e.mailbox ≠ m := h e (List.mem_cons_self _ _)
    have h2 := ih (j + 1) (fun x hx => h x (List.mem_cons_of_mem _ hx))
    simp only [scan_mailbox, h1, if_false, h2, List.length_cons]
    omega

theorem scan_mailbox_found (m : Nat) (es : List SbEntry) (j d : Nat) (e : SbEntry)
    (hd : es[d]? = some e) (hm : e.mailbox = m)
    (hfirst : ∀ x ∈ es.take d, x.mailbox ≠ m) :
    scan_mailbox m es j = j + d := by
  induction es generalizing j d with
  | nil => simp at hd
  | cons a es ih =>
    cases d with
    | zero =>
      simp at hd
      subst hd
      simp [scan_mailbox, hm]
    | succ d =>
      have ha : a.mailbox ≠ m := hfirst a (by simp)
      simp only [List.getElem?_cons_succ] at hd
      have := ih (j + 1) d hd (fun x hx => hfirst x (by simp [hx]))
      simp only [scan_mailbox, ha, if_false, this]
      omega

/-- Removal of a mailbox found at slot `d`, in closed form. -/
theorem sb_notify_mailbox_remove_eq (env : Env) (w : SidebarWindowData) (fresh m d : Nat)
    (e : SbEntry) (hm : m ≠ 0) (hd : w.entries[d]? = some e) (hem : e.mailbox = m)
    (hfirst : ∀ x ∈ w.entries.take d, x.mailbox ≠ m) :
    sb_notify_mailbox env w fresh m false =
      ({ w with
          entries := w.entries.eraseIdx d,
          top_index :=
            if w.top_index > d ∨ w.top_index = w.entry_count - 1 then w.top_index - 1
            else w.top_index,
          opn_index :=
            if w.opn_index = d then -1
            else if w.opn_index > d then w.opn_index - 1 else w.opn_index,
          hil_index :=
            if w.hil_index > d ∨ w.hil_index = w.entry_count - 1 then w.hil_index - 1
            else w.hil_index,
          bot_index :=
            if w.bot_index > d ∨ w.bot_index = w.entry_count - 1 then w.bot_index - 1
            else w.bot_index }, true) := by
  have hs : scan_mailbox m w.entries 0 = d := by
    simpa using scan_mailbox_found m w.entries 0 d e hd hem hfirst
  have hlt : d < w.entries.length := by
    rcases List.getElem?_eq_some_iff.mp hd with ⟨h, _⟩
    exact h
  have hne : ¬ ((d : Int) = w.entry_count) := by
    unfold SidebarWindowData.entry_count; omega
  unfold sb_notify_mailbox
  simp only [hm, if_false, Bool.false_eq_true, hs, hne, Int.toNat_ofNat]

/-! ## Mailbox notifications -/

/-- C5: if each cursor is `-1` or in `[0, entry_count)`, then after
`sb_notify_mailbox` (creation of any mailbox, or deletion of any mailbox,
present or not) each cursor is again `-1` or in range for the new count. -/
theorem sb_notify_mailbox_cursors_ok (env : Env) (w : SidebarWindowData) (fresh m : Nat)
    (created : Bool) (h : cursors_ok w) :
    cursors_ok (sb_notify_mailbox env w fresh m created).1 := by
  have hb := scan_mailbox_bounds m w.entries 0
  obtain ⟨h1, h2, h3, h4⟩ := h
  unfold sb_notify_mailbox
  by_cases hm : m = 0
  · simp only [hm, if_true]; exact ⟨h1, h2, h3, h4⟩
  · simp only [hm, if_false]
    cases created with
    | true =>
      simp only [if_true]
      unfold cursors_ok cursor_ok SidebarWindowData.entry_count at *
      simp only [List.length_append, List.length_singleton, Nat.cast_add, Nat.cast_one]
      refine ⟨?_, ?_, ?_, ?_⟩ <;> (try split) <;> omega
    | false =>
      simp only [Bool.false_eq_true, if_false]
      split
      · exact ⟨h1, h2, h3, h4⟩
      · rename_i hne
        unfold cursors_ok cursor_ok SidebarWindowData.entry_count at *
        simp only [Int.toNat_ofNat, List.length_eraseIdx]
        have hlt : scan_mailbox m w.entries 0 < w.entries.length := by omega
        simp only [hlt, if_true]
        refine ⟨?_, ?_, ?_, ?_⟩ <;> (repeat' split) <;> omega

/-- Removal of the last of three mailboxes keeps the cursors in range. -/
theorem sb_notify_mailbox_cursors_ok_witness :
    cursors_ok w_three ∧ cursors_ok (sb_notify_mailbox env_plain w_three 104 3 false).1 :=
  ⟨by decide, sb_notify_mailbox_cursors_ok env_plain w_three 104 3 false (by decide)⟩

/-- C6: when the removal finds `m` first at slot `d`, `entry_count` drops by
one, the slots below `d` are unchanged, every entry formerly at `i > d` is at
`i - 1`, `opn_index` becomes `-1` if it was `d`, and every cursor that was
above `d` is decremented by one. -/
theorem sb_notify_mailbox_remove_compacts (env : Env) (w : SidebarWindowData)
    (fresh m d : Nat) (e : SbEntry) (hm : m ≠ 0) (hd : w.entries[d]? = some e)
    (hem : e.mailbox = m) (hfirst : ∀ x ∈ w.entries.take d, x.mailbox ≠ m) :
    (sb_notify_mailbox env w fresh m false).1.entry_count = w.entry_count - 1 ∧
    (∀ i, i < d → (sb_notify_mailbox env w fresh m false).1.entries[i]? = w.entries[i]?) ∧
    (∀ i, d < i → (sb_notify_mailbox env w fresh m false).1.entries[i - 1]? = w.entries[i]?) ∧
    (w.opn_index = d → (sb_notify_mailbox env w fresh m false).1.opn_index = -1) ∧
    (w.top_index > d →
      (sb_notify_mailbox env w fresh m false).1.top_index = w.top_index - 1) ∧
    (w.bot_index > d →
      (sb_notify_mailbox env w fresh m false).1.bot_index = w.bot_index - 1) ∧
    (w.opn_index > d →
      (sb_notify_mailbox env w fresh m false).1.opn_index = w.opn_index - 1) ∧
    (w.hil_index > d →
      (sb_notify_mailbox env w fresh m false).1.hil_index = w.hil_index - 1) := by
  have hlt : d < w.entries.length := by
    rcases List.getElem?_eq_some_iff.mp hd with ⟨h, _⟩
    exact h
  rw [sb_notify_mailbox_remove_eq env w fresh m d e hm hd hem hfirst]
  refine ⟨?_, ?_, ?_, ?_, ?_, ?_, ?_, ?_⟩
  · simp only [SidebarWindowData.entry_count, List.length_eraseIdx, hlt, if_true]
    omega
  · intro i hi
    simp only [List.getElem?_eraseIdx, hi, if_true]
  · intro i hi
    have h1 : ¬ (i - 1 < d) := by omega
    have h2 : i - 1 + 1 = i := by omega
    simp only [List.getElem?_eraseIdx, h1, if_false, h2]
  · intro h; simp only [h, if_true]
  · intro h; simp only [h, true_or, if_true]
  · intro h; simp only [h, true_or, if_true]
  · intro h
    have h1 : ¬ (w.opn_index = d) := by omega
    simp only [h1, if_false, h, if_true]
  · intro h; simp only [h, true_or, if_true]

/-- Removal of the middle of three mailboxes, with the last one opened. -/
theorem sb_notify_mailbox_remove_compacts_witness :
    w_three.entries[1]? = some (mk_entry 102 2) ∧
    (sb_notify_mailbox env_plain w_three 104 2 false).1.entry_count = w_three.entry_count - 1 ∧
    (w_three.opn_index > 1 →
      (sb_notify_mailbox env_plain w_three 104 2 false).1.opn_index = w_three.opn_index - 1) :=
  have h := sb_notify_mailbox_remove_compacts env_plain w_three 104 2 1 (mk_entry 102 2)
    (by decide) (by decide) (by decide) (by decide)
  ⟨by decide, h.1, h.2.2.2.2.2.2.1⟩

/-- C7 as stated fails: removing the middle entry (slot 1 of 3) leaves a
highlight that was on slot 1 at 1, not at 0. -/
theorem sb_notify_mailbox_remove_at_cursor_counterexample :
    w_three.entries[1]? = some (mk_entry 102 2) ∧ w_three.hil_index = 1 ∧
    (sb_notify_mailbox env_plain w_three 104 2 false).1.hil_index = 1 ∧
    (sb_notify_mailbox env_plain w_three 104 2 false).1.hil_index ≠ 1 - 1 := by
  decide

/-- C7 (amended): on removal of the entry at slot `d`, each of `top_index`,
`bot_index`, `hil_index` that was equal to `d` is decremented by one exactly
when `d` was the last slot, and otherwise keeps the value `d`. -/
theorem sb_notify_mailbox_remove_at_cursor (env : Env) (w : SidebarWindowData)
    (fresh m d : Nat) (e : SbEntry) (hm : m ≠ 0) (hd : w.entries[d]? = some e)
    (hem : e.mailbox = m) (hfirst : ∀ x ∈ w.entries.take d, x.mailbox ≠ m) :
    (w.top_index = d → (sb_notify_mailbox env w fresh m false).1.top_index =
      if (d : Int) = w.entry_count - 1 then (d : Int) - 1 else d) ∧
    (w.bot_index = d → (sb_notify_mailbox env w fresh m false).1.bot_index =
      if (d : Int) = w.entry_count - 1 then (d : Int) - 1 else d) ∧
    (w.hil_index = d → (sb_notify_mailbox env w fresh m false).1.hil_index =
      if (d : Int) = w.entry_count - 1 then (d : Int) - 1 else d) := by
  rw [sb_notify_mailbox_remove_eq env w fresh m d e hm hd hem hfirst]
  refine ⟨?_, ?_, ?_⟩ <;> intro h <;> simp only [h] <;> (repeat' split) <;> omega

/-- Removal of the last slot moves a page bottom that was on it down by one. -/
theorem sb_notify_mailbox_remove_at_cursor_witness :
    w_three.entries[2]? = some (mk_entry 103 3) ∧
    (w_three.bot_index = 2 →
      (sb_notify_mailbox env_plain w_three 104 3 false).1.bot_index = 1) :=
  ⟨by decide,
   (sb_notify_mailbox_remove_at_cursor env_plain w_three 104 3 2 (mk_entry 103 3)
      (by decide) (by decide) (by decide) (by decide)).2.1⟩

/-- C8: removing a mailbox that no entry references leaves the store (count,
entries, all four cursors) unchanged and does not reach the redraw request. -/
theorem sb_notify_mailbox_remove_absent (env : Env) (w : SidebarWindowData) (fresh m : Nat)
    (h : ∀ e ∈ w.entries, e.mailbox ≠ m) :
    sb_notify_mailbox env w fresh m false = (w, false) := by
  have hs : scan_mailbox m w.entries 0 = w.entries.length := by
    simpa using scan_mailbox_not_found m w.entries 0 h
  unfold sb_notify_mailbox
  by_cases hm : m = 0
  · simp only [hm, if_true]
  · simp only [hm, if_false, Bool.false_eq_true, hs, SidebarWindowData.entry_count, if_true]

/-- Mailbox 9 is not in the three-entry store. -/
theorem sb_notify_mailbox_remove_absent_witness :
    (∀ e ∈ w_three.entries, e.mailbox ≠ 9) ∧
    sb_notify_mailbox env_plain w_three 104 9 false = (w_three, false) :=
  ⟨by decide, sb_notify_mailbox_remove_absent env_plain w_three 104 9 (by decide)⟩

/-- C9: an add on a store of `n` entries sets `top_index` to `n` if it was
negative and keeps it otherwise, likewise `bot_index`; sets `opn_index` to `n`
if it was negative and the mailbox is the active one, and keeps it otherwise;
and never changes `hil_index`. -/
theorem sb_notify_mailbox_add_cursors (env : Env) (w : SidebarWindowData) (fresh m : Nat)
    (hm : m ≠ 0) :
    ((w.top_index < 0 → (sb_notify_mailbox env w fresh m true).1.top_index = w.entry_count) ∧
     (0 ≤ w.top_index → (sb_notify_mailbox env w fresh m true).1.top_index = w.top_index)) ∧
    ((w.bot_index < 0 → (sb_notify_mailbox env w fresh m true).1.bot_index = w.entry_count) ∧
     (0 ≤ w.bot_index → (sb_notify_mailbox env w fresh m true).1.bot_index = w.bot_index)) ∧
    ((w.opn_index < 0 ∧ is_active env m = true →
        (sb_notify_mailbox env w fresh m true).1.opn_index = w.entry_count) ∧
     (¬ (w.opn_index < 0 ∧ is_active env m = true) →
        (sb_notify_mailbox env w fresh m true).1.opn_index = w.opn_index)) ∧
    (sb_notify_mailbox env w fresh m true).1.hil_index = w.hil_index := by
  unfold sb_notify_mailbox
  simp only [hm, if_false, if_true]
  refine ⟨⟨?_, ?_⟩, ⟨?_, ?_⟩, ⟨?_, ?_⟩, trivial⟩
  · intro h; simp only [h, if_true]
  · intro h; have : ¬ (w.top_index < 0) := by omega
    simp only [this, if_false]
  · intro h; simp only [h, if_true]
  · intro h; have : ¬ (w.bot_index < 0) := by omega
    simp only [this, if_false]
  · intro h; simp only [h, and_self, if_true]
  · intro h; simp only [h, if_false]

/-- An add on the one-entry store with an unset page top. -/
theorem sb_notify_mailbox_add_cursors_witness :
    (7 : Nat) ≠ 0 ∧ (sb_notify_mailbox env_plain w_one 102 7 true).1.top_index = 1 ∧
    (sb_notify_mailbox env_plain w_one 102 7 true).1.hil_index = 0 :=
  have h := sb_notify_mailbox_add_cursors env_plain w_one 102 7 (by decide)
  ⟨by decide, h.1.1 (by decide), h.2.2.2⟩

/-- C10: for a store with `entry_count <= entry_max`, an add appends one entry
at slot `entry_count` with `is_hidden = false` and `mailbox = m`, raises
`entry_count` by one, leaves every existing entry at its slot, raises
`entry_max` by exactly 10 if the store was full and leaves it otherwise; so
`entry_count <= entry_max` still holds. -/
theorem sb_notify_mailbox_add_appends (env : Env) (w : SidebarWindowData) (fresh m : Nat)
    (hm : m ≠ 0) (hcap : w.entry_count ≤ w.entry_max) :
    (∃ sbe : SbEntry, (sb_notify_mailbox env w fresh m true).1.entries = w.entries ++ [sbe] ∧
        (sb_notify_mailbox env w fresh m true).1.entries[w.entries.length]? = some sbe ∧
        sbe.is_hidden = false ∧ sbe.mailbox = m) ∧
    (sb_notify_mailbox env w fresh m true).1.entry_count = w.entry_count + 1 ∧
    (∀ i, i < w.entries.length →
        (sb_notify_mailbox env w fresh m true).1.entries[i]? = w.entries[i]?) ∧
    (sb_notify_mailbox env w fresh m true).1.entry_max =
        (if w.entry_count ≥ w.entry_max then w.entry_max + 10 else w.entry_max) ∧
    (sb_notify_mailbox env w fresh m true).1.entry_count ≤
        (sb_notify_mailbox env w fresh m true).1.entry_max := by
  unfold sb_notify_mailbox
  simp only [hm, if_false, if_true]
  refine ⟨⟨_, rfl, ?_, rfl, rfl⟩, ?_, ?_, trivial, ?_⟩
  · simp
  · simp [SidebarWindowData.entry_count]
  · intro i hi
    simp [List.getElem?_append_left hi]
  · simp only [SidebarWindowData.entry_count, List.length_append, List.length_singleton] at *
    split <;> push_cast <;> omega

/-- An add on the three-entry store at capacity 3 grows the capacity to 13. -/
theorem sb_notify_mailbox_add_appends_witness :
    w_three.entry_count ≤ w_three.entry_max ∧
    (sb_notify_mailbox env_plain w_three 104 4 true).1.entry_max = 13 ∧
    (sb_notify_mailbox env_plain w_three 104 4 true).1.entry_count = 4 :=
  have h := sb_notify_mailbox_add_appends env_plain w_three 104 4 (by decide) (by decide)
  ⟨by decide, h.2.2.2.1, h.2.1⟩

/-- The page cursors matter for the round trip: on a one-entry store whose
`top_index` is `-1`, a state that `page_cursors_set` excludes, an add followed
by the removal of the same mailbox leaves `top_index` at 0. -/
theorem notify_add_remove_unset_top_example :
    cursors_ok w_one ∧ ¬ page_cursors_set w_one ∧ (∀ e ∈ w_one.entries, e.mailbox ≠ 7) ∧
    w_one.top_index = -1 ∧
    (sb_notify_mailbox env_plain
      (sb_notify_mailbox env_plain w_one 102 7 true).1 103 7 false).1.top_index = 0 := by
  decide

/-- An add of `X` followed by its removal, cursor by cursor: for a store with
cursors `-1` or in range and a mailbox `X` referenced by no entry, the pair
restores `entry_count`, the entry sequence, `opn_index` and `hil_index`; it
restores `top_index` (and `bot_index`) whenever that cursor was `>= 0` or the
store was empty. -/
theorem notify_add_remove_cases (env : Env) (w : SidebarWindowData) (f1 f2 X : Nat)
    (hc : cursors_ok w) (hX : ∀ e ∈ w.entries, e.mailbox ≠ X) :
    (sb_notify_mailbox env (sb_notify_mailbox env w f1 X true).1 f2 X false).1.entry_count
        = w.entry_count ∧
    (sb_notify_mailbox env (sb_notify_mailbox env w f1 X true).1 f2 X false).1.entries
        = w.entries ∧
    (sb_notify_mailbox env (sb_notify_mailbox env w f1 X true).1 f2 X false).1.opn_index
        = w.opn_index ∧
    (sb_notify_mailbox env (sb_notify_mailbox env w f1 X true).1 f2 X false).1.hil_index
        = w.hil_index ∧
    ((0 ≤ w.top_index ∨ w.entry_count = 0) →
      (sb_notify_mailbox env (sb_notify_mailbox env w f1 X true).1 f2 X false).1.top_index
        = w.top_index) ∧
    ((0 ≤ w.bot_index ∨ w.entry_count = 0) →
      (sb_notify_mailbox env (sb_notify_mailbox env w f1 X true).1 f2 X false).1.bot_index
        = w.bot_index) := by
  by_cases hm : X = 0
  · have h1 : ∀ f c, sb_notify_mailbox env w f 0 c = (w, false) := by
      intro f c; unfold sb_notify_mailbox; simp only [if_true]
    subst hm
    simp only [h1]
    simp
  · obtain ⟨h1, h2, h3, h4⟩ := hc
    have hadd : sb_notify_mailbox env w f1 X true =
        ({ w with entries := w.entries ++ [mk_entry f1 X],
                  entry_max := if w.entry_count ≥ w.entry_max then w.entry_max + 10
                               else w.entry_max,
                  top_index := if w.top_index < 0 then w.entry_count else w.top_index,
                  bot_index := if w.bot_index < 0 then w.entry_count else w.bot_index,
                  opn_index := if w.opn_index < 0 ∧ is_active env X = true then w.entry_count
                               else w.opn_index }, true) := by
      unfold sb_notify_mailbox mk_entry
      simp only [hm, if_false, if_true]
    rw [hadd]
    rw [sb_notify_mailbox_remove_eq env _ f2 X w.entries.length (mk_entry f1 X) hm
      (by simp) rfl
      (by
        intro x hx
        simp only [List.take_left'] at hx
        exact hX x hx)]
    unfold cursor_ok SidebarWindowData.entry_count at *
    simp only [List.length_append, List.length_singleton, Nat.cast_add, Nat.cast_one]
    refine ⟨?_, ?_, ?_, ?_, ?_, ?_⟩
    · simp [List.eraseIdx_append_of_length_le]
    · simp [List.eraseIdx_append_of_length_le]
    · repeat' split
      all_goals omega
    · repeat' split
      all_goals omega
    · intro h
      repeat' split
      all_goals omega
    · intro h
      repeat' split
      all_goals omega

/-- An add and removal of mailbox 7 on the three-entry store. -/
theorem notify_add_remove_cases_witness :
    cursors_ok w_three ∧ (∀ e ∈ w_three.entries, e.mailbox ≠ 7) ∧
    (sb_notify_mailbox env_plain
      (sb_notify_mailbox env_plain w_three 104 7 true).1 105 7 false).1.entries
        = w_three.entries ∧
    (sb_notify_mailbox env_plain
      (sb_notify_mailbox env_plain w_three 104 7 true).1 105 7 false).1.top_index
        = w_three.top_index :=
  have h := notify_add_remove_cases env_plain w_three 104 105 7 (by decide) (by decide)
  ⟨by decide, by decide, h.2.1, h.2.2.2.2.1 (Or.inl (by decide))⟩

/-- The zeroed store of `sb_wdata_new` has its page cursors set. -/
theorem sb_wdata_new_page_cursors : page_cursors_set sb_wdata_new := by decide

/-- `sb_notify_mailbox` keeps the page cursors set: an add leaves a cursor that
is `>= 0` alone, a removal lowers it by one only when it lies above the
removed slot or equals the new `entry_count`, which is `-1` only when the
store has become empty. -/
theorem sb_notify_mailbox_page_cursors (env : Env) (w : SidebarWindowData)
    (fresh m : Nat) (created : Bool) (h : page_cursors_set w) :
    page_cursors_set (sb_notify_mailbox env w fresh m created).1 := by
  have hb := scan_mailbox_bounds m w.entries 0
  unfold sb_notify_mailbox
  by_cases hm : m = 0
  · simp only [hm, if_true]; exact h
  · simp only [hm, if_false]
    cases created with
    | true =>
      simp only [if_true]
      unfold page_cursors_set SidebarWindowData.entry_count at *
      simp only [List.length_append, List.length_singleton, Nat.cast_add, Nat.cast_one]
      left
      constructor <;> split <;> omega
    | false =>
      simp only [Bool.false_eq_true, if_false]
      split
      · exact h
      · rename_i hne
        unfold page_cursors_set SidebarWindowData.entry_count at *
        simp only [Int.toNat_ofNat, List.length_eraseIdx]
        have hlt : scan_mailbox m w.entries 0 < w.entries.length := by omega
        simp only [hlt, if_true]
        repeat' split
        all_goals omega

/-- `init_data` keeps the page cursors set; so the store it fills from
`sb_wdata_new` has them set. -/
theorem init_data_page_cursors (env : Env) (w : SidebarWindowData) (cells : List Nat)
    (h : page_cursors_set w) : page_cursors_set (init_data env w cells) := by
  unfold init_data
  generalize List.zip cells env.mailboxlist = l
  induction l generalizing w with
  | nil => exact h
  | cons p l ih =>
    simp only [List.foldl_cons]
    exact ih _ (sb_notify_mailbox_page_cursors env w p.1 p.2 true h)

/-- C3: add/remove round trip.  For every store whose cursors are each `-1` or
in `[0, entry_count)` and whose page cursors are set (`top_index` and
`bot_index` are `>= 0` unless the store is empty, which holds in the store of
`sb_wdata_new` and is kept by `sb_notify_mailbox`, `calc_page` and the
navigator), and every mailbox `X` referenced by no entry, an add of `X`
followed immediately by its removal restores `entry_count`, the entry
sequence, and each of `top_index`, `bot_index`, `opn_index` and `hil_index`
to its value before the add. -/
theorem notify_add_remove_roundtrip (env : Env) (w : SidebarWindowData) (f1 f2 X : Nat)
    (hc : cursors_ok w) (hp : page_cursors_set w) (hX : ∀ e ∈ w.entries, e.mailbox ≠ X) :
    (sb_notify_mailbox env (sb_notify_mailbox env w f1 X true).1 f2 X false).1.entry_count
        = w.entry_count ∧
    (sb_notify_mailbox env (sb_notify_mailbox env w f1 X true).1 f2 X false).1.entries
        = w.entries ∧
    (sb_notify_mailbox env (sb_notify_mailbox env w f1 X true).1 f2 X false).1.top_index
        = w.top_index ∧
    (sb_notify_mailbox env (sb_notify_mailbox env w f1 X true).1 f2 X false).1.bot_index
        = w.bot_index ∧
    (sb_notify_mailbox env (sb_notify_mailbox env w f1 X true).1 f2 X false).1.opn_index
        = w.opn_index ∧
    (sb_notify_mailbox env (sb_notify_mailbox env w f1 X true).1 f2 X false).1.hil_index
        = w.hil_index := by
  obtain ⟨h1, h2, h3, h4, h5, h6⟩ := notify_add_remove_cases env w f1 f2 X hc hX
  have ht : 0 ≤ w.top_index ∨ w.entry_count = 0 := by
    rcases hp with hp | hp
    · exact Or.inl hp.1
    · exact Or.inr hp
  have hb : 0 ≤ w.bot_index ∨ w.entry_count = 0 := by
    rcases hp with hp | hp
    · exact Or.inl hp.2
    · exact Or.inr hp
  exact ⟨h1, h2, h5 ht, h6 hb, h3, h4⟩

/-- An add and removal of mailbox 7 on the three-entry store: the entries and
the four cursors `(0, 2, 2, 1)` are back. -/
theorem notify_add_remove_roundtrip_witness :
    cursors_ok w_three ∧ page_cursors_set w_three ∧
    (∀ e ∈ w_three.entries, e.mailbox ≠ 7) ∧
    (sb_notify_mailbox env_plain w_three 104 7 true).1.entry_count = 4 ∧
    (sb_notify_mailbox env_plain
      (sb_notify_mailbox env_plain w_three 104 7 true).1 105 7 false).1.entries
        = w_three.entries ∧
    (sb_notify_mailbox env_plain
      (sb_notify_mailbox env_plain w_three 104 7 true).1 105 7 false).1.top_index = 0 ∧
    (sb_notify_mailbox env_plain
      (sb_notify_mailbox env_plain w_three 104 7 true).1 105 7 false).1.bot_index = 2 :=
  have h := notify_add_remove_roundtrip env_plain w_three 104 105 7 (by decide) (by decide)
    (by decide)
  ⟨by decide, by decide, by decide, by decide, h.2.1, h.2.2.1, h.2.2.2.1⟩

/-! ## Page calculation -/

theorem entry_at_ok (w : SidebarWindowData) (i : Int) (h0 : 0 ≤ i) (h1 : i < w.entry_count) :
    ∃ e, entry_at w i = .ok e ∧ w.entries[i.toNat]? = some e := by
  unfold SidebarWindowData.entry_count at h1
  have hlt : i.toNat < w.entries.length := by omega
  refine ⟨w.entries[i.toNat], ?_, List.getElem?_eq_getElem hlt⟩
  unfold entry_at
  have hn : ¬ (i < 0) := by omega
  simp only [hn, if_false, List.getElem?_eq_getElem hlt]

theorem entry_at_oob (w : SidebarWindowData) (i : Int) (h : i < 0 ∨ w.entry_count ≤ i) :
    entry_at w i = .error .oob := by
  unfold entry_at
  by_cases hn : i < 0
  · simp only [hn, if_true]
  · unfold SidebarWindowData.entry_count at h
    have hge : w.entries.length ≤ i.toNat := by omega
    simp only [hn, if_false, List.getElem?_eq_none hge]

theorem entry_at_congr (w w2 : SidebarWindowData) (h : w.entries = w2.entries) (i : Int) :
    entry_at w i = entry_at w2 i := by
  unfold entry_at; rw [h]

theorem visibility_loop_length (env : Env) (opn : Int) (es : List SbEntry) (i : Nat) :
    (visibility_loop env opn i es).length = es.length := by
  induction es generalizing i with
  | nil => rfl
  | cons e es ih => simp [visibility_loop, ih]

theorem swap_perm_aux (xs : List SbEntry) (j : Nat) (x b : SbEntry) (h : xs[j]? = some b) :
    (b :: xs.set j x).Perm (x :: xs) := by
  induction xs generalizing j with
  | nil => simp at h
  | cons y ys ih =>
    cases j with
    | zero =>
      simp at h
      subst h
      simpa using List.Perm.swap x y ys
    | succ j =>
      simp only [List.getElem?_cons_succ] at h
      have h1 := ih j h
      simp only [List.set_cons_succ]
      exact ((List.Perm.swap y b _).trans (h1.cons y)).trans (List.Perm.swap x y ys)

theorem swap_entries_perm (es : List SbEntry) (i j : Nat) (hij : i < j) :
    (swap_entries es i j).Perm es := by
  unfold swap_entries
  cases hi : es[i]? with
  | none => simp
  | some a =>
    cases hj : es[j]? with
    | none => simp
    | some b =>
      simp only
      induction es generalizing i j with
      | nil => simp at hi
      | cons x xs ih =>
        cases j with
        | zero => omega
        | succ j =>
          cases i with
          | zero =>
            simp at hi
            subst hi
            simp only [List.getElem?_cons_succ] at hj
            simpa using swap_perm_aux xs j x b hj
          | succ i =>
            simp only [List.getElem?_cons_succ] at hi hj
            simpa using (ih i j (by omega) hi hj).cons x

theorem unsort_loop_perm (ml : List Nat) (i : Nat) (es : List SbEntry) :
    (unsort_loop ml i es).Perm es := by
  induction ml generalizing i es with
  | nil => simp [unsort_loop]
  | cons np ml ih =>
    simp only [unsort_loop]
    split
    · exact List.Perm.refl _
    · split
      · split
        · rename_i hne
          have hb := scan_mailbox_bounds np (es.drop i) i
          exact (ih _ _).trans (swap_entries_perm es i _ (by omega))
        · exact ih _ _
      · exact ih _ _

theorem qsort_perm (order : (l : List SbEntry) → { r : List SbEntry // r.Perm l })
    (cmp : SbEntry → SbEntry → Int) (l : List SbEntry) :
    (qsort order cmp l).Perm l :=
  (List.perm_insertionSort _ _).trans (order l).2

theorem sort_entries_perm (env : Env) (w : SidebarWindowData) :
    (sort_entries env w).entries.Perm w.entries := by
  unfold sort_entries
  simp only
  split
  · exact qsort_perm _ _ _
  · split
    · exact unsort_loop_perm _ _ _
    · exact List.Perm.refl _

theorem sort_entries_cursors (env : Env) (w : SidebarWindowData) :
    (sort_entries env w).top_index = w.top_index ∧ (sort_entries env w).opn_index = w.opn_index ∧
    (sort_entries env w).hil_index = w.hil_index ∧ (sort_entries env w).bot_index = w.bot_index ∧
    (sort_entries env w).previous_sort = w.previous_sort ∧
    (sort_entries env w).entry_max = w.entry_max := by
  unfold sort_entries unsort_entries
  simp only
  split
  · simp
  · split <;> simp

theorem update_entries_visibility_cursors (env : Env) (w : SidebarWindowData) :
    (update_entries_visibility env w).top_index = w.top_index ∧
    (update_entries_visibility env w).opn_index = w.opn_index ∧
    (update_entries_visibility env w).hil_index = w.hil_index ∧
    (update_entries_visibility env w).bot_index = w.bot_index ∧
    (update_entries_visibility env w).previous_sort = w.previous_sort ∧
    (update_entries_visibility env w).entry_max = w.entry_max := by
  unfold update_entries_visibility
  split <;> simp

theorem update_entries_visibility_length (env : Env) (w : SidebarWindowData) :
    (update_entries_visibility env w).entries.length = w.entries.length := by
  unfold update_entries_visibility
  split
  · simp
  · simp [visibility_loop_length]

theorem resolve_loop_range (oe he : Option Nat) (es : List SbEntry) (i : Nat) (c : Int × Int) :
    ((resolve_loop oe he i es c).1 = c.1 ∨
      ((i : Int) ≤ (resolve_loop oe he i es c).1 ∧
        (resolve_loop oe he i es c).1 < (i : Int) + es.length)) ∧
    ((resolve_loop oe he i es c).2 = c.2 ∨
      ((i : Int) ≤ (resolve_loop oe he i es c).2 ∧
        (resolve_loop oe he i es c).2 < (i : Int) + es.length)) := by
  induction es generalizing i c with
  | nil => simp [resolve_loop]
  | cons e es ih =>
    obtain ⟨o, h⟩ := c
    simp only [resolve_loop]
    have := ih (i + 1) (if oe = some e.addr then (i : Int) else o,
                        if he = some e.addr then (i : Int) else h)
    simp only [List.length_cons] at *
    push_cast at *
    constructor
    · rcases this.1 with h1 | h1
      · rw [h1]; split
        · right; omega
        · left; rfl
      · right; omega
    · rcases this.2 with h1 | h1
      · rw [h1]; split
        · right; omega
        · left; rfl
      · right; omega

theorem select_next_loop_spec (w : SidebarWindowData) (fuel : Nat) (entry : Int)
    (h0 : -1 ≤ entry) (h1 : entry < w.entry_count) (hf : w.entry_count - entry ≤ fuel) :
    select_next_loop w fuel entry = .ok none ∨
    ∃ k sbe, select_next_loop w fuel entry = .ok (some k) ∧ entry < k ∧ k < w.entry_count ∧
      entry_at w k = .ok sbe ∧ sbe.is_hidden = false := by
  induction fuel generalizing entry with
  | zero => omega
  | succ n ih =>
    simp only [select_next_loop]
    by_cases hend : entry + 1 = w.entry_count
    · left; simp only [hend, if_true]
    · simp only [hend, if_false]
      obtain ⟨e, he, _⟩ := entry_at_ok w (entry + 1) (by omega) (by omega)
      simp only [he]
      by_cases hh : e.is_hidden = true
      · simp only [hh, if_true]
        rcases ih (entry + 1) (by omega) (by omega) (by omega) with h | ⟨k, sbe, h, hk1, hk2, hk3⟩
        · left; exact h
        · right; exact ⟨k, sbe, h, by omega, hk2, hk3⟩
      · simp only [hh, if_false]
        right
        exact ⟨entry + 1, e, rfl, by omega, by omega, he, by simpa using hh⟩

theorem select_next_spec (w : SidebarWindowData) (h0 : 0 ≤ w.hil_index)
    (h1 : w.hil_index < w.entry_count) :
    (select_next_loop w (w.entries.length + 1) w.hil_index = .ok none ∧
      select_next w = .ok (w, false)) ∨
    ∃ k sbe, select_next w = .ok ({ w with hil_index := k }, true) ∧ w.hil_index < k ∧
      k < w.entry_count ∧ entry_at w k = .ok sbe ∧ sbe.is_hidden = false := by
  unfold select_next
  have hg : ¬ (w.entry_count = 0 ∨ w.hil_index < 0) := by omega
  simp only [hg, if_false]
  rcases select_next_loop_spec w (w.entries.length + 1) w.hil_index (by omega) h1
      (by unfold SidebarWindowData.entry_count at *; push_cast; omega) with h | ⟨k, sbe, h, hk⟩
  · left; exact ⟨h, by simp only [h]⟩
  · right; exact ⟨k, sbe, by simp only [h], hk⟩

theorem select_next_loop_congr (w w2 : SidebarWindowData) (h : w.entries = w2.entries)
    (fuel : Nat) (entry : Int) :
    select_next_loop w fuel entry = select_next_loop w2 fuel entry := by
  induction fuel generalizing entry with
  | zero => rfl
  | succ n ih =>
    simp only [select_next_loop, SidebarWindowData.entry_count, h, entry_at_congr w w2 h, ih]

/-- The highlight repair returns and leaves the highlight on a live slot: on
an unhidden entry, or on the opened entry, or on slot 0 when no entry after
slot 0 is unhidden. -/
theorem repair_highlight_spec (env : Env) (w : SidebarWindowData) (hn : 1 ≤ w.entry_count)
    (ho : cursor_ok w.entry_count w.opn_index) (hh : cursor_ok w.entry_count w.hil_index) :
    ∃ h, repair_highlight env w = .ok { w with hil_index := h } ∧ 0 ≤ h ∧ h < w.entry_count ∧
      ((∃ e, entry_at w h = .ok e ∧ e.is_hidden = false) ∨
       (0 ≤ w.opn_index ∧ h = w.opn_index) ∨
       (w.opn_index < 0 ∧ h = 0 ∧
         select_next_loop w (w.entries.length + 1) 0 = .ok none)) := by
  have hsnap : ∃ h, (if w.opn_index ≥ 0 then
        (Except.ok { w with hil_index := w.opn_index } : Except Fault SidebarWindowData)
      else
        match entry_at { w with hil_index := 0 } 0 with
        | .error f => .error f
        | .ok sbe =>
          if sbe.is_hidden = true then
            match select_next { w with hil_index := 0 } with
            | .error f => .error f
            | .ok r => .ok r.1
          else .ok { w with hil_index := 0 }) = .ok { w with hil_index := h } ∧
      0 ≤ h ∧ h < w.entry_count ∧
      ((∃ e, entry_at w h = .ok e ∧ e.is_hidden = false) ∨
       (0 ≤ w.opn_index ∧ h = w.opn_index) ∨
       (w.opn_index < 0 ∧ h = 0 ∧
         select_next_loop w (w.entries.length + 1) 0 = .ok none)) := by
    by_cases hopn : w.opn_index ≥ 0
    · refine ⟨w.opn_index, by simp only [hopn, if_true], hopn, ?_, Or.inr (Or.inl ⟨hopn, rfl⟩)⟩
      unfold cursor_ok at ho; omega
    · simp only [hopn, if_false]
      obtain ⟨e, he, _⟩ := entry_at_ok { w with hil_index := 0 } 0 (le_refl _) (by
        show (0 : Int) < w.entry_count
        omega)
      simp only [he]
      by_cases hhid : e.is_hidden = true
      · simp only [hhid, if_true]
        rcases select_next_spec { w with hil_index := 0 } (le_refl _) (by
          show (0 : Int) < w.entry_count
          omega) with ⟨hl, h⟩ | ⟨k, sbe, h, hk1, hk2, hk3, hk4⟩
        · refine ⟨0, by simp only [h], le_refl _, by omega, Or.inr (Or.inr ⟨by omega, rfl, ?_⟩)⟩
          rw [select_next_loop_congr w { w with hil_index := 0 } rfl]
          exact hl
        · have hpos : (0 : Int) < k := hk1
          exact ⟨k, by simp only [h], by omega, hk2, Or.inl ⟨sbe, hk3, hk4⟩⟩
      · have hfl : e.is_hidden = false := by simpa using hhid
        simp only [hfl, Bool.false_eq_true, if_false]
        exact ⟨0, rfl, le_refl _, by omega, Or.inl ⟨e, he, hfl⟩⟩
  unfold repair_highlight
  simp only
  by_cases hneg : w.hil_index < 0
  · simp only [hneg, if_true]
    exact hsnap
  · simp only [hneg, if_false]
    have hr : 0 ≤ w.hil_index ∧ w.hil_index < w.entry_count := by
      unfold cursor_ok at hh; omega
    obtain ⟨e, he, _⟩ := entry_at_ok w w.hil_index hr.1 hr.2
    simp only [he]
    split
    · exact hsnap
    · rename_i hno
      have hfl : e.is_hidden = false := by
        cases hx : e.is_hidden
        · rfl
        · exact absurd (Or.inl hx) hno
      exact ⟨w.hil_index, rfl, hr.1, hr.2, Or.inl ⟨e, he, hfl⟩⟩

/-- Once the sort method is the recorded one, the repair keeps a highlight
that is on an unhidden entry, or on slot 0 with nothing unhidden after it and
no opened entry. -/
theorem repair_highlight_stable (env : Env) (w : SidebarWindowData)
    (hprev : w.previous_sort = env.C_SidebarSortMethod)
    (h0 : 0 ≤ w.hil_index) (h1 : w.hil_index < w.entry_count)
    (hcase : (∃ e, entry_at w w.hil_index = .ok e ∧ e.is_hidden = false) ∨
      (w.opn_index < 0 ∧ w.hil_index = 0 ∧
        select_next_loop w (w.entries.length + 1) 0 = .ok none)) :
    repair_highlight env w = .ok w := by
  have hneg : ¬ (w.hil_index < 0) := by omega
  have hsort : ¬ (env.C_SidebarSortMethod ≠ w.previous_sort) := by
    rw [hprev]; simp
  obtain ⟨e, he, _⟩ := entry_at_ok w w.hil_index h0 h1
  unfold repair_highlight
  simp only [hneg, if_false, he]
  by_cases hhid : e.is_hidden = true
  · rcases hcase with ⟨e2, he2, hf⟩ | ⟨hopn, hz, hloop⟩
    · rw [he] at he2
      cases he2
      rw [hhid] at hf
      exact absurd hf (by decide)
    · have hw : { w with hil_index := 0 } = w := by
        cases w
        simp only at hz
        subst hz
        rfl
      have hopn2 : ¬ (w.opn_index ≥ 0) := by omega
      have hg : ¬ (w.entry_count = 0 ∨ w.hil_index < 0) := by omega
      rw [hz] at he
      simp only [hhid, true_or, if_true, hopn2, if_false, hw, he, select_next, hg, hz, hloop, ite_self]
  · have hfl : e.is_hidden = false := by simpa using hhid
    simp only [hfl, Bool.false_eq_true, false_or, hsort, if_false]

theorem frame_inner_spec (w : SidebarWindowData) (page_size : Int) (fuel : Nat)
    (bot page_entries : Int) (h0 : -1 ≤ bot) (h1 : bot < w.entry_count)
    (hf : w.entry_count - bot ≤ fuel) :
    ∃ b, frame_inner w page_size fuel bot page_entries = .ok b ∧ bot ≤ b ∧
      b ≤ w.entry_count ∧ (page_entries < page_size → bot < b) := by
  induction fuel generalizing bot page_entries with
  | zero => omega
  | succ n ih =>
    simp only [frame_inner]
    by_cases hp : page_entries < page_size
    · simp only [hp, if_true]
      by_cases hend : bot + 1 ≥ w.entry_count
      · simp only [hend, if_true]
        exact ⟨bot + 1, rfl, by omega, by omega, fun _ => by omega⟩
      · simp only [hend, if_false]
        obtain ⟨e, he, _⟩ := entry_at_ok w (bot + 1) (by omega) (by omega)
        simp only [he]
        obtain ⟨b, hb, hb1, hb2, _⟩ := ih (bot + 1)
          (if e.is_hidden = false then page_entries + 1 else page_entries)
          (by omega) (by omega) (by omega)
        exact ⟨b, hb, by omega, hb2, fun _ => by omega⟩
    · simp only [hp, if_false]
      exact ⟨bot, rfl, le_refl _, by omega, fun h => h.elim⟩

theorem frame_outer_spec (w : SidebarWindowData) (page_size : Int) (hps : 1 ≤ page_size)
    (fuel : Nat) (top bot : Int) (h0 : -1 ≤ bot) (h1 : bot ≤ w.entry_count)
    (hh : w.hil_index < w.entry_count) (hf1 : 1 ≤ fuel) (hf : w.hil_index - bot + 1 ≤ fuel)
    (hinv : bot < w.hil_index ∨ (0 ≤ top ∧ top ≤ w.hil_index)) :
    ∃ t b, frame_outer w page_size fuel top bot = .ok (t, b) ∧ 0 ≤ t ∧ t ≤ w.hil_index ∧
      w.hil_index ≤ b ∧ b ≤ w.entry_count := by
  induction fuel generalizing top bot with
  | zero => omega
  | succ n ih =>
    simp only [frame_outer]
    by_cases hlt : bot < w.hil_index
    · simp only [hlt, if_true]
      obtain ⟨b1, hb, hb1, hb2, hb3⟩ := frame_inner_spec w page_size (w.entries.length + 1) bot 0
        h0 (by omega) (by unfold SidebarWindowData.entry_count at *; push_cast; omega)
      have hb4 := hb3 (by omega)
      simp only [hb]
      exact ih (bot + 1) b1 (by omega) hb2 (by omega) (by omega) (Or.inr ⟨by omega, by omega⟩)
    · simp only [hlt, if_false]
      rcases hinv with h | ⟨h2, h3⟩
      · exact absurd h hlt
      · exact ⟨top, bot, rfl, h2, h3, by omega, h1⟩

/-- Framing returns and brackets the highlight. -/
theorem frame_page_spec (env : Env) (w : SidebarWindowData) (page_size : Int)
    (hps : 1 ≤ page_size) (h0 : 0 ≤ w.hil_index) (h1 : w.hil_index < w.entry_count) :
    ∃ t b, frame_page env w page_size = .ok { w with top_index := t, bot_index := b } ∧
      0 ≤ t ∧ t ≤ w.hil_index ∧ w.hil_index ≤ b ∧ b < w.entry_count := by
  unfold frame_page frame_bounds
  simp only
  by_cases hfil : env.C_SidebarNewMailOnly = true ∨ env.C_SidebarNonEmptyMailboxOnly = true
  · simp only [hfil, if_true]
    obtain ⟨t, b, hfo, ht0, ht1, hb0, hb1⟩ := frame_outer_spec w page_size hps
      (w.entries.length + 1) (-1) (-1) (le_refl _) (by omega) h1 (by omega)
      (by unfold SidebarWindowData.entry_count at *; push_cast; omega) (Or.inl (by omega))
    simp only [hfo]
    refine ⟨t, _, rfl, ht0, ht1, ?_, ?_⟩ <;> split <;> omega
  · simp only [hfil, if_false]
    have hdiv : Int.tdiv w.hil_index page_size = w.hil_index / page_size :=
      Int.tdiv_eq_ediv h0 (by omega)
    have hle := Int.ediv_mul_le w.hil_index (b := page_size) (by omega)
    have hlt := Int.lt_ediv_add_one_mul_self w.hil_index (b := page_size) (by omega)
    have hnn : 0 ≤ w.hil_index / page_size * page_size :=
      mul_nonneg (Int.ediv_nonneg h0 (by omega)) (by omega)
    rw [hdiv]
    have hexp : (w.hil_index / page_size + 1) * page_size
        = w.hil_index / page_size * page_size + page_size := by ring
    rw [hexp] at hlt
    refine ⟨_, _, rfl, hnn, hle, ?_, ?_⟩ <;> split <;> omega

/-! ## Sorting a sorted array -/

theorem mem_of_getElem?_some (es : List SbEntry) (i : Nat) (e : SbEntry)
    (h : es[i]? = some e) : e ∈ es := by
  obtain ⟨_, rfl⟩ := List.getElem?_eq_some_iff.mp h
  exact List.getElem_mem ..

theorem cb_qsort_sbe_congr (env : Env) (a a2 b b2 : SbEntry) (ha : a.mailbox = a2.mailbox)
    (hb : b.mailbox = b2.mailbox) : cb_qsort_sbe env a b = cb_qsort_sbe env a2 b2 := by
  unfold cb_qsort_sbe
  rw [ha, hb]

theorem sorted_orderedInsert_of (r : SbEntry → SbEntry → Prop) [DecidableRel r]
    (a : SbEntry) (l : List SbEntry)
    (htot : ∀ b ∈ l, r a b ∨ r b a)
    (htrans : ∀ b ∈ l, ∀ c ∈ l, r a b → r b c → r a c)
    (hs : List.Sorted r l) : List.Sorted r (List.orderedInsert r a l) := by
  induction l with
  | nil => simp
  | cons b l ih =>
    have hsc := List.pairwise_cons.mp hs
    have hb : List.Sorted r l := hsc.2
    have hbl : ∀ c ∈ l, r b c := hsc.1
    simp only [List.orderedInsert]
    split
    · rename_i hab
      refine List.pairwise_cons.mpr ⟨?_, hs⟩
      intro c hc
      rcases List.mem_cons.mp hc with h | h
      · rw [h]; exact hab
      · exact htrans b (List.mem_cons_self _ _) c (List.mem_cons_of_mem _ h) hab (hbl c h)
    · rename_i hab
      have hba : r b a := by
        rcases htot b (List.mem_cons_self _ _) with h | h
        · exact absurd h hab
        · exact h
      have ih2 := ih (fun c hc => htot c (List.mem_cons_of_mem _ hc))
        (fun c hc d hd => htrans c (List.mem_cons_of_mem _ hc) d (List.mem_cons_of_mem _ hd)) hb
      refine List.pairwise_cons.mpr ⟨?_, ih2⟩
      intro c hc
      rcases List.mem_cons.mp ((List.perm_orderedInsert r a l).subset hc) with h | h
      · rw [h]; exact hba
      · exact hbl c h

theorem sorted_insertionSort_of (r : SbEntry → SbEntry → Prop) [DecidableRel r]
    (l : List SbEntry)
    (htot : ∀ a ∈ l, ∀ b ∈ l, r a b ∨ r b a)
    (htrans : ∀ a ∈ l, ∀ b ∈ l, ∀ c ∈ l, r a b → r b c → r a c) :
    List.Sorted r (List.insertionSort r l) := by
  induction l with
  | nil => simp
  | cons a l ih =>
    simp only [List.insertionSort]
    have hsub : ∀ x ∈ List.insertionSort r l, x ∈ a :: l := fun x hx =>
      List.mem_cons_of_mem _ ((List.perm_insertionSort r l).subset hx)
    apply sorted_orderedInsert_of
    · intro b hb
      exact htot a (List.mem_cons_self _ _) b (hsub b hb)
    · intro b hb c hc
      exact htrans a (List.mem_cons_self _ _) b (hsub b hb) c (hsub c hc)
    · exact ih (fun x hx y hy => htot x (List.mem_cons_of_mem _ hx) y (List.mem_cons_of_mem _ hy))
        (fun x hx y hy z hz => htrans x (List.mem_cons_of_mem _ hx) y (List.mem_cons_of_mem _ hy)
          z (List.mem_cons_of_mem _ hz))

theorem sorted_perm_unique (r : SbEntry → SbEntry → Prop) (l1 l2 : List SbEntry)
    (hperm : l1.Perm l2)
    (hanti : ∀ a ∈ l1, ∀ b ∈ l1, r a b → r b a → a = b)
    (h1 : List.Sorted r l1) (h2 : List.Sorted r l2) : l1 = l2 := by
  induction l1 generalizing l2 with
  | nil => exact (List.Perm.nil_eq hperm)
  | cons a t1 ih =>
    cases l2 with
    | nil => exact absurd hperm.length_eq (by simp)
    | cons b t2 =>
      have hs1 := List.pairwise_cons.mp h1
      have hs2 := List.pairwise_cons.mp h2
      have hab : a = b := by
        have ha2 : a ∈ b :: t2 := hperm.subset (List.mem_cons_self _ _)
        have hb1 : b ∈ a :: t1 := hperm.symm.subset (List.mem_cons_self _ _)
        rcases List.mem_cons.mp ha2 with h | h
        · exact h
        · rcases List.mem_cons.mp hb1 with h3 | h3
          · exact h3.symm
          · exact hanti a (List.mem_cons_self _ _) b hb1 (hs1.1 b h3) (hs2.1 a h)
      subst hab
      have ht : t1 = t2 := ih t2 hperm.cons_inv
        (fun x hx y hy => hanti x (List.mem_cons_of_mem _ hx) y (List.mem_cons_of_mem _ hy))
        hs1.2 hs2.2
      rw [ht]

theorem cmp_consistent_perm (env : Env) (l1 l2 : List SbEntry) (hperm : l1.Perm l2)
    (h : cmp_consistent env l1) : cmp_consistent env l2 :=
  ⟨fun a ha b hb => h.1 a (hperm.symm.subset ha) b (hperm.symm.subset hb),
   fun a ha b hb c hc =>
     h.2 a (hperm.symm.subset ha) b (hperm.symm.subset hb) c (hperm.symm.subset hc)⟩

theorem qsort_sorted (env : Env) (l : List SbEntry) (h : cmp_consistent env l) :
    List.Sorted (fun a b => cb_qsort_sbe env a b ≤ 0)
      (qsort env.qsort_order (cb_qsort_sbe env) l) := by
  unfold qsort
  have h2 := cmp_consistent_perm env l _ (env.qsort_order l).2.symm h
  exact sorted_insertionSort_of _ _ h2.1 h2.2

/-- Under a consistent comparison without ties between different elements the
sorted rearrangement of an array is unique: every sorted rearrangement is the
result of `qsort`, whatever order the library gives to equal elements. -/
theorem qsort_unique (env : Env) (l r : List SbEntry) (h : cmp_consistent env l)
    (hanti : ∀ a ∈ l, ∀ b ∈ l, cb_qsort_sbe env a b ≤ 0 → cb_qsort_sbe env b a ≤ 0 → a = b)
    (hperm : r.Perm l) (hsorted : List.Sorted (fun a b => cb_qsort_sbe env a b ≤ 0) r) :
    r = qsort env.qsort_order (cb_qsort_sbe env) l :=
  sorted_perm_unique (fun a b => cb_qsort_sbe env a b ≤ 0) r _
    (hperm.trans (qsort_perm _ _ l).symm)
    (fun a ha b hb => hanti a (hperm.subset ha) b (hperm.subset hb))
    hsorted (qsort_sorted env l h)

/-- Under a consistent comparison without ties between different elements,
sorting the sorted array changes nothing. -/
theorem qsort_qsort (env : Env) (l : List SbEntry) (h : cmp_consistent env l)
    (hanti : ∀ a ∈ l, ∀ b ∈ l, cb_qsort_sbe env a b ≤ 0 → cb_qsort_sbe env b a ≤ 0 → a = b) :
    qsort env.qsort_order (cb_qsort_sbe env) (qsort env.qsort_order (cb_qsort_sbe env) l) =
      qsort env.qsort_order (cb_qsort_sbe env) l := by
  have hp := qsort_perm env.qsort_order (cb_qsort_sbe env) l
  exact (qsort_unique env _ _ (cmp_consistent_perm env l _ hp.symm h)
    (fun a ha b hb => hanti a (hp.subset ha) b (hp.subset hb))
    (List.Perm.refl _) (qsort_sorted env l h)).symm

/-- Every sorted rearrangement of the array is a result of `qsort` for some
choice of the library's order of equal elements: the model leaves out no
behaviour that the C standard allows. -/
theorem qsort_covers (cmp : SbEntry → SbEntry → Int) (l r : List SbEntry)
    (hsorted : List.Sorted (fun a b => cmp a b ≤ 0) r)
    (order : (l : List SbEntry) → { r : List SbEntry // r.Perm l })
    (ho : (order l).1 = r) : qsort order cmp l = r := by
  unfold qsort
  rw [ho]
  exact List.Sorted.insertionSort_eq hsorted

/-! ## Re-resolution of the remembered entries -/

theorem resolve_loop_none_fst (he : Option Nat) (es : List SbEntry) (i : Nat) (c : Int × Int) :
    (resolve_loop none he i es c).1 = c.1 := by
  induction es generalizing i c with
  | nil => rfl
  | cons e es ih =>
    obtain ⟨o, h⟩ := c
    simp only [resolve_loop]
    rw [ih]
    simp

theorem resolve_loop_none_snd (oe : Option Nat) (es : List SbEntry) (i : Nat) (c : Int × Int) :
    (resolve_loop oe none i es c).2 = c.2 := by
  induction es generalizing i c with
  | nil => rfl
  | cons e es ih =>
    obtain ⟨o, h⟩ := c
    simp only [resolve_loop]
    rw [ih]
    simp

theorem resolve_loop_absent_fst (a : Nat) (he : Option Nat) (es : List SbEntry) (i : Nat)
    (c : Int × Int) (ha : ∀ e ∈ es, e.addr ≠ a) :
    (resolve_loop (some a) he i es c).1 = c.1 := by
  induction es generalizing i c with
  | nil => rfl
  | cons e es ih =>
    obtain ⟨o, h⟩ := c
    simp only [resolve_loop]
    rw [ih _ _ (fun x hx => ha x (List.mem_cons_of_mem _ hx))]
    have : ¬ (some a = some e.addr) := by
      intro h2
      exact ha e (List.mem_cons_self _ _) (Option.some.inj h2).symm
    simp only [this, if_false]

theorem resolve_loop_absent_snd (a : Nat) (oe : Option Nat) (es : List SbEntry) (i : Nat)
    (c : Int × Int) (ha : ∀ e ∈ es, e.addr ≠ a) :
    (resolve_loop oe (some a) i es c).2 = c.2 := by
  induction es generalizing i c with
  | nil => rfl
  | cons e es ih =>
    obtain ⟨o, h⟩ := c
    simp only [resolve_loop]
    rw [ih _ _ (fun x hx => ha x (List.mem_cons_of_mem _ hx))]
    have : ¬ (some a = some e.addr) := by
      intro h2
      exact ha e (List.mem_cons_self _ _) (Option.some.inj h2).symm
    simp only [this, if_false]

theorem resolve_loop_found_fst (he : Option Nat) (es : List SbEntry) (i k : Nat)
    (c : Int × Int) (e : SbEntry) (hd : addrs_distinct es) (hk : es[k]? = some e) :
    (resolve_loop (some e.addr) he i es c).1 = ((i + k : Nat) : Int) := by
  induction es generalizing i k c with
  | nil => simp at hk
  | cons x es ih =>
    obtain ⟨o, h⟩ := c
    unfold addrs_distinct at hd
    simp only [List.map_cons, List.nodup_cons, List.mem_map, not_exists, not_and] at hd
    simp only [resolve_loop]
    cases k with
    | zero =>
      simp at hk
      subst hk
      rw [resolve_loop_absent_fst _ _ _ _ _ (fun y hy => hd.1 y hy)]
      simp
    | succ k =>
      simp only [List.getElem?_cons_succ] at hk
      rw [ih (i + 1) k _ hd.2 hk]
      congr 1
      omega

theorem resolve_loop_found_snd (oe : Option Nat) (es : List SbEntry) (i k : Nat)
    (c : Int × Int) (e : SbEntry) (hd : addrs_distinct es) (hk : es[k]? = some e) :
    (resolve_loop oe (some e.addr) i es c).2 = ((i + k : Nat) : Int) := by
  induction es generalizing i k c with
  | nil => simp at hk
  | cons x es ih =>
    obtain ⟨o, h⟩ := c
    unfold addrs_distinct at hd
    simp only [List.map_cons, List.nodup_cons, List.mem_map, not_exists, not_and] at hd
    simp only [resolve_loop]
    cases k with
    | zero =>
      simp at hk
      subst hk
      rw [resolve_loop_absent_snd _ _ _ _ _ (fun y hy => hd.1 y hy)]
      simp
    | succ k =>
      simp only [List.getElem?_cons_succ] at hk
      rw [ih (i + 1) k _ hd.2 hk]
      congr 1
      omega

theorem addrs_distinct_inj (es : List SbEntry) (hd : addrs_distinct es) (i j : Nat)
    (a b : SbEntry) (hi : es[i]? = some a) (hj : es[j]? = some b) (hab : a.addr = b.addr) :
    i = j := by
  induction es generalizing i j with
  | nil => simp at hi
  | cons x es ih =>
    unfold addrs_distinct at hd
    simp only [List.map_cons, List.nodup_cons, List.mem_map, not_exists, not_and] at hd
    cases i with
    | zero =>
      cases j with
      | zero => rfl
      | succ j =>
        simp at hi
        subst hi
        simp only [List.getElem?_cons_succ] at hj
        exact absurd hab.symm (hd.1 b (mem_of_getElem?_some _ _ _ hj))
    | succ i =>
      simp only [List.getElem?_cons_succ] at hi
      cases j with
      | zero =>
        simp at hj
        subst hj
        exact absurd hab (hd.1 a (mem_of_getElem?_some _ _ _ hi))
      | succ j =>
        simp only [List.getElem?_cons_succ] at hj
        rw [ih hd.2 i j hi hj]

/-! ## Visibility is stable under a second pass -/

theorem entry_visibility_fields (env : Env) (opn : Int) (i : Nat) (e : SbEntry) :
    (entry_visibility env opn i e).addr = e.addr ∧
    (entry_visibility env opn i e).mailbox = e.mailbox := by
  unfold entry_visibility
  simp only
  split
  · exact ⟨rfl, rfl⟩
  · split <;> exact ⟨rfl, rfl⟩

theorem entry_visibility_eq (env : Env) (opn : Int) (i : Nat) (e : SbEntry) :
    entry_visibility env opn i e
      = { e with is_hidden := hidden_flag env e.mailbox (decide ((i : Int) = opn)) } := by
  unfold entry_visibility hidden_flag
  simp only
  by_cases h1 : is_active env e.mailbox = true
  · simp only [h1, if_true]
  · by_cases h2 : (mutt_list_find env.SidebarWhitelist (env.mailboxes e.mailbox).path ||
        mutt_list_find env.SidebarWhitelist (env.mailboxes e.mailbox).name) = true
    · simp only [h1, if_false, h2, if_true, Bool.false_eq_true, ite_self]
    · simp only [h1, if_false, h2, Bool.false_eq_true, ne_eq, decide_not, ite_self]

theorem entry_visibility_twice (env : Env) (o1 o2 : Int) (k j : Nat) (e : SbEntry)
    (h : (k : Int) = o1 ↔ (j : Int) = o2) :
    entry_visibility env o1 k (entry_visibility env o2 j e) = entry_visibility env o2 j e := by
  have hd : decide ((k : Int) = o1) = decide ((j : Int) = o2) := by
    by_cases hk : (k : Int) = o1
    · simp only [hk, h.mp hk, decide_True]
    · have hj : ¬ ((j : Int) = o2) := fun hj => hk (h.mpr hj)
      simp only [hk, hj, decide_False]
  rw [entry_visibility_eq env o2 j e, entry_visibility_eq env o1 k]
  simp only [hd]

theorem entry_visibility_at_opn (env : Env) (j : Nat) (e : SbEntry) :
    (entry_visibility env (j : Int) j e).is_hidden = false := by
  rw [entry_visibility_eq]
  unfold hidden_flag
  simp

theorem visibility_loop_getElem? (env : Env) (opn : Int) (es : List SbEntry) (i k : Nat) :
    (visibility_loop env opn i es)[k]? = (es[k]?).map (entry_visibility env opn (i + k)) := by
  induction es generalizing i k with
  | nil => simp [visibility_loop]
  | cons e es ih =>
    cases k with
    | zero => simp [visibility_loop]
    | succ k =>
      simp only [visibility_loop, List.getElem?_cons_succ, ih]
      have : i + 1 + k = i + (k + 1) := by omega
      rw [this]

/-- Each entry after the visibility step is the entry of the same slot before
it, with its flag cleared (fast path) or decided by the general loop. -/
theorem update_entries_visibility_entry (env : Env) (w : SidebarWindowData) (k : Nat)
    (e2 : SbEntry) (h : (update_entries_visibility env w).entries[k]? = some e2) :
    ∃ e0, w.entries[k]? = some e0 ∧ e2.addr = e0.addr ∧ e2.mailbox = e0.mailbox ∧
      (((env.C_SidebarNewMailOnly = false ∧ env.C_SidebarNonEmptyMailboxOnly = false) ∧
          e2.is_hidden = false) ∨
       (¬ (env.C_SidebarNewMailOnly = false ∧ env.C_SidebarNonEmptyMailboxOnly = false) ∧
          e2 = entry_visibility env w.opn_index k e0)) := by
  unfold update_entries_visibility at h
  by_cases hf : env.C_SidebarNewMailOnly = false ∧ env.C_SidebarNonEmptyMailboxOnly = false
  · simp only [hf, and_self, if_true, List.getElem?_map] at h
    cases hk : w.entries[k]? with
    | none => rw [hk] at h; simp at h
    | some e0 =>
      rw [hk] at h
      simp only [Option.map_some', Option.some.injEq] at h
      subst h
      exact ⟨e0, rfl, rfl, rfl, Or.inl ⟨hf, rfl⟩⟩
  · simp only [hf, if_false, visibility_loop_getElem?, Nat.zero_add] at h
    cases hk : w.entries[k]? with
    | none => rw [hk] at h; simp at h
    | some e0 =>
      rw [hk] at h
      simp only [Option.map_some', Option.some.injEq] at h
      subst h
      have hfld := entry_visibility_fields env w.opn_index k e0
      exact ⟨e0, rfl, hfld.1, hfld.2, Or.inr ⟨hf, rfl⟩⟩

theorem update_entries_visibility_addrs (env : Env) (w : SidebarWindowData) :
    (update_entries_visibility env w).entries.map (fun e => e.addr)
      = w.entries.map (fun e => e.addr) := by
  apply List.ext_getElem?
  intro k
  simp only [List.getElem?_map]
  cases h2 : (update_entries_visibility env w).entries[k]? with
  | none =>
    have hlen := update_entries_visibility_length env w
    have : w.entries[k]? = none := by
      rw [List.getElem?_eq_none_iff] at h2 ⊢
      omega
    rw [this]
  | some e2 =>
    obtain ⟨e0, h0, ha, _⟩ := update_entries_visibility_entry env w k e2 h2
    rw [h0]
    simp [ha]

theorem update_entries_visibility_eq_self (env : Env) (w : SidebarWindowData)
    (h : ∀ k e, w.entries[k]? = some e →
      ((env.C_SidebarNewMailOnly = false ∧ env.C_SidebarNonEmptyMailboxOnly = false) →
        e.is_hidden = false) ∧
      (¬ (env.C_SidebarNewMailOnly = false ∧ env.C_SidebarNonEmptyMailboxOnly = false) →
        entry_visibility env w.opn_index k e = e)) :
    update_entries_visibility env w = w := by
  have hent : (update_entries_visibility env w).entries = w.entries := by
    apply List.ext_getElem?
    intro k
    unfold update_entries_visibility
    by_cases hf : env.C_SidebarNewMailOnly = false ∧ env.C_SidebarNonEmptyMailboxOnly = false
    · simp only [hf, and_self, if_true, List.getElem?_map]
      cases hk : w.entries[k]? with
      | none => rfl
      | some e =>
        have hfl := (h k e hk).1 hf
        simp only [Option.map_some', Option.some.injEq]
        rw [← hfl]
    · simp only [hf, if_false, visibility_loop_getElem?, Nat.zero_add]
      cases hk : w.entries[k]? with
      | none => rfl
      | some e =>
        simp only [Option.map_some', Option.some.injEq]
        exact (h k e hk).2 hf
  have hst : update_entries_visibility env w
      = { w with entries := (update_entries_visibility env w).entries } := by
    unfold update_entries_visibility
    split <;> rfl
  rw [hst, hent]

/-! ## Framing depends on the entries and the highlight only -/

theorem frame_inner_congr (w w2 : SidebarWindowData) (h : w.entries = w2.entries)
    (page_size : Int) (fuel : Nat) (bot page_entries : Int) :
    frame_inner w page_size fuel bot page_entries
      = frame_inner w2 page_size fuel bot page_entries := by
  induction fuel generalizing bot page_entries with
  | zero => rfl
  | succ n ih =>
    simp only [frame_inner, SidebarWindowData.entry_count, h, entry_at_congr w w2 h, ih]

theorem frame_outer_congr (w w2 : SidebarWindowData) (h : w.entries = w2.entries)
    (hh : w.hil_index = w2.hil_index) (page_size : Int) (fuel : Nat) (top bot : Int) :
    frame_outer w page_size fuel top bot = frame_outer w2 page_size fuel top bot := by
  induction fuel generalizing top bot with
  | zero => rfl
  | succ n ih =>
    simp only [frame_outer, h, hh, frame_inner_congr w w2 h, ih]

theorem frame_bounds_congr (env : Env) (w w2 : SidebarWindowData) (h : w.entries = w2.entries)
    (hh : w.hil_index = w2.hil_index) (page_size : Int) :
    frame_bounds env w page_size = frame_bounds env w2 page_size := by
  unfold frame_bounds
  simp only [h, hh, frame_outer_congr w w2 h hh]

/-- A store that already carries the page computed for its entries and
highlight is left as it is by the framing. -/
theorem frame_page_stable (env : Env) (w w2 : SidebarWindowData) (page_size t b : Int)
    (h : frame_page env w page_size = .ok { w with top_index := t, bot_index := b })
    (he : w2.entries = w.entries) (hh : w2.hil_index = w.hil_index)
    (ht : w2.top_index = t) (hb : w2.bot_index = b) :
    frame_page env w2 page_size = .ok w2 := by
  unfold frame_page at h ⊢
  rw [frame_bounds_congr env w2 w he hh]
  cases hfb : frame_bounds env w page_size with
  | error f => rw [hfb] at h; simp at h
  | ok p =>
    obtain ⟨t0, b0⟩ := p
    rw [hfb] at h
    simp only [Except.ok.injEq, SidebarWindowData.mk.injEq, true_and,
      SidebarWindowData.entry_count] at h
    obtain ⟨h1, h2, _⟩ := h
    cases w2 with
    | mk es em tp op hl bt pv =>
      simp only at he hh ht hb
      simp only [SidebarWindowData.entry_count, he, h1, h2, ht, hb]

theorem remember_entry_ok (w : SidebarWindowData) (i : Int) (h : cursor_ok w.entry_count i) :
    (i < 0 ∧ remember_entry w i = .ok none) ∨
    (0 ≤ i ∧ ∃ e, entry_at w i = .ok e ∧ w.entries[i.toNat]? = some e ∧
      remember_entry w i = .ok (some e.addr)) := by
  unfold remember_entry
  by_cases hi : i ≥ 0
  · right
    obtain ⟨e, he, he2⟩ := entry_at_ok w i hi (by unfold cursor_ok at h; omega)
    exact ⟨hi, e, he, he2, by simp only [hi, if_true, he]⟩
  · left
    exact ⟨by omega, by simp only [hi, if_false]⟩

/-- The steps of a `calc_page` pass on a non-empty store with cursors in range
and a positive page size: with `s` the store after the visibility and sort
steps and `c` the re-resolved cursors, the repair and the framing return and
`calc_page` returns the store they build. -/
theorem calc_page_steps (env : Env) (w : SidebarWindowData) (page_size : Int)
    (hn : 1 ≤ w.entry_count) (hc : cursors_ok w) (hps : 1 ≤ page_size)
    (oe he : Option Nat) (hoe : remember_entry w w.opn_index = .ok oe)
    (hhe : remember_entry w w.hil_index = .ok he)
    (s : SidebarWindowData) (hs : s = sort_entries env (update_entries_visibility env w))
    (c : Int × Int) (hcd : c = resolve_loop oe he 0 s.entries (s.opn_index, s.hil_index)) :
    ∃ h t b,
      repair_highlight env { s with opn_index := c.1, hil_index := c.2 }
        = .ok { s with opn_index := c.1, hil_index := h } ∧
      frame_page env { s with opn_index := c.1, hil_index := h } page_size
        = .ok { s with opn_index := c.1, hil_index := h, top_index := t, bot_index := b } ∧
      calc_page env w page_size
        = .ok { s with opn_index := c.1, hil_index := h, top_index := t, bot_index := b,
                       previous_sort := env.C_SidebarSortMethod } ∧
      cursor_ok s.entry_count c.1 ∧ 0 ≤ h ∧ h < s.entry_count ∧
      0 ≤ t ∧ t ≤ h ∧ h ≤ b ∧ b < s.entry_count ∧
      ((∃ e, entry_at s h = .ok e ∧ e.is_hidden = false) ∨
       (0 ≤ c.1 ∧ h = c.1) ∨
       (c.1 < 0 ∧ h = 0 ∧ select_next_loop s (s.entries.length + 1) 0 = .ok none)) := by
  obtain ⟨_, _, hopn, hhil⟩ := hc
  have hlen : s.entries.length = w.entries.length := by
    rw [hs, (sort_entries_perm env _).length_eq, update_entries_visibility_length]
  obtain ⟨_, hso, hsh, _, _, _⟩ := sort_entries_cursors env (update_entries_visibility env w)
  obtain ⟨_, hvo, hvh, _, _, _⟩ := update_entries_visibility_cursors env w
  rw [← hs] at hso hsh
  have hrange := resolve_loop_range oe he s.entries 0 (s.opn_index, s.hil_index)
  rw [← hcd] at hrange
  have hcnt : s.entry_count = w.entry_count := by
    unfold SidebarWindowData.entry_count; rw [hlen]
  have hc1 : cursor_ok s.entry_count c.1 := by
    unfold cursor_ok SidebarWindowData.entry_count at *
    rcases hrange.1 with h | h
    · simp only at h; rw [h, hso, hvo]; omega
    · right; simp only [Nat.cast_zero, zero_add] at h; omega
  have hc2 : cursor_ok s.entry_count c.2 := by
    unfold cursor_ok SidebarWindowData.entry_count at *
    rcases hrange.2 with h | h
    · simp only at h; rw [h, hsh, hvh]; omega
    · right; simp only [Nat.cast_zero, zero_add] at h; omega
  obtain ⟨h, hrep, hh0, hh1, hdisj⟩ := repair_highlight_spec env
    { s with opn_index := c.1, hil_index := c.2 } (by show 1 ≤ s.entry_count; omega) hc1 hc2
  obtain ⟨t, b, hfr, ht0, ht1, hb0, hb1⟩ := frame_page_spec env
    { s with opn_index := c.1, hil_index := h } page_size hps hh0 hh1
  refine ⟨h, t, b, hrep, hfr, ?_, hc1, hh0, hh1, ht0, ht1, hb0, hb1, ?_⟩
  · unfold calc_page
    have hps2 : ¬ (page_size ≤ 0) := by omega
    simp only [hps2, if_false, hoe, hhe, ← hs, ← hcd, hrep, hfr]
  · rcases hdisj with ⟨e, he1, he2⟩ | hd | ⟨hd1, hd2, hd3⟩
    · exact Or.inl ⟨e, he1, he2⟩
    · exact Or.inr (Or.inl hd)
    · refine Or.inr (Or.inr ⟨hd1, hd2, ?_⟩)
      rw [select_next_loop_congr s { s with opn_index := c.1, hil_index := c.2 } rfl]
      exact hd3

/-- On a non-empty store with cursors in range and a positive page size,
`calc_page` returns; the entries are those produced by the visibility and sort
steps, the page brackets the highlight, and `opn_index` is `-1` or in range. -/
theorem calc_page_spec (env : Env) (w : SidebarWindowData) (page_size : Int)
    (hn : 1 ≤ w.entry_count) (hc : cursors_ok w) (hps : 1 ≤ page_size) :
    ∃ w2, calc_page env w page_size = .ok w2 ∧
      w2.entries = (sort_entries env (update_entries_visibility env w)).entries ∧
      0 ≤ w2.top_index ∧ w2.top_index ≤ w2.hil_index ∧ w2.hil_index ≤ w2.bot_index ∧
      w2.bot_index < w2.entry_count ∧ cursor_ok w2.entry_count w2.opn_index := by
  have hro : ∃ oe, remember_entry w w.opn_index = .ok oe := by
    rcases remember_entry_ok w _ hc.2.2.1 with ⟨_, h⟩ | ⟨_, e, _, _, h⟩
    · exact ⟨_, h⟩
    · exact ⟨_, h⟩
  have hrh : ∃ he, remember_entry w w.hil_index = .ok he := by
    rcases remember_entry_ok w _ hc.2.2.2 with ⟨_, h⟩ | ⟨_, e, _, _, h⟩
    · exact ⟨_, h⟩
    · exact ⟨_, h⟩
  obtain ⟨oe, hoe⟩ := hro
  obtain ⟨he, hhe⟩ := hrh
  obtain ⟨h, t, b, _, _, hcp, hc1, _, _, ht0, ht1, hb0, hb1, _⟩ :=
    calc_page_steps env w page_size hn hc hps oe he hoe hhe _ rfl _ rfl
  exact ⟨_, hcp, rfl, ht0, ht1, hb0, hb1, hc1⟩

/-! ## Results on `calc_page` -/

/-- C1: for every store with `entry_count >= 1`, every cursor `-1` or in
`[0, entry_count)` and every `page_size >= 1`, `calc_page` returns and, if at
least one entry is unhidden afterwards, `0 <= top_index <= hil_index <=
bot_index < entry_count` (whether or not a filter is enabled). -/
theorem calc_page_cursor_order (env : Env) (w : SidebarWindowData) (page_size : Int)
    (hn : 1 ≤ w.entry_count) (hc : cursors_ok w) (hps : 1 ≤ page_size) :
    ∃ w2, calc_page env w page_size = .ok w2 ∧
      ((∃ sbe ∈ w2.entries, sbe.is_hidden = false) →
        0 ≤ w2.top_index ∧ w2.top_index ≤ w2.hil_index ∧ w2.hil_index ≤ w2.bot_index ∧
        w2.bot_index < w2.entry_count) := by
  obtain ⟨w2, h, _, h1, h2, h3, h4, _⟩ := calc_page_spec env w page_size hn hc hps
  exact ⟨w2, h, fun _ => ⟨h1, h2, h3, h4⟩⟩

/-- A pass with the non-empty-only filter over five mailboxes, page size 2. -/
theorem calc_page_cursor_order_witness :
    1 ≤ w_counts.entry_count ∧ cursors_ok w_counts ∧
    ∃ w2, calc_page env_non_empty w_counts 2 = .ok w2 ∧
      ((∃ sbe ∈ w2.entries, sbe.is_hidden = false) →
        0 ≤ w2.top_index ∧ w2.top_index ≤ w2.hil_index ∧ w2.hil_index ≤ w2.bot_index ∧
        w2.bot_index < w2.entry_count) :=
  ⟨by decide, by decide,
   calc_page_cursor_order env_non_empty w_counts 2 (by decide) (by decide) (by decide)⟩

/-- C4 fails on the code: removing the only mailbox leaves an empty store with
all cursors `-1`, and `calc_page` on it then reads `entries[0]`, a slot outside
`[0, entry_count)`. -/
theorem calc_page_empty_store_oob :
    sb_notify_mailbox env_plain w_last 104 1 false = (w_empty, true) ∧
    calc_page env_plain w_empty 1 = .error Fault.oob := by
  decide

/-! ## A second pass changes nothing -/

/-- Every entry after the visibility and sort steps comes from a slot of the
original array. -/
theorem sorted_entry_origin (env : Env) (w : SidebarWindowData) (k : Nat) (e : SbEntry)
    (h : (sort_entries env (update_entries_visibility env w)).entries[k]? = some e) :
    ∃ j e0, w.entries[j]? = some e0 ∧ e.addr = e0.addr ∧ e.mailbox = e0.mailbox ∧
      (((env.C_SidebarNewMailOnly = false ∧ env.C_SidebarNonEmptyMailboxOnly = false) ∧
          e.is_hidden = false) ∨
       (¬ (env.C_SidebarNewMailOnly = false ∧ env.C_SidebarNonEmptyMailboxOnly = false) ∧
          e = entry_visibility env w.opn_index j e0)) := by
  have hmem : e ∈ (update_entries_visibility env w).entries :=
    (sort_entries_perm env _).subset (mem_of_getElem?_some _ _ _ h)
  obtain ⟨j, hj⟩ := List.mem_iff_getElem?.mp hmem
  obtain ⟨e0, h0, h1, h2, h3⟩ := update_entries_visibility_entry env w j e hj
  exact ⟨j, e0, h0, h1, h2, h3⟩

theorem sorted_addrs_distinct (env : Env) (w : SidebarWindowData)
    (hd : addrs_distinct w.entries) :
    addrs_distinct (sort_entries env (update_entries_visibility env w)).entries := by
  unfold addrs_distinct at *
  rw [((sort_entries_perm env (update_entries_visibility env w)).map _).nodup_iff,
    update_entries_visibility_addrs]
  exact hd

/-- The entry at the original `opn_index` is found again after the sort, at
the re-resolved `opn_index`, and it is unhidden. -/
theorem resolve_opn_link (env : Env) (w : SidebarWindowData) (hd : addrs_distinct w.entries)
    (hopn : cursor_ok w.entry_count w.opn_index)
    (oe he : Option Nat) (hoe : remember_entry w w.opn_index = .ok oe)
    (s : SidebarWindowData) (hs : s = sort_entries env (update_entries_visibility env w))
    (c : Int × Int) (hcd : c = resolve_loop oe he 0 s.entries (s.opn_index, s.hil_index)) :
    (w.opn_index < 0 ∧ c.1 < 0) ∨
    (∃ e0 e1, 0 ≤ w.opn_index ∧ 0 ≤ c.1 ∧ w.entries[w.opn_index.toNat]? = some e0 ∧
      s.entries[c.1.toNat]? = some e1 ∧ e1.addr = e0.addr ∧ e1.is_hidden = false) := by
  have hso : s.opn_index = w.opn_index := by
    rw [hs, (sort_entries_cursors env _).2.1, (update_entries_visibility_cursors env w).2.1]
  rcases remember_entry_ok w _ hopn with ⟨hneg, hr⟩ | ⟨hpos, e0, _, he0, hr⟩
  · left
    rw [hr] at hoe
    cases hoe
    rw [hcd, resolve_loop_none_fst]
    exact ⟨hneg, by simp only [hso]; exact hneg⟩
  · right
    rw [hr] at hoe
    cases hoe
    have hmem : e0.addr ∈ s.entries.map (fun e => e.addr) := by
      have h1 : e0.addr ∈ w.entries.map (fun e => e.addr) :=
        List.mem_map.mpr ⟨e0, mem_of_getElem?_some _ _ _ he0, rfl⟩
      rw [← update_entries_visibility_addrs env w] at h1
      rw [hs]
      exact ((sort_entries_perm env (update_entries_visibility env w)).map _).symm.subset h1
    obtain ⟨e1, he1, ha⟩ := List.mem_map.mp hmem
    obtain ⟨k, hk⟩ := List.mem_iff_getElem?.mp he1
    have hsd : addrs_distinct s.entries := by rw [hs]; exact sorted_addrs_distinct env w hd
    have hc1 : c.1 = ((0 + k : Nat) : Int) := by
      rw [hcd, ← ha]
      exact resolve_loop_found_fst he s.entries 0 k _ e1 hsd hk
    simp only [Nat.zero_add] at hc1
    have hk2 : s.entries[c.1.toNat]? = some e1 := by
      rw [hc1]; simpa using hk
    refine ⟨e0, e1, hpos, by omega, he0, hk2, ha, ?_⟩
    rw [hs] at hk
    obtain ⟨j, e00, hj, hja, _, hvis⟩ := sorted_entry_origin env w k e1 hk
    have hjo : j = w.opn_index.toNat :=
      addrs_distinct_inj w.entries hd j _ e00 e0 hj he0 (by rw [← hja, ha])
    rcases hvis with ⟨_, hf⟩ | ⟨_, hv⟩
    · exact hf
    · rw [hv]
      have hcast : w.opn_index = ((j : Nat) : Int) := by omega
      rw [hcast]
      exact entry_visibility_at_opn env j e00

/-- The visibility step leaves the sorted store of a first pass as it is. -/
theorem visibility_second_pass (env : Env) (w : SidebarWindowData)
    (hd : addrs_distinct w.entries)
    (s : SidebarWindowData) (hs : s = sort_entries env (update_entries_visibility env w))
    (w5 : SidebarWindowData) (h5 : w5.entries = s.entries)
    (hlink : (w.opn_index < 0 ∧ w5.opn_index < 0) ∨
      (∃ e0 e1, 0 ≤ w.opn_index ∧ 0 ≤ w5.opn_index ∧
        w.entries[w.opn_index.toNat]? = some e0 ∧
        s.entries[w5.opn_index.toNat]? = some e1 ∧ e1.addr = e0.addr ∧ e1.is_hidden = false)) :
    update_entries_visibility env w5 = w5 := by
  apply update_entries_visibility_eq_self
  intro k e hk
  rw [h5] at hk
  have hk0 := hk
  rw [hs] at hk
  obtain ⟨j, e0, hj, hja, _, hvis⟩ := sorted_entry_origin env w k e hk
  have hsd : addrs_distinct s.entries := by rw [hs]; exact sorted_addrs_distinct env w hd
  constructor
  · intro hf
    rcases hvis with ⟨_, h⟩ | ⟨hnf, _⟩
    · exact h
    · exact absurd hf hnf
  · intro hnf
    rcases hvis with ⟨hf, _⟩ | ⟨_, hv⟩
    · exact absurd hf hnf
    · rw [hv]
      apply entry_visibility_twice
      rcases hlink with ⟨h1, h2⟩ | ⟨e00, e1, h1, h2, h3, h4, h5a, _⟩
      · constructor <;> intro hx <;> omega
      · constructor
        · intro hx
          have hk1 : k = w5.opn_index.toNat := by omega
          rw [← hk1, hk0] at h4
          cases h4
          have : j = w.opn_index.toNat :=
            addrs_distinct_inj w.entries hd j _ e0 e00 hj h3 (by rw [← hja, h5a])
          omega
        · intro hx
          have hj1 : j = w.opn_index.toNat := by omega
          rw [← hj1, hj] at h3
          cases h3
          have : k = w5.opn_index.toNat :=
            addrs_distinct_inj s.entries hsd k _ e e1 hk0 h4 (by rw [hja, h5a])
          omega

theorem cmp_consistent_of_mailboxes (env : Env) (l1 l2 : List SbEntry)
    (hsub : ∀ e ∈ l2, ∃ e0 ∈ l1, e.mailbox = e0.mailbox) (h : cmp_consistent env l1) :
    cmp_consistent env l2 := by
  constructor
  · intro a ha b hb
    obtain ⟨a0, ha0, hma⟩ := hsub a ha
    obtain ⟨b0, hb0, hmb⟩ := hsub b hb
    rw [cb_qsort_sbe_congr env a a0 b b0 hma hmb, cb_qsort_sbe_congr env b b0 a a0 hmb hma]
    exact h.1 a0 ha0 b0 hb0
  · intro a ha b hb c hc
    obtain ⟨a0, ha0, hma⟩ := hsub a ha
    obtain ⟨b0, hb0, hmb⟩ := hsub b hb
    obtain ⟨c0, hc0, hmc⟩ := hsub c hc
    rw [cb_qsort_sbe_congr env a a0 b b0 hma hmb, cb_qsort_sbe_congr env b b0 c c0 hmb hmc,
      cb_qsort_sbe_congr env a a0 c c0 hma hmc]
    exact h.2 a0 ha0 b0 hb0 c0 hc0

/-- The sort step leaves the sorted store of a first pass as it is, once the
sort method is the recorded one, whatever order `qsort` gives to elements that
compare equal: there are none among different entries. -/
theorem sort_second_pass (env : Env) (w : SidebarWindowData) (hd : addrs_distinct w.entries)
    (hcmp : qsort_mode env → cmp_consistent env w.entries ∧ cmp_no_ties env w.entries)
    (w5 : SidebarWindowData)
    (h5 : w5.entries = (sort_entries env (update_entries_visibility env w)).entries)
    (hprev : w5.previous_sort = env.C_SidebarSortMethod) :
    sort_entries env w5 = w5 := by
  unfold sort_entries at h5 ⊢
  simp only at h5 ⊢
  by_cases hq : env.C_SidebarSortMethod &&& SORT_MASK = SORT_COUNT ∨
      env.C_SidebarSortMethod &&& SORT_MASK = SORT_UNREAD ∨
      env.C_SidebarSortMethod &&& SORT_MASK = SORT_FLAGGED ∨
      env.C_SidebarSortMethod &&& SORT_MASK = SORT_PATH
  · obtain ⟨hcons, hties⟩ := hcmp hq
    have hcv : cmp_consistent env (update_entries_visibility env w).entries := by
      apply cmp_consistent_of_mailboxes env w.entries _ _ hcons
      intro e he
      obtain ⟨j, hj⟩ := List.mem_iff_getElem?.mp he
      obtain ⟨e0, h0, _, hm, _⟩ := update_entries_visibility_entry env w j e hj
      exact ⟨e0, mem_of_getElem?_some _ _ _ h0, hm⟩
    have hdv : addrs_distinct (update_entries_visibility env w).entries := by
      unfold addrs_distinct
      rw [update_entries_visibility_addrs env w]
      exact hd
    have hanti : ∀ a ∈ (update_entries_visibility env w).entries,
        ∀ b ∈ (update_entries_visibility env w).entries,
        cb_qsort_sbe env a b ≤ 0 → cb_qsort_sbe env b a ≤ 0 → a = b := by
      intro a ha b hb hab hba
      obtain ⟨j, hj⟩ := List.mem_iff_getElem?.mp ha
      obtain ⟨k, hk⟩ := List.mem_iff_getElem?.mp hb
      obtain ⟨a0, ha0, haa, hma, _⟩ := update_entries_visibility_entry env w j a hj
      obtain ⟨b0, hb0, hba0, hmb, _⟩ := update_entries_visibility_entry env w k b hk
      rw [cb_qsort_sbe_congr env a a0 b b0 hma hmb] at hab
      rw [cb_qsort_sbe_congr env b b0 a a0 hmb hma] at hba
      have haddr : a.addr = b.addr := by
        rw [haa, hba0]
        exact hties a0 (mem_of_getElem?_some _ _ _ ha0) b0 (mem_of_getElem?_some _ _ _ hb0)
          hab hba
      have hjk := addrs_distinct_inj _ hdv j k a b hj hk haddr
      rw [hjk, hk] at hj
      cases hj
      rfl
    simp only [hq, if_true] at h5 ⊢
    rw [h5, qsort_qsort env _ hcv hanti, ← h5]
  · have hno : ¬ (env.C_SidebarSortMethod &&& SORT_MASK = SORT_ORDER ∧
        env.C_SidebarSortMethod ≠ w5.previous_sort) := by
      rw [hprev]; simp
    simp only [hq, if_false, hno]

theorem select_next_loop_none (w : SidebarWindowData) (fuel : Nat) (entry : Int)
    (h : select_next_loop w fuel entry = .ok none) :
    ∀ k sbe, entry < k → entry_at w k = .ok sbe → sbe.is_hidden = true := by
  induction fuel generalizing entry with
  | zero => simp [select_next_loop] at h
  | succ n ih =>
    intro k sbe hk hsbe
    simp only [select_next_loop] at h
    by_cases hend : entry + 1 = w.entry_count
    · have hoob := entry_at_oob w k (Or.inr (by omega))
      rw [hoob] at hsbe
      cases hsbe
    · simp only [hend, if_false] at h
      cases he : entry_at w (entry + 1) with
      | error f => rw [he] at h; simp at h
      | ok e =>
        rw [he] at h
        simp only at h
        by_cases hh : e.is_hidden = true
        · simp only [hh, if_true] at h
          by_cases hk1 : k = entry + 1
          · rw [hk1, he] at hsbe
            cases hsbe
            exact hh
          · exact ih (entry + 1) h k sbe (by omega) hsbe
        · simp only [hh, if_false] at h
          cases h

/-- C11: after a `calc_page` pass on a store with `entry_count >= 1`, cursors
in range and `page_size >= 1`, if at least one entry is unhidden then
`entries[hil_index]` is unhidden.  The entries are distinct heap cells. -/
theorem calc_page_highlight_unhidden (env : Env) (w : SidebarWindowData) (page_size : Int)
    (hn : 1 ≤ w.entry_count) (hc : cursors_ok w) (hps : 1 ≤ page_size)
    (hd : addrs_distinct w.entries) :
    ∃ w2, calc_page env w page_size = .ok w2 ∧
      ((∃ sbe ∈ w2.entries, sbe.is_hidden = false) →
        ∃ sbe, entry_at w2 w2.hil_index = .ok sbe ∧ sbe.is_hidden = false) := by
  have hro : ∃ oe, remember_entry w w.opn_index = .ok oe := by
    rcases remember_entry_ok w _ hc.2.2.1 with ⟨_, h⟩ | ⟨_, e, _, _, h⟩
    · exact ⟨_, h⟩
    · exact ⟨_, h⟩
  have hrh : ∃ he, remember_entry w w.hil_index = .ok he := by
    rcases remember_entry_ok w _ hc.2.2.2 with ⟨_, h⟩ | ⟨_, e, _, _, h⟩
    · exact ⟨_, h⟩
    · exact ⟨_, h⟩
  obtain ⟨oe, hoe⟩ := hro
  obtain ⟨he, hhe⟩ := hrh
  generalize hs : sort_entries env (update_entries_visibility env w) = s
  generalize hcd : resolve_loop oe he 0 s.entries (s.opn_index, s.hil_index) = c
  obtain ⟨h, t, b, _, _, hcp, _, hh0, hh1, _, _, _, _, hdisj⟩ :=
    calc_page_steps env w page_size hn hc hps oe he hoe hhe s hs.symm c hcd.symm
  have hlink := resolve_opn_link env w hd hc.2.2.1 oe he hoe s hs.symm c hcd.symm
  refine ⟨_, hcp, ?_⟩
  intro hex
  show ∃ sbe, entry_at s h = .ok sbe ∧ sbe.is_hidden = false
  obtain ⟨x, hx, hxu⟩ : ∃ sbe ∈ s.entries, sbe.is_hidden = false := hex
  rcases hdisj with h1 | ⟨h2a, h2b⟩ | ⟨h3a, h3b, h3c⟩
  · exact h1
  · rcases hlink with ⟨_, hl⟩ | ⟨e0, e1, _, _, _, hl4, _, hl6⟩
    · omega
    · obtain ⟨e, he1, he2⟩ := entry_at_ok s h hh0 hh1
      rw [h2b, hl4] at he2
      cases he2
      exact ⟨e1, he1, hl6⟩
  · obtain ⟨e, he1, he2⟩ := entry_at_ok s h hh0 hh1
    by_cases hhid : e.is_hidden = true
    · exfalso
      obtain ⟨k, hk⟩ := List.mem_iff_getElem?.mp hx
      have hklt : k < s.entries.length := (List.getElem?_eq_some_iff.mp hk).1
      obtain ⟨y, hy1, hy2⟩ := entry_at_ok s (k : Int) (by omega)
        (by unfold SidebarWindowData.entry_count; omega)
      simp only [Int.toNat_ofNat, hk, Option.some.injEq] at hy2
      subst hy2
      by_cases hk0 : k = 0
      · subst hk0
        rw [h3b] at he1
        simp only [Nat.cast_zero] at hy1
        rw [hy1] at he1
        cases he1
        rw [hhid] at hxu
        cases hxu
      · have := select_next_loop_none s _ 0 h3c (k : Int) x (by omega) hy1
        rw [this] at hxu
        cases hxu
    · exact ⟨e, he1, by simpa using hhid⟩

/-- A pass with the non-empty-only filter over five mailboxes, page size 2. -/
theorem calc_page_highlight_unhidden_witness :
    1 ≤ w_counts.entry_count ∧ cursors_ok w_counts ∧ addrs_distinct w_counts.entries ∧
    ∃ w2, calc_page env_non_empty w_counts 2 = .ok w2 ∧
      ((∃ sbe ∈ w2.entries, sbe.is_hidden = false) →
        ∃ sbe, entry_at w2 w2.hil_index = .ok sbe ∧ sbe.is_hidden = false) :=
  ⟨by decide, by decide, by decide,
   calc_page_highlight_unhidden env_non_empty w_counts 2 (by decide) (by decide) (by decide)
     (by decide)⟩

/-- C12 fails on the code.  A store filled by `init_data` from the zeroed
`sb_wdata_new` keeps `opn_index = 0` although no mailbox is active; and a
store whose `opn_index` names mailbox 3 keeps it when mailbox 1 is the active
one.  In both, `calc_page` returns with `opn_index >= 0` on an entry that is
not the active mailbox. -/
theorem calc_page_opn_not_active :
    (init_data env_scenario_a sb_wdata_new [101, 102, 103, 104, 105]).opn_index = 0 ∧
    (∃ w2, calc_page env_scenario_a
        (init_data env_scenario_a sb_wdata_new [101, 102, 103, 104, 105]) 3 = .ok w2 ∧
      w2.opn_index = 0 ∧
      (w2.entries[0]?).map (fun e => is_active env_scenario_a e.mailbox) = some false) ∧
    (∃ w2, calc_page (env_active 1) w_three 3 = .ok w2 ∧ w2.opn_index = 2 ∧
      (w2.entries[2]?).map (fun e => e.mailbox) = some 3 ∧
      is_active (env_active 1) 3 = false ∧ is_active (env_active 1) 1 = true) := by
  refine ⟨by decide, ⟨_, rfl, by decide, by decide⟩, ⟨_, rfl, by decide, by decide, by decide,
    by decide⟩⟩

/-! ## The visibility rule -/

theorem update_entries_visibility_general (env : Env) (w : SidebarWindowData) (k : Nat)
    (e0 : SbEntry)
    (hfilter : env.C_SidebarNewMailOnly = true ∨ env.C_SidebarNonEmptyMailboxOnly = true)
    (hk : w.entries[k]? = some e0) :
    (update_entries_visibility env w).entries[k]? =
      some { e0 with is_hidden := hidden_flag env e0.mailbox (decide ((k : Int) = w.opn_index)) } := by
  have hnf : ¬ (env.C_SidebarNewMailOnly = false ∧ env.C_SidebarNonEmptyMailboxOnly = false) := by
    intro h
    rcases hfilter with h1 | h1
    · rw [h.1] at h1; cases h1
    · rw [h.2] at h1; cases h1
  unfold update_entries_visibility
  simp only [hnf, if_false, visibility_loop_getElem?, Nat.zero_add, hk, Option.map_some',
    entry_visibility_eq]

/-- C13 fails on the code, through the defect of C12.  The store that
`init_data` fills from the zeroed `sb_wdata_new` has `opn_index = 0` although
no mailbox is active.  Under the non-empty-only filter the counts
`[0, 3, 0, 5, 1]` give the flags `[false, false, true, false, false]`, not
`[true, false, true, false, false]`: the mailbox of slot 0 is neither active
nor whitelisted and holds no message, yet its entry is left unhidden. -/
theorem update_entries_visibility_stale_opn :
    (init_data env_scenario_a sb_wdata_new [101, 102, 103, 104, 105]).opn_index = 0 ∧
    ((init_data env_scenario_a sb_wdata_new [101, 102, 103, 104, 105]).entries.map
      (fun e => e.mailbox)) = [1, 2, 3, 4, 5] ∧
    ((update_entries_visibility env_scenario_a
        (init_data env_scenario_a sb_wdata_new [101, 102, 103, 104, 105])).entries.map
      (fun e => e.is_hidden)) = [false, false, true, false, false] ∧
    is_active env_scenario_a 1 = false ∧
    mutt_list_find env_scenario_a.SidebarWhitelist (env_scenario_a.mailboxes 1).path = false ∧
    mutt_list_find env_scenario_a.SidebarWhitelist (env_scenario_a.mailboxes 1).name = false ∧
    env_scenario_a.C_SidebarNonEmptyMailboxOnly = true ∧
    (env_scenario_a.mailboxes 1).msg_count = 0 := by
  decide

/-- The visibility rule away from `opn_index`: when at least one filter is
enabled, for every entry that is neither the active mailbox nor whitelisted and
whose slot is not `opn_index`, `update_entries_visibility` sets
`is_hidden = true` if and only if (non-empty-only and `msg_count == 0`) or
(new-only and `msg_unread == 0` and `msg_flagged == 0` and not `has_new`). -/
theorem update_entries_visibility_rule (env : Env) (w : SidebarWindowData) (k : Nat)
    (e0 : SbEntry)
    (hfilter : env.C_SidebarNewMailOnly = true ∨ env.C_SidebarNonEmptyMailboxOnly = true)
    (hk : w.entries[k]? = some e0)
    (hact : is_active env e0.mailbox = false)
    (hpath : mutt_list_find env.SidebarWhitelist (env.mailboxes e0.mailbox).path = false)
    (hname : mutt_list_find env.SidebarWhitelist (env.mailboxes e0.mailbox).name = false)
    (hopn : (k : Int) ≠ w.opn_index) :
    ∃ e2, (update_entries_visibility env w).entries[k]? = some e2 ∧
      (e2.is_hidden = true ↔
        (env.C_SidebarNonEmptyMailboxOnly = true ∧ (env.mailboxes e0.mailbox).msg_count = 0) ∨
        (env.C_SidebarNewMailOnly = true ∧ (env.mailboxes e0.mailbox).msg_unread = 0 ∧
          (env.mailboxes e0.mailbox).msg_flagged = 0 ∧
          (env.mailboxes e0.mailbox).has_new = false)) := by
  refine ⟨_, update_entries_visibility_general env w k e0 hfilter hk, ?_⟩
  unfold hidden_flag
  simp [hact, hpath, hname, hopn, and_assoc]

/-- Scenario A: counts `[0, 3, 0, 5, 1]` under the non-empty-only filter, no
active mailbox, no whitelist, `opn_index` unset. -/
theorem update_entries_visibility_rule_witness :
    ((update_entries_visibility env_scenario_a w_scenario_a).entries.map
      (fun e => e.is_hidden)) = [true, false, true, false, false] ∧
    ∃ e2, (update_entries_visibility env_scenario_a w_scenario_a).entries[0]? = some e2 ∧
      (e2.is_hidden = true ↔
        (env_scenario_a.C_SidebarNonEmptyMailboxOnly = true ∧
          (env_scenario_a.mailboxes (mk_entry 101 1).mailbox).msg_count = 0) ∨
        (env_scenario_a.C_SidebarNewMailOnly = true ∧
          (env_scenario_a.mailboxes (mk_entry 101 1).mailbox).msg_unread = 0 ∧
          (env_scenario_a.mailboxes (mk_entry 101 1).mailbox).msg_flagged = 0 ∧
          (env_scenario_a.mailboxes (mk_entry 101 1).mailbox).has_new = false)) :=
  ⟨by decide,
   update_entries_visibility_rule env_scenario_a w_scenario_a 0 (mk_entry 101 1)
     (Or.inr rfl) (by decide) (by decide) (by decide) (by decide) (by decide)⟩

/-- The visibility rule on a store whose `opn_index` is in step with the
active mailbox (it is negative, or its entry is the active mailbox): then the
rule holds for every entry that is neither the active mailbox nor whitelisted. -/
theorem update_entries_visibility_rule_synced (env : Env) (w : SidebarWindowData) (k : Nat)
    (e0 : SbEntry)
    (hfilter : env.C_SidebarNewMailOnly = true ∨ env.C_SidebarNonEmptyMailboxOnly = true)
    (hk : w.entries[k]? = some e0)
    (hact : is_active env e0.mailbox = false)
    (hpath : mutt_list_find env.SidebarWhitelist (env.mailboxes e0.mailbox).path = false)
    (hname : mutt_list_find env.SidebarWhitelist (env.mailboxes e0.mailbox).name = false)
    (hsync : ∀ e, 0 ≤ w.opn_index → w.entries[w.opn_index.toNat]? = some e →
      is_active env e.mailbox = true) :
    ∃ e2, (update_entries_visibility env w).entries[k]? = some e2 ∧
      (e2.is_hidden = true ↔
        (env.C_SidebarNonEmptyMailboxOnly = true ∧ (env.mailboxes e0.mailbox).msg_count = 0) ∨
        (env.C_SidebarNewMailOnly = true ∧ (env.mailboxes e0.mailbox).msg_unread = 0 ∧
          (env.mailboxes e0.mailbox).msg_flagged = 0 ∧
          (env.mailboxes e0.mailbox).has_new = false)) := by
  have hopn : (k : Int) ≠ w.opn_index := by
    intro h
    have ha := hsync e0 (by omega) (by rw [← h, Int.toNat_ofNat]; exact hk)
    rw [hact] at ha
    cases ha
  exact update_entries_visibility_rule env w k e0 hfilter hk hact hpath hname hopn

/-- Scenario A with `opn_index` unset: the flags are
`[true, false, true, false, false]`, and slot 2 follows the rule. -/
theorem update_entries_visibility_rule_synced_witness :
    ((update_entries_visibility env_scenario_a w_scenario_a).entries.map
      (fun e => e.is_hidden)) = [true, false, true, false, false] ∧
    ∃ e2, (update_entries_visibility env_scenario_a w_scenario_a).entries[2]? = some e2 ∧
      (e2.is_hidden = true ↔
        (env_scenario_a.C_SidebarNonEmptyMailboxOnly = true ∧
          (env_scenario_a.mailboxes (mk_entry 103 3).mailbox).msg_count = 0) ∨
        (env_scenario_a.C_SidebarNewMailOnly = true ∧
          (env_scenario_a.mailboxes (mk_entry 103 3).mailbox).msg_unread = 0 ∧
          (env_scenario_a.mailboxes (mk_entry 103 3).mailbox).msg_flagged = 0 ∧
          (env_scenario_a.mailboxes (mk_entry 103 3).mailbox).has_new = false)) :=
  ⟨by decide,
   update_entries_visibility_rule_synced env_scenario_a w_scenario_a 2 (mk_entry 103 3)
     (Or.inr rfl) (by decide) (by decide) (by decide) (by decide)
     (fun e h0 _ => absurd h0 (by decide))⟩

/-- C14: for every filter configuration and all counts, an entry whose mailbox
is the active mailbox, or whose path or name is on the whitelist, has
`is_hidden = false` after `update_entries_visibility`, whatever its flag was. -/
theorem update_entries_visibility_exempt (env : Env) (w : SidebarWindowData) (k : Nat)
    (e0 : SbEntry) (hk : w.entries[k]? = some e0)
    (hex : is_active env e0.mailbox = true ∨
      mutt_list_find env.SidebarWhitelist (env.mailboxes e0.mailbox).path = true ∨
      mutt_list_find env.SidebarWhitelist (env.mailboxes e0.mailbox).name = true) :
    ∃ e2, (update_entries_visibility env w).entries[k]? = some e2 ∧ e2.is_hidden = false := by
  by_cases hf : env.C_SidebarNewMailOnly = false ∧ env.C_SidebarNonEmptyMailboxOnly = false
  · refine ⟨{ e0 with is_hidden := false }, ?_, rfl⟩
    unfold update_entries_visibility
    simp only [hf, and_self, if_true, List.getElem?_map, hk, Option.map_some']
  · have hfilter : env.C_SidebarNewMailOnly = true ∨ env.C_SidebarNonEmptyMailboxOnly = true := by
      by_cases h1 : env.C_SidebarNewMailOnly = true
      · exact Or.inl h1
      · right
        by_cases h2 : env.C_SidebarNonEmptyMailboxOnly = true
        · exact h2
        · exact absurd ⟨by simpa using h1, by simpa using h2⟩ hf
    refine ⟨_, update_entries_visibility_general env w k e0 hfilter hk, ?_⟩
    unfold hidden_flag
    rcases hex with h | h | h
    · simp [h]
    · simp [h]
    · simp [h]

/-- Mailbox 1 is the active mailbox; the new-mail-only filter would hide it. -/
theorem update_entries_visibility_exempt_witness :
    w_three.entries[0]? = some (mk_entry 101 1) ∧
    is_active env_active_new_only (mk_entry 101 1).mailbox = true ∧
    ∃ e2, (update_entries_visibility env_active_new_only w_three).entries[0]? = some e2 ∧
      e2.is_hidden = false :=
  ⟨by decide, by decide,
   update_entries_visibility_exempt env_active_new_only w_three 0 (mk_entry 101 1)
     (by decide) (Or.inl (by decide))⟩

/-! ## The numeric sort modes -/

theorem wrap32_eq_self (x : Int) (h1 : -2147483648 ≤ x) (h2 : x ≤ 2147483647) :
    wrap32 x = x := by
  unfold wrap32
  omega

/-- The comparison in a numeric mode, in terms of the compared count. -/
theorem cb_qsort_sbe_numeric (env : Env) (a b : SbEntry) (hmode : numeric_mode env) :
    cb_qsort_sbe env a b =
      if env.C_SidebarSortMethod &&& SORT_REVERSE ≠ 0 then
        -(if numeric_key env b.mailbox = numeric_key env a.mailbox then
            env.strcoll (entry_path env a) (entry_path env b)
          else wrap32 (numeric_key env b.mailbox - numeric_key env a.mailbox))
      else
        (if numeric_key env b.mailbox = numeric_key env a.mailbox then
            env.strcoll (entry_path env a) (entry_path env b)
          else wrap32 (numeric_key env b.mailbox - numeric_key env a.mailbox)) := by
  unfold numeric_mode at hmode
  rcases hmode with h | h | h <;>
    simp [cb_qsort_sbe, numeric_key, entry_path, h, SORT_COUNT, SORT_UNREAD, SORT_FLAGGED,
      SORT_DESC]

/-- With the reverse flag clear and counts in range, `a` may precede `b` iff
its count is larger, or the counts are equal and the paths collate in order. -/
theorem cb_qsort_sbe_numeric_le (env : Env) (a b : SbEntry) (hmode : numeric_mode env)
    (hrev : env.C_SidebarSortMethod &&& SORT_REVERSE = 0)
    (ha : 0 ≤ numeric_key env a.mailbox ∧ numeric_key env a.mailbox ≤ 2147483647)
    (hb : 0 ≤ numeric_key env b.mailbox ∧ numeric_key env b.mailbox ≤ 2147483647) :
    cb_qsort_sbe env a b ≤ 0 ↔
      (numeric_key env b.mailbox < numeric_key env a.mailbox ∨
       (numeric_key env a.mailbox = numeric_key env b.mailbox ∧
        env.strcoll (entry_path env a) (entry_path env b) ≤ 0)) := by
  rw [cb_qsort_sbe_numeric env a b hmode]
  simp only [hrev, ne_eq, not_true_eq_false, if_false]
  by_cases heq : numeric_key env b.mailbox = numeric_key env a.mailbox
  · simp only [heq, if_true, lt_irrefl, false_or, true_and]
  · simp only [heq, if_false]
    rw [wrap32_eq_self _ (by omega) (by omega)]
    constructor
    · intro h; left; omega
    · intro h
      rcases h with h | ⟨h, _⟩
      · omega
      · exact absurd h.symm heq

/-- With the reverse flag set, the order of the counts and of the collation
is the opposite one. -/
theorem cb_qsort_sbe_numeric_le_rev (env : Env) (a b : SbEntry) (hmode : numeric_mode env)
    (hrev : env.C_SidebarSortMethod &&& SORT_REVERSE ≠ 0)
    (ha : 0 ≤ numeric_key env a.mailbox ∧ numeric_key env a.mailbox ≤ 2147483647)
    (hb : 0 ≤ numeric_key env b.mailbox ∧ numeric_key env b.mailbox ≤ 2147483647) :
    cb_qsort_sbe env a b ≤ 0 ↔
      (numeric_key env a.mailbox < numeric_key env b.mailbox ∨
       (numeric_key env a.mailbox = numeric_key env b.mailbox ∧
        0 ≤ env.strcoll (entry_path env a) (entry_path env b))) := by
  rw [cb_qsort_sbe_numeric env a b hmode]
  simp only [hrev, ne_eq, not_false_eq_true, if_true]
  by_cases heq : numeric_key env b.mailbox = numeric_key env a.mailbox
  · simp only [heq, if_true, lt_irrefl, false_or, true_and]
    omega
  · simp only [heq, if_false]
    rw [wrap32_eq_self _ (by omega) (by omega)]
    constructor
    · intro h; left; omega
    · intro h
      rcases h with h | ⟨h, _⟩
      · omega
      · exact absurd h.symm heq

theorem cmp_consistent_numeric (env : Env) (es : List SbEntry) (hmode : numeric_mode env)
    (hrev : env.C_SidebarSortMethod &&& SORT_REVERSE = 0)
    (hrange : counts_in_range env es) (hcoll : strcoll_preorder env es) :
    cmp_consistent env es := by
  constructor
  · intro a ha b hb
    rw [cb_qsort_sbe_numeric_le env a b hmode hrev (hrange a ha) (hrange b hb),
      cb_qsort_sbe_numeric_le env b a hmode hrev (hrange b hb) (hrange a ha)]
    rcases hcoll.1 a ha b hb with h | h
    · by_cases h1 : numeric_key env a.mailbox = numeric_key env b.mailbox
      · exact Or.inl (Or.inr ⟨h1, h⟩)
      · rcases lt_or_gt_of_ne h1 with h2 | h2
        · exact Or.inr (Or.inl h2)
        · exact Or.inl (Or.inl h2)
    · by_cases h1 : numeric_key env a.mailbox = numeric_key env b.mailbox
      · exact Or.inr (Or.inr ⟨h1.symm, h⟩)
      · rcases lt_or_gt_of_ne h1 with h2 | h2
        · exact Or.inr (Or.inl h2)
        · exact Or.inl (Or.inl h2)
  · intro a ha b hb c hc
    rw [cb_qsort_sbe_numeric_le env a b hmode hrev (hrange a ha) (hrange b hb),
      cb_qsort_sbe_numeric_le env b c hmode hrev (hrange b hb) (hrange c hc),
      cb_qsort_sbe_numeric_le env a c hmode hrev (hrange a ha) (hrange c hc)]
    intro h1 h2
    rcases h1 with h1 | ⟨h1, h1c⟩
    · rcases h2 with h2 | ⟨h2, _⟩
      · left; omega
      · left; omega
    · rcases h2 with h2 | ⟨h2, h2c⟩
      · left; omega
      · right
        exact ⟨by omega, hcoll.2 a ha b hb c hc h1c h2c⟩

theorem sort_entries_numeric (env : Env) (w : SidebarWindowData) (hmode : numeric_mode env) :
    (sort_entries env w).entries = qsort env.qsort_order (cb_qsort_sbe env) w.entries := by
  unfold numeric_mode at hmode
  unfold sort_entries
  have hq : env.C_SidebarSortMethod &&& SORT_MASK = SORT_COUNT ∨
      env.C_SidebarSortMethod &&& SORT_MASK = SORT_UNREAD ∨
      env.C_SidebarSortMethod &&& SORT_MASK = SORT_FLAGGED ∨
      env.C_SidebarSortMethod &&& SORT_MASK = SORT_PATH := by
    rcases hmode with h | h | h
    · exact Or.inl h
    · exact Or.inr (Or.inl h)
    · exact Or.inr (Or.inr (Or.inl h))
  simp only [hq, if_true]

/-- C15: in sort mode count, unread or flagged with the reverse flag off,
`sort_entries` leaves a permutation of the entries in which each entry's count
is `>=` that of its successor, and adjacent entries with equal counts are in
ascending path collation order.  The counts lie in `[0, INT_MAX]` and `strcoll`
is a total preorder on the paths of the store. -/
theorem sort_entries_numeric_order (env : Env) (w : SidebarWindowData)
    (hmode : numeric_mode env) (hrev : env.C_SidebarSortMethod &&& SORT_REVERSE = 0)
    (hrange : counts_in_range env w.entries) (hcoll : strcoll_preorder env w.entries) :
    (sort_entries env w).entries.Perm w.entries ∧
    ∀ i a b, (sort_entries env w).entries[i]? = some a →
      (sort_entries env w).entries[i + 1]? = some b →
      numeric_key env b.mailbox ≤ numeric_key env a.mailbox ∧
      (numeric_key env a.mailbox = numeric_key env b.mailbox →
        env.strcoll (entry_path env a) (entry_path env b) ≤ 0) := by
  refine ⟨sort_entries_perm env w, ?_⟩
  intro i a b hi hj
  have hsorted := qsort_sorted env w.entries (cmp_consistent_numeric env _ hmode hrev hrange hcoll)
  rw [← sort_entries_numeric env w hmode] at hsorted
  obtain ⟨hi1, hi2⟩ := List.getElem?_eq_some_iff.mp hi
  obtain ⟨hj1, hj2⟩ := List.getElem?_eq_some_iff.mp hj
  have hr := List.pairwise_iff_getElem.mp hsorted i (i + 1) hi1 hj1 (by omega)
  rw [hi2, hj2] at hr
  have hma : a ∈ w.entries := (sort_entries_perm env w).subset (mem_of_getElem?_some _ _ _ hi)
  have hmb : b ∈ w.entries := (sort_entries_perm env w).subset (mem_of_getElem?_some _ _ _ hj)
  rw [cb_qsort_sbe_numeric_le env a b hmode hrev (hrange a hma) (hrange b hmb)] at hr
  rcases hr with h | ⟨h1, h2⟩
  · exact ⟨by omega, fun h3 => by omega⟩
  · exact ⟨by omega, fun _ => h2⟩

/-- Scenario B: unread `[2, 2, 5]` with paths `[b, a, c]` becomes `[c, a, b]`. -/
theorem sort_entries_numeric_order_witness :
    numeric_mode env_scenario_b ∧ counts_in_range env_scenario_b w_three.entries ∧
    strcoll_preorder env_scenario_b w_three.entries ∧
    (sort_entries env_scenario_b w_three).entries.map (entry_path env_scenario_b)
      = ["c", "a", "b"] ∧
    (sort_entries env_scenario_b w_three).entries.Perm w_three.entries :=
  ⟨by decide, by decide, by decide, by decide,
   (sort_entries_numeric_order env_scenario_b w_three (by decide) (by decide) (by decide)
     (by decide)).1⟩

/-! ## Independence of the initial order -/

theorem strcoll_total_order_preorder (env : Env) (es : List SbEntry)
    (h : strcoll_total_order env es) : strcoll_preorder env es := by
  refine ⟨?_, h.2.1⟩
  intro a ha b hb
  by_cases h1 : env.strcoll (entry_path env a) (entry_path env b) ≤ 0
  · exact Or.inl h1
  · right
    exact (h.1 b hb a ha).mpr (by omega)

theorem cmp_consistent_numeric_rev (env : Env) (es : List SbEntry) (hmode : numeric_mode env)
    (hrev : env.C_SidebarSortMethod &&& SORT_REVERSE ≠ 0)
    (hrange : counts_in_range env es) (hcoll : strcoll_total_order env es) :
    cmp_consistent env es := by
  constructor
  · intro a ha b hb
    rw [cb_qsort_sbe_numeric_le_rev env a b hmode hrev (hrange a ha) (hrange b hb),
      cb_qsort_sbe_numeric_le_rev env b a hmode hrev (hrange b hb) (hrange a ha)]
    by_cases h1 : numeric_key env a.mailbox = numeric_key env b.mailbox
    · by_cases h2 : 0 ≤ env.strcoll (entry_path env a) (entry_path env b)
      · exact Or.inl (Or.inr ⟨h1, h2⟩)
      · exact Or.inr (Or.inr ⟨h1.symm, (hcoll.1 a ha b hb).mp (by omega)⟩)
    · rcases lt_or_gt_of_ne h1 with h2 | h2
      · exact Or.inl (Or.inl h2)
      · exact Or.inr (Or.inl h2)
  · intro a ha b hb c hc
    rw [cb_qsort_sbe_numeric_le_rev env a b hmode hrev (hrange a ha) (hrange b hb),
      cb_qsort_sbe_numeric_le_rev env b c hmode hrev (hrange b hb) (hrange c hc),
      cb_qsort_sbe_numeric_le_rev env a c hmode hrev (hrange a ha) (hrange c hc)]
    intro h1 h2
    rcases h1 with h1 | ⟨h1, h1c⟩
    · rcases h2 with h2 | ⟨h2, _⟩
      · left; omega
      · left; omega
    · rcases h2 with h2 | ⟨h2, h2c⟩
      · left; omega
      · right
        refine ⟨by omega, ?_⟩
        have hba := (hcoll.1 b hb a ha).mpr h1c
        have hcb := (hcoll.1 c hc b hb).mpr h2c
        exact (hcoll.1 c hc a ha).mp (hcoll.2.1 c hc b hb a ha hcb hba)

/-- In a numeric mode two entries with different paths never compare as
equal in both directions. -/
theorem cb_qsort_sbe_numeric_antisymm (env : Env) (es : List SbEntry)
    (hmode : numeric_mode env) (hrange : counts_in_range env es)
    (hcoll : strcoll_total_order env es)
    (hpaths : (es.map (entry_path env)).Nodup) :
    ∀ a ∈ es, ∀ b ∈ es, cb_qsort_sbe env a b ≤ 0 → cb_qsort_sbe env b a ≤ 0 → a = b := by
  intro a ha b hb h1 h2
  apply List.inj_on_of_nodup_map hpaths ha hb
  by_cases hrev : env.C_SidebarSortMethod &&& SORT_REVERSE = 0
  · rw [cb_qsort_sbe_numeric_le env a b hmode hrev (hrange a ha) (hrange b hb)] at h1
    rw [cb_qsort_sbe_numeric_le env b a hmode hrev (hrange b hb) (hrange a ha)] at h2
    rcases h1 with h1 | ⟨_, h1c⟩
    · rcases h2 with h2 | ⟨h2, _⟩ <;> omega
    · rcases h2 with h2 | ⟨_, h2c⟩
      · omega
      · have := (hcoll.1 b hb a ha).mp h2c
        exact hcoll.2.2 a ha b hb (by omega)
  · rw [cb_qsort_sbe_numeric_le_rev env a b hmode hrev (hrange a ha) (hrange b hb)] at h1
    rw [cb_qsort_sbe_numeric_le_rev env b a hmode hrev (hrange b hb) (hrange a ha)] at h2
    rcases h1 with h1 | ⟨_, h1c⟩
    · rcases h2 with h2 | ⟨h2, _⟩ <;> omega
    · rcases h2 with h2 | ⟨_, h2c⟩
      · omega
      · have := (hcoll.1 a ha b hb).mpr h2c
        exact hcoll.2.2 a ha b hb (by omega)

/-- Two sorted arrangements of the same entries coincide when the order is
antisymmetric on them. -/
theorem counts_in_range_perm (env : Env) (l1 l2 : List SbEntry) (hperm : l1.Perm l2)
    (h : counts_in_range env l1) : counts_in_range env l2 :=
  fun e he => h e (hperm.symm.subset he)

/-- C16: in each numeric sort mode, two stores that hold the same entries with
pairwise distinct paths in different initial orders are sorted by
`sort_entries` into the identical sequence.  The counts lie in `[0, INT_MAX]`
and `strcoll` is a total order on the paths of the store. -/
theorem sort_entries_order_independent (env : Env) (w1 w2 : SidebarWindowData)
    (hmode : numeric_mode env) (hperm : w1.entries.Perm w2.entries)
    (hpaths : (w1.entries.map (entry_path env)).Nodup)
    (hrange : counts_in_range env w1.entries) (hcoll : strcoll_total_order env w1.entries) :
    (sort_entries env w1).entries = (sort_entries env w2).entries := by
  have hcons : cmp_consistent env w1.entries := by
    by_cases hrev : env.C_SidebarSortMethod &&& SORT_REVERSE = 0
    · exact cmp_consistent_numeric env _ hmode hrev hrange
        (strcoll_total_order_preorder env _ hcoll)
    · exact cmp_consistent_numeric_rev env _ hmode hrev hrange hcoll
  rw [sort_entries_numeric env w1 hmode, sort_entries_numeric env w2 hmode]
  apply sorted_perm_unique (fun a b => cb_qsort_sbe env a b ≤ 0)
  · exact ((qsort_perm _ _ _).trans hperm).trans (qsort_perm _ _ _).symm
  · intro a ha b hb
    exact cb_qsort_sbe_numeric_antisymm env w1.entries hmode hrange hcoll hpaths
      a ((qsort_perm _ _ _).subset ha) b ((qsort_perm _ _ _).subset hb)
  · exact qsort_sorted env _ hcons
  · exact qsort_sorted env _ (cmp_consistent_perm env _ _ hperm hcons)

/-- The three mailboxes of Scenario B in two different initial orders. -/
theorem sort_entries_order_independent_witness :
    numeric_mode env_scenario_b ∧ w_three.entries.Perm w_three_rotated.entries ∧
    (w_three.entries.map (entry_path env_scenario_b)).Nodup ∧
    counts_in_range env_scenario_b w_three.entries ∧
    strcoll_total_order env_scenario_b w_three.entries ∧
    (sort_entries env_scenario_b w_three).entries
      = (sort_entries env_scenario_b w_three_rotated).entries :=
  ⟨by decide, by decide, by decide, by decide, by decide,
   sort_entries_order_independent env_scenario_b w_three w_three_rotated (by decide)
     (by decide) (by decide) (by decide) (by decide)⟩

/-! ## Name mode, the reverse flag and path mode -/

/-- C17 fails on the code: in name mode (`SORT_DESC`) `sort_entries` calls
neither `qsort` nor `unsort_entries`, so entries named `b`, `a` stay in that
order through the sort step and through a whole `calc_page` pass, although
`cb_qsort_sbe` has a `SORT_DESC` case that orders `a` before `b`. -/
theorem sort_entries_name_mode_unsorted :
    env_name_mode.C_SidebarSortMethod &&& SORT_MASK = SORT_DESC ∧
    (sort_entries env_name_mode w_two).entries.map
      (fun e => (env_name_mode.mailboxes e.mailbox).name) = ["b", "a"] ∧
    (∃ w2, calc_page env_name_mode w_two 2 = .ok w2 ∧
      w2.entries.map (fun e => (env_name_mode.mailboxes e.mailbox).name) = ["b", "a"]) ∧
    mutt_str_strcmp "b" "a" = 1 ∧
    cb_qsort_sbe env_name_mode (mk_entry 101 1) (mk_entry 102 2) = 1 := by
  refine ⟨by decide, by decide, ⟨_, rfl, by decide⟩, by decide, by decide⟩

/-- In a numeric sort mode with the reverse flag clear, counts in `[0, INT_MAX]`
and a collation result that is an `int` other than `INT_MIN` give a comparison
that is an `int` other than `INT_MIN`. -/
theorem cb_qsort_sbe_numeric_int (env : Env) (a b : SbEntry) (hmode : numeric_mode env)
    (hrev : env.C_SidebarSortMethod &&& SORT_REVERSE = 0)
    (ha : 0 ≤ numeric_key env a.mailbox ∧ numeric_key env a.mailbox ≤ 2147483647)
    (hb : 0 ≤ numeric_key env b.mailbox ∧ numeric_key env b.mailbox ≤ 2147483647)
    (hcoll : -2147483647 ≤ env.strcoll (entry_path env a) (entry_path env b) ∧
      env.strcoll (entry_path env a) (entry_path env b) ≤ 2147483647) :
    -2147483647 ≤ cb_qsort_sbe env a b ∧ cb_qsort_sbe env a b ≤ 2147483647 := by
  have hw := wrap32_eq_self (numeric_key env b.mailbox - numeric_key env a.mailbox)
    (by omega) (by omega)
  have hnr : ¬ (env.C_SidebarSortMethod &&& SORT_REVERSE ≠ 0) := fun h => h hrev
  rw [cb_qsort_sbe_numeric env a b hmode, if_neg hnr]
  split
  · exact hcoll
  · rw [hw]; omega

/-- C18: for every sort mode and every pair of entries whose comparison with
the reverse flag clear is an `int` other than `INT_MIN` (the one value that
`rc = -rc` cannot negate; counts in `[0, INT_MAX]` never give it), the
comparison with the reverse flag set is `-1` times the comparison with the flag
clear (same mode), also as a 32-bit value, so every pair that compares unequal
is ordered the opposite way. -/
theorem cb_qsort_sbe_reverse (env : Env) (method : Nat) (a b : SbEntry)
    (hmode : method &&& SORT_MASK = env.C_SidebarSortMethod &&& SORT_MASK)
    (hclear : env.C_SidebarSortMethod &&& SORT_REVERSE = 0)
    (hset : method &&& SORT_REVERSE ≠ 0)
    (hlo : -2147483647 ≤ cb_qsort_sbe env a b) (hhi : cb_qsort_sbe env a b ≤ 2147483647) :
    cb_qsort_sbe { env with C_SidebarSortMethod := method } a b = -cb_qsort_sbe env a b ∧
    cb_qsort_sbe { env with C_SidebarSortMethod := method } a b =
      wrap32 (-cb_qsort_sbe env a b) ∧
    (cb_qsort_sbe { env with C_SidebarSortMethod := method } a b < 0 ↔
      0 < cb_qsort_sbe env a b) ∧
    (0 < cb_qsort_sbe { env with C_SidebarSortMethod := method } a b ↔
      cb_qsort_sbe env a b < 0) := by
  have h : cb_qsort_sbe { env with C_SidebarSortMethod := method } a b
      = -cb_qsort_sbe env a b := by
    unfold cb_qsort_sbe
    simp only [hmode, hclear, hset, ne_eq, not_true_eq_false, not_false_eq_true, if_true,
      if_false]
  have hw := wrap32_eq_self (-cb_qsort_sbe env a b) (by omega) (by omega)
  refine ⟨h, by rw [hw]; exact h, ?_, ?_⟩ <;> rw [h] <;> omega

/-- Sort by unread count, method 16, against its reversed form 16 + 256. -/
theorem cb_qsort_sbe_reverse_witness :
    (272 : Nat) &&& SORT_MASK = env_scenario_b.C_SidebarSortMethod &&& SORT_MASK ∧
    env_scenario_b.C_SidebarSortMethod &&& SORT_REVERSE = 0 ∧
    (272 : Nat) &&& SORT_REVERSE ≠ 0 ∧
    cb_qsort_sbe env_scenario_b (mk_entry 101 1) (mk_entry 103 3) = 3 ∧
    cb_qsort_sbe { env_scenario_b with C_SidebarSortMethod := 272 }
        (mk_entry 101 1) (mk_entry 103 3) = -3 ∧
    cb_qsort_sbe { env_scenario_b with C_SidebarSortMethod := 272 }
        (mk_entry 101 1) (mk_entry 103 3)
      = -cb_qsort_sbe env_scenario_b (mk_entry 101 1) (mk_entry 103 3) :=
  ⟨by decide, by decide, by decide, by decide, by decide,
   (cb_qsort_sbe_reverse env_scenario_b 272 (mk_entry 101 1) (mk_entry 103 3)
     (by decide) (by decide) (by decide) (by decide) (by decide)).1⟩

/-- C20 as stated fails: in path mode with the reverse flag set, the inbox
comparison recognises `/mail/INBOX` (mailbox 2) as the inbox, yet the
comparison puts it after `/mail/work` and `sort_entries` leaves it last. -/
theorem cb_qsort_sbe_inbox_first_counterexample :
    (env_path_mode (SORT_PATH + SORT_REVERSE)).C_SidebarSortMethod &&& SORT_MASK = SORT_PATH ∧
    (env_path_mode (SORT_PATH + SORT_REVERSE)).C_SidebarSortMethod &&& SORT_REVERSE ≠ 0 ∧
    inbox_cmp_example "/mail/INBOX" "/mail/work" = -1 ∧
    cb_qsort_sbe (env_path_mode (SORT_PATH + SORT_REVERSE)) (mk_entry 102 2) (mk_entry 101 1)
      = 1 ∧
    (sort_entries (env_path_mode (SORT_PATH + SORT_REVERSE)) w_two).entries.map
      (entry_path (env_path_mode (SORT_PATH + SORT_REVERSE))) = ["/mail/work", "/mail/INBOX"] := by
  decide

/-- C20 (amended): in path mode, for every pair of entries where the inbox
comparison recognises exactly one path as the inbox, that entry is ordered
before the other when the reverse flag is clear and after it when the flag is
set; when the inbox comparison is 0 the result is the path collation (negated
under the reverse flag). -/
theorem cb_qsort_sbe_path_mode (env : Env) (a b : SbEntry)
    (hmode : env.C_SidebarSortMethod &&& SORT_MASK = SORT_PATH) :
    (env.C_SidebarSortMethod &&& SORT_REVERSE = 0 →
      (env.mutt_inbox_cmp (entry_path env a) (entry_path env b) < 0 →
        cb_qsort_sbe env a b < 0) ∧
      (0 < env.mutt_inbox_cmp (entry_path env a) (entry_path env b) →
        0 < cb_qsort_sbe env a b) ∧
      (env.mutt_inbox_cmp (entry_path env a) (entry_path env b) = 0 →
        cb_qsort_sbe env a b = env.strcoll (entry_path env a) (entry_path env b))) ∧
    (env.C_SidebarSortMethod &&& SORT_REVERSE ≠ 0 →
      (env.mutt_inbox_cmp (entry_path env a) (entry_path env b) < 0 →
        0 < cb_qsort_sbe env a b) ∧
      (0 < env.mutt_inbox_cmp (entry_path env a) (entry_path env b) →
        cb_qsort_sbe env a b < 0) ∧
      (env.mutt_inbox_cmp (entry_path env a) (entry_path env b) = 0 →
        cb_qsort_sbe env a b = -env.strcoll (entry_path env a) (entry_path env b))) := by
  have hc : cb_qsort_sbe env a b =
      if env.C_SidebarSortMethod &&& SORT_REVERSE ≠ 0 then
        -(if env.mutt_inbox_cmp (entry_path env a) (entry_path env b) = 0 then
            env.strcoll (entry_path env a) (entry_path env b)
          else env.mutt_inbox_cmp (entry_path env a) (entry_path env b))
      else
        (if env.mutt_inbox_cmp (entry_path env a) (entry_path env b) = 0 then
            env.strcoll (entry_path env a) (entry_path env b)
          else env.mutt_inbox_cmp (entry_path env a) (entry_path env b)) := by
    simp [cb_qsort_sbe, entry_path, hmode, SORT_COUNT, SORT_UNREAD, SORT_FLAGGED, SORT_DESC,
      SORT_PATH]
  rw [hc]
  constructor
  · intro hrev
    simp only [hrev, ne_eq, not_true_eq_false, if_false]
    refine ⟨?_, ?_, ?_⟩
    · intro h
      have : ¬ (env.mutt_inbox_cmp (entry_path env a) (entry_path env b) = 0) := by omega
      simp only [this, if_false]; exact h
    · intro h
      have : ¬ (env.mutt_inbox_cmp (entry_path env a) (entry_path env b) = 0) := by omega
      simp only [this, if_false]; exact h
    · intro h
      simp only [h, if_true]
  · intro hrev
    simp only [hrev, ne_eq, not_false_eq_true, if_true]
    refine ⟨?_, ?_, ?_⟩
    · intro h
      have : ¬ (env.mutt_inbox_cmp (entry_path env a) (entry_path env b) = 0) := by omega
      simp only [this, if_false]; omega
    · intro h
      have : ¬ (env.mutt_inbox_cmp (entry_path env a) (entry_path env b) = 0) := by omega
      simp only [this, if_false]; omega
    · intro h
      simp only [h, if_true]

/-- Path mode with the reverse flag clear: `/mail/INBOX` precedes `/mail/work`. -/
theorem cb_qsort_sbe_path_mode_witness :
    (env_path_mode SORT_PATH).C_SidebarSortMethod &&& SORT_MASK = SORT_PATH ∧
    (env_path_mode SORT_PATH).C_SidebarSortMethod &&& SORT_REVERSE = 0 ∧
    inbox_cmp_example "/mail/INBOX" "/mail/work" < 0 ∧
    cb_qsort_sbe (env_path_mode SORT_PATH) (mk_entry 102 2) (mk_entry 101 1) < 0 :=
  ⟨by decide, by decide, by decide,
   ((cb_qsort_sbe_path_mode (env_path_mode SORT_PATH) (mk_entry 102 2) (mk_entry 101 1)
      (by decide)).1 (by decide)).1 (by decide)⟩

/-! ## Insertion-order reconciliation -/

theorem scan_mailbox_result (m : Nat) (es : List SbEntry) (j : Nat) :
    (scan_mailbox m es j < j + es.length →
      ∃ e, es[scan_mailbox m es j - j]? = some e ∧ e.mailbox = m) ∧
    (¬ (scan_mailbox m es j < j + es.length) → ∀ e ∈ es, e.mailbox ≠ m) := by
  induction es generalizing j with
  | nil => simp [scan_mailbox]
  | cons x es ih =>
    simp only [scan_mailbox]
    by_cases hx : x.mailbox = m
    · simp only [hx, if_true, List.length_cons]
      constructor
      · intro _
        exact ⟨x, by simp, hx⟩
      · intro h; omega
    · simp only [hx, if_false, List.length_cons]
      have hb := scan_mailbox_bounds m es (j + 1)
      obtain ⟨ih1, ih2⟩ := ih (j + 1)
      constructor
      · intro h
        obtain ⟨e, he, hm⟩ := ih1 (by omega)
        refine ⟨e, ?_, hm⟩
        have : scan_mailbox m es (j + 1) - j = (scan_mailbox m es (j + 1) - (j + 1)) + 1 := by
          omega
        rw [this, List.getElem?_cons_succ]
        exact he
      · intro h e he
        rcases List.mem_cons.mp he with h1 | h1
        · rw [h1]; exact hx
        · exact ih2 (by omega) e h1

theorem swap_entries_take (es : List SbEntry) (i j : Nat) (hij : i ≤ j) :
    (swap_entries es i j).take i = es.take i := by
  unfold swap_entries
  cases hi : es[i]? with
  | none => rfl
  | some a =>
    cases hj : es[j]? with
    | none => rfl
    | some b =>
      simp only
      apply List.ext_getElem?
      intro k
      simp only [List.getElem?_take, List.getElem?_set]
      by_cases hk : k < i
      · have h1 : ¬ (j = k) := by omega
        have h2 : ¬ (i = k) := by omega
        simp only [hk, if_true, h1, if_false, h2]
      · simp only [hk, if_false]

theorem swap_entries_at (es : List SbEntry) (i j : Nat) (hij : i < j) (b : SbEntry)
    (hi : i < es.length) (hj : es[j]? = some b) :
    (swap_entries es i j)[i]? = some b := by
  unfold swap_entries
  have hia : es[i]? = some es[i] := List.getElem?_eq_getElem hi
  rw [hia, hj]
  simp only [List.getElem?_set]
  have h1 : ¬ (j = i) := by omega
  simp only [h1, if_false, if_true, hi]

theorem unsort_loop_take (ml : List Nat) (i : Nat) (es : List SbEntry) :
    (unsort_loop ml i es).take i = es.take i := by
  induction ml generalizing i es with
  | nil => simp [unsort_loop]
  | cons np ml ih =>
    simp only [unsort_loop]
    split
    · rfl
    · split
      · have hb := scan_mailbox_bounds np (es.drop i) i
        have h1 := ih (i + 1) (if scan_mailbox np (es.drop i) i ≠ i then
          swap_entries es i (scan_mailbox np (es.drop i) i) else es)
        have h2 : ((unsort_loop ml (i + 1) (if scan_mailbox np (es.drop i) i ≠ i then
            swap_entries es i (scan_mailbox np (es.drop i) i) else es)).take (i + 1)).take i
            = ((if scan_mailbox np (es.drop i) i ≠ i then
            swap_entries es i (scan_mailbox np (es.drop i) i) else es).take (i + 1)).take i := by
          rw [h1]
        simp only [List.take_take, Nat.min_eq_left (Nat.le_succ i)] at h2
        rw [h2]
        split
        · exact swap_entries_take es i _ hb.1
        · rfl
      · exact ih i es

/-- After the reconciliation from slot `i` on, the mailboxes of the slots from
`i` on appear in the order of the enumeration. -/
theorem unsort_loop_order (ml : List Nat) (i : Nat) (es : List SbEntry)
    (hi : i ≤ es.length)
    (hnd : ((es.drop i).map (fun e => e.mailbox)).Nodup)
    (hocc : ∀ e ∈ es.drop i, e.mailbox ∈ ml) :
    (((unsort_loop ml i es).drop i).map (fun e => e.mailbox)).Sublist ml := by
  induction ml generalizing i es with
  | nil =>
    have hnil : es.drop i = [] := by
      cases hd : es.drop i with
      | nil => rfl
      | cons x xs =>
        have := hocc x (by rw [hd]; exact List.mem_cons_self _ _)
        simp at this
    simp [unsort_loop, hnil]
  | cons np ml ih =>
    simp only [unsort_loop]
    by_cases hge : i ≥ es.length
    · simp only [hge, if_true]
      have : es.drop i = [] := List.drop_eq_nil_of_le hge
      rw [this]
      simp
    · simp only [hge, if_false]
      have hilt : i < es.length := by omega
      have hb := scan_mailbox_bounds np (es.drop i) i
      have hres := scan_mailbox_result np (es.drop i) i
      have hdl : (es.drop i).length = es.length - i := List.length_drop i es
      by_cases hj : scan_mailbox np (es.drop i) i < es.length
      · simp only [hj, if_true]
        generalize hjd : scan_mailbox np (es.drop i) i = j at *
        obtain ⟨x, hx, hxm⟩ := hres.1 (by omega)
        rw [List.getElem?_drop] at hx
        have hij : i + (j - i) = j := by omega
        rw [hij] at hx
        -- the array after the exchange
        obtain ⟨es2, hes2⟩ : ∃ es2, (if j ≠ i then swap_entries es i j else es) = es2 :=
          ⟨_, rfl⟩
        rw [hes2]
        have hperm : es2.Perm es := by
          rw [← hes2]
          split
          · exact swap_entries_perm es i j (by omega)
          · exact List.Perm.refl _
        have htake : es2.take i = es.take i := by
          rw [← hes2]
          split
          · exact swap_entries_take es i j (by omega)
          · rfl
        have hat : es2[i]? = some x := by
          rw [← hes2]
          split
          · exact swap_entries_at es i j (by omega) x hilt hx
          · rename_i hne
            have : j = i := by omega
            rw [← this]; exact hx
        have hlen2 : es2.length = es.length := hperm.length_eq
        have hi2 : i < es2.length := by omega
        have hxi : es2[i] = x := by
          have := List.getElem?_eq_getElem hi2
          rw [hat] at this
          exact (Option.some.inj this).symm
        have hdrop2 : es2.drop i = x :: es2.drop (i + 1) := by
          rw [List.drop_eq_getElem_cons hi2, hxi]
        have hpd : (x :: es2.drop (i + 1)).Perm (es.drop i) := by
          rw [← hdrop2]
          have h1 : (es2.take i ++ es2.drop i).Perm (es.take i ++ es.drop i) := by
            rw [List.take_append_drop, List.take_append_drop]; exact hperm
          rw [htake] at h1
          exact (List.perm_append_left_iff _).mp h1
        have hnd2 : ((x :: es2.drop (i + 1)).map (fun e => e.mailbox)).Nodup :=
          ((hpd.map _).nodup_iff).mpr hnd
        simp only [List.map_cons, List.nodup_cons, List.mem_map, not_exists, not_and] at hnd2
        -- the rest of the loop
        have hrec := ih (i + 1) es2 (by omega) hnd2.2 (by
          intro e he
          have hmem : e ∈ es.drop i := hpd.subset (List.mem_cons_of_mem _ he)
          rcases List.mem_cons.mp (hocc e hmem) with h | h
          · exact absurd (h.trans hxm.symm) (hnd2.1 e he)
          · exact h)
        have htk := unsort_loop_take ml (i + 1) es2
        have hlenf : (unsort_loop ml (i + 1) es2).length = es2.length :=
          (unsort_loop_perm ml (i + 1) es2).length_eq
        have hfi : (unsort_loop ml (i + 1) es2)[i]? = some x := by
          have h1 : ((unsort_loop ml (i + 1) es2).take (i + 1))[i]? = (es2.take (i + 1))[i]? := by
            rw [htk]
          simp only [List.getElem?_take, Nat.lt_succ_self, if_true] at h1
          rw [h1, hat]
        have hif : i < (unsort_loop ml (i + 1) es2).length := by omega
        have hfx : (unsort_loop ml (i + 1) es2)[i] = x := by
          have := List.getElem?_eq_getElem hif
          rw [hfi] at this
          exact (Option.some.inj this).symm
        rw [List.drop_eq_getElem_cons hif, hfx, List.map_cons, hxm]
        exact hrec.cons₂ np
      · simp only [hj, if_false]
        have hno := hres.2 (by omega)
        have hrec := ih i es hi hnd (by
          intro e he
          rcases List.mem_cons.mp (hocc e he) with h | h
          · exact absurd h (hno e he)
          · exact h)
        exact List.Sublist.cons np hrec

theorem sort_entries_order_mode (env : Env) (w : SidebarWindowData)
    (hmode : env.C_SidebarSortMethod &&& SORT_MASK = SORT_ORDER) :
    (sort_entries env w).entries =
      if env.C_SidebarSortMethod ≠ w.previous_sort then
        unsort_loop env.mailboxlist 0 w.entries
      else w.entries := by
  unfold sort_entries unsort_entries
  simp only [hmode, SORT_ORDER, SORT_COUNT, SORT_UNREAD, SORT_FLAGGED, SORT_PATH]
  by_cases h : env.C_SidebarSortMethod = w.previous_sort <;> simp [h]

/-- C19: in insertion-order mode, for a store whose entries reference pairwise
distinct mailboxes that each occur in the external enumeration: when the mode
is freshly selected, `sort_entries` leaves a permutation of the entries whose
mailboxes appear in the order of the enumeration; when it is not freshly
selected, the entry order is unchanged. -/
theorem sort_entries_insertion_order (env : Env) (w : SidebarWindowData)
    (hmode : env.C_SidebarSortMethod &&& SORT_MASK = SORT_ORDER)
    (hdist : (w.entries.map (fun e => e.mailbox)).Nodup)
    (hocc : ∀ e ∈ w.entries, e.mailbox ∈ env.mailboxlist) :
    (env.C_SidebarSortMethod ≠ w.previous_sort →
      (sort_entries env w).entries.Perm w.entries ∧
      ((sort_entries env w).entries.map (fun e => e.mailbox)).Sublist env.mailboxlist) ∧
    (env.C_SidebarSortMethod = w.previous_sort →
      (sort_entries env w).entries = w.entries) := by
  constructor
  · intro hfresh
    refine ⟨sort_entries_perm env w, ?_⟩
    rw [sort_entries_order_mode env w hmode]
    simp only [hfresh, ne_eq, not_false_eq_true, if_true]
    have := unsort_loop_order env.mailboxlist 0 w.entries (Nat.zero_le _)
      (by simpa using hdist) (by simpa using hocc)
    simpa using this
  · intro hsame
    rw [sort_entries_order_mode env w hmode]
    simp only [hsame, ne_eq, not_true_eq_false, if_false]

/-- Entries for mailboxes 1, 2, 3 against the enumeration 3, 1, 2. -/
theorem sort_entries_insertion_order_witness :
    env_order_mode.C_SidebarSortMethod &&& SORT_MASK = SORT_ORDER ∧
    (w_three.entries.map (fun e => e.mailbox)).Nodup ∧
    (∀ e ∈ w_three.entries, e.mailbox ∈ env_order_mode.mailboxlist) ∧
    env_order_mode.C_SidebarSortMethod ≠ w_three.previous_sort ∧
    (sort_entries env_order_mode w_three).entries.map (fun e => e.mailbox) = [3, 1, 2] ∧
    ((sort_entries env_order_mode w_three).entries.map (fun e => e.mailbox)).Sublist
      env_order_mode.mailboxlist :=
  ⟨by decide, by decide, by decide, by decide, by decide,
   ((sort_entries_insertion_order env_order_mode w_three (by decide) (by decide)
      (by decide)).1 (by decide)).2⟩

/-! ## Lemmas on the navigator loops -/

theorem unhidden_at_of (w : SidebarWindowData) (k : Int) (e : SbEntry)
    (he : entry_at w k = .ok e) (hh : e.is_hidden = false) : unhidden_at w k :=
  ⟨e, he, hh⟩

theorem not_unhidden_at_of (w : SidebarWindowData) (k : Int) (e : SbEntry)
    (he : entry_at w k = .ok e) (hh : e.is_hidden = true) : ¬ unhidden_at w k := by
  rintro ⟨e2, he2, hh2⟩
  rw [he] at he2
  cases he2
  rw [hh] at hh2
  cases hh2

theorem not_unhidden_at_oob (w : SidebarWindowData) (k : Int)
    (h : k < 0 ∨ w.entry_count ≤ k) : ¬ unhidden_at w k := by
  rintro ⟨e2, he2, _⟩
  rw [entry_at_oob w k h] at he2
  cases he2

theorem unhidden_at_range (w : SidebarWindowData) (k : Int) (h : unhidden_at w k) :
    0 ≤ k ∧ k < w.entry_count := by
  by_contra hc
  exact not_unhidden_at_oob w k (by omega) h

theorem unhidden_at_congr (w w2 : SidebarWindowData) (h : w.entries = w2.entries) (k : Int) :
    unhidden_at w k ↔ unhidden_at w2 k := by
  unfold unhidden_at
  rw [entry_at_congr w w2 h k]

theorem select_next_loop_full (w : SidebarWindowData) (fuel : Nat) (entry : Int)
    (h0 : -1 ≤ entry) (h1 : entry < w.entry_count) (hf : w.entry_count - entry ≤ fuel) :
    (select_next_loop w fuel entry = .ok none ∧ ∀ j, entry < j → ¬ unhidden_at w j) ∨
    ∃ k, select_next_loop w fuel entry = .ok (some k) ∧ entry < k ∧ k < w.entry_count ∧
      unhidden_at w k ∧ ∀ j, entry < j → j < k → ¬ unhidden_at w j := by
  induction fuel generalizing entry with
  | zero => omega
  | succ n ih =>
    simp only [select_next_loop]
    by_cases hend : entry + 1 = w.entry_count
    · left
      simp only [hend, if_true, true_and]
      intro j hj
      exact not_unhidden_at_oob w j (by omega)
    · simp only [hend, if_false]
      obtain ⟨e, he, _⟩ := entry_at_ok w (entry + 1) (by omega) (by omega)
      simp only [he]
      by_cases hh : e.is_hidden = true
      · simp only [hh, if_true]
        have hnot := not_unhidden_at_of w (entry + 1) e he hh
        rcases ih (entry + 1) (by omega) (by omega) (by omega) with ⟨h, hall⟩ | ⟨k, h, hk1, hk2, hk3, hk4⟩
        · left
          refine ⟨h, fun j hj => ?_⟩
          by_cases hje : j = entry + 1
          · rw [hje]; exact hnot
          · exact hall j (by omega)
        · right
          refine ⟨k, h, by omega, hk2, hk3, fun j hj hjk => ?_⟩
          by_cases hje : j = entry + 1
          · rw [hje]; exact hnot
          · exact hk4 j (by omega) hjk
      · simp only [hh, if_false]
        right
        refine ⟨entry + 1, rfl, by omega, by omega,
          unhidden_at_of w _ e he (by simpa using hh), fun j hj hjk => ?_⟩
        omega

theorem select_prev_loop_full (w : SidebarWindowData) (fuel : Nat) (entry : Int)
    (h0 : 0 ≤ entry) (h1 : entry ≤ w.entry_count) (hf : entry + 1 ≤ fuel) :
    (select_prev_loop w fuel entry = .ok none ∧ ∀ j, j < entry → ¬ unhidden_at w j) ∨
    ∃ k, select_prev_loop w fuel entry = .ok (some k) ∧ 0 ≤ k ∧ k < entry ∧
      unhidden_at w k ∧ ∀ j, k < j → j < entry → ¬ unhidden_at w j := by
  induction fuel generalizing entry with
  | zero => omega
  | succ n ih =>
    simp only [select_prev_loop]
    by_cases hend : entry - 1 < 0
    · left
      simp only [hend, if_true, true_and]
      intro j hj
      exact not_unhidden_at_oob w j (by omega)
    · simp only [hend, if_false]
      obtain ⟨e, he, _⟩ := entry_at_ok w (entry - 1) (by omega) (by omega)
      simp only [he]
      by_cases hh : e.is_hidden = true
      · simp only [hh, if_true]
        have hnot := not_unhidden_at_of w (entry - 1) e he hh
        rcases ih (entry - 1) (by omega) (by omega) (by omega) with ⟨h, hall⟩ | ⟨k, h, hk1, hk2, hk3, hk4⟩
        · left
          refine ⟨h, fun j hj => ?_⟩
          by_cases hje : j = entry - 1
          · rw [hje]; exact hnot
          · exact hall j (by omega)
        · right
          refine ⟨k, h, hk1, by omega, hk3, fun j hj hjk => ?_⟩
          by_cases hje : j = entry - 1
          · rw [hje]; exact hnot
          · exact hk4 j hj (by omega)
      · simp only [hh, if_false]
        right
        refine ⟨entry - 1, rfl, by omega, by omega,
          unhidden_at_of w _ e he (by simpa using hh), fun j hj hjk => ?_⟩
        omega

theorem select_next_result (w : SidebarWindowData) (h0 : 0 ≤ w.hil_index)
    (h1 : w.hil_index < w.entry_count) :
    (select_next w = .ok (w, false) ∧ ∀ j, w.hil_index < j → ¬ unhidden_at w j) ∨
    ∃ k, select_next w = .ok ({ w with hil_index := k }, true) ∧ w.hil_index < k ∧
      k < w.entry_count ∧ unhidden_at w k ∧
      ∀ j, w.hil_index < j → j < k → ¬ unhidden_at w j := by
  unfold select_next
  have hg : ¬ (w.entry_count = 0 ∨ w.hil_index < 0) := by omega
  simp only [hg, if_false]
  rcases select_next_loop_full w (w.entries.length + 1) w.hil_index (by omega) h1
      (by unfold SidebarWindowData.entry_count at *; push_cast; omega) with ⟨h, hall⟩ | ⟨k, h, hk⟩
  · left; exact ⟨by simp only [h], hall⟩
  · right; exact ⟨k, by simp only [h], hk⟩

theorem select_prev_result (w : SidebarWindowData) (h0 : 0 ≤ w.hil_index)
    (h1 : w.hil_index ≤ w.entry_count) (hc : w.entry_count ≠ 0) :
    (select_prev w = .ok (w, false) ∧ ∀ j, j < w.hil_index → ¬ unhidden_at w j) ∨
    ∃ k, select_prev w = .ok ({ w with hil_index := k }, true) ∧ 0 ≤ k ∧
      k < w.hil_index ∧ unhidden_at w k ∧
      ∀ j, k < j → j < w.hil_index → ¬ unhidden_at w j := by
  unfold select_prev
  have hg : ¬ (w.entry_count = 0 ∨ w.hil_index < 0) := by omega
  simp only [hg, if_false]
  rcases select_prev_loop_full w (w.entries.length + 1) w.hil_index h0 h1
      (by unfold SidebarWindowData.entry_count at *; push_cast; omega) with ⟨h, hall⟩ | ⟨k, h, hk⟩
  · left; exact ⟨by simp only [h], hall⟩
  · right; exact ⟨k, by simp only [h], hk⟩

/-! ## Stepping to the next and previous entry -/

/-- C22: with the highlight in range, `select_next` returns true exactly when an
unhidden entry exists above the highlight and then moves the highlight to the
least such index; `select_prev` returns true exactly when an unhidden entry
exists below the highlight and then moves it to the greatest such index. -/
theorem select_next_prev_semantics (w : SidebarWindowData) (h0 : 0 ≤ w.hil_index)
    (h1 : w.hil_index < w.entry_count) :
    (∃ r, select_next w = .ok r ∧
      (r.2 = true ↔ ∃ j, w.hil_index < j ∧ unhidden_at w j) ∧
      (r.2 = true → r.1 = { w with hil_index := r.1.hil_index } ∧
        w.hil_index < r.1.hil_index ∧ unhidden_at w r.1.hil_index ∧
        ∀ j, w.hil_index < j → unhidden_at w j → r.1.hil_index ≤ j)) ∧
    (∃ r, select_prev w = .ok r ∧
      (r.2 = true ↔ ∃ j, j < w.hil_index ∧ unhidden_at w j) ∧
      (r.2 = true → r.1 = { w with hil_index := r.1.hil_index } ∧
        r.1.hil_index < w.hil_index ∧ unhidden_at w r.1.hil_index ∧
        ∀ j, j < w.hil_index → unhidden_at w j → j ≤ r.1.hil_index)) := by
  constructor
  · rcases select_next_result w h0 h1 with ⟨h, hall⟩ | ⟨k, h, hk1, _, hk3, hk4⟩
    · refine ⟨_, h, ⟨fun hc => Bool.noConfusion hc, fun ⟨j, hj, hu⟩ => absurd hu (hall j hj)⟩,
        fun hc => Bool.noConfusion hc⟩
    · refine ⟨_, h, ⟨fun _ => ⟨k, hk1, hk3⟩, fun _ => rfl⟩, fun _ => ⟨rfl, hk1, hk3, ?_⟩⟩
      intro j hj hu
      by_contra hc
      exact hk4 j hj (by simpa using hc) hu
  · rcases select_prev_result w h0 (by omega) (by omega) with
      ⟨h, hall⟩ | ⟨k, h, _, hk2, hk3, hk4⟩
    · refine ⟨_, h, ⟨fun hc => Bool.noConfusion hc, fun ⟨j, hj, hu⟩ => absurd hu (hall j hj)⟩,
        fun hc => Bool.noConfusion hc⟩
    · refine ⟨_, h, ⟨fun _ => ⟨k, hk2, hk3⟩, fun _ => rfl⟩, fun _ => ⟨rfl, hk2, hk3, ?_⟩⟩
      intro j hj hu
      by_contra hc
      exact hk4 j (by simpa using hc) hj hu

theorem select_next_prev_semantics_witness :
    0 ≤ w_flags.hil_index ∧ w_flags.hil_index < w_flags.entry_count ∧
    (∃ r, select_next w_flags = .ok r ∧
      (r.2 = true ↔ ∃ j, w_flags.hil_index < j ∧ unhidden_at w_flags j) ∧
      (r.2 = true → r.1 = { w_flags with hil_index := r.1.hil_index } ∧
        w_flags.hil_index < r.1.hil_index ∧ unhidden_at w_flags r.1.hil_index ∧
        ∀ j, w_flags.hil_index < j → unhidden_at w_flags j → r.1.hil_index ≤ j)) ∧
    select_next w_flags = .ok ({ w_flags with hil_index := 4 }, true) ∧
    select_prev w_flags = .ok ({ w_flags with hil_index := 1 }, true) :=
  ⟨by decide, by decide,
   (select_next_prev_semantics w_flags (by decide) (by decide)).1, by decide, by decide⟩

theorem unhidden_at_of_no_hidden (w : SidebarWindowData)
    (hnh : ∀ e ∈ w.entries, e.is_hidden = false) (j : Int) (h0 : 0 ≤ j)
    (h1 : j < w.entry_count) : unhidden_at w j := by
  obtain ⟨e, he, hget⟩ := entry_at_ok w j h0 h1
  exact ⟨e, he, hnh e (mem_of_getElem?_some _ _ _ hget)⟩

theorem select_next_no_hidden (w : SidebarWindowData) (h0 : 0 ≤ w.hil_index)
    (h1 : w.hil_index < w.entry_count) (hnh : ∀ e ∈ w.entries, e.is_hidden = false) :
    select_next w = .ok (if w.hil_index + 1 < w.entry_count
      then ({ w with hil_index := w.hil_index + 1 }, true) else (w, false)) := by
  rcases select_next_result w h0 h1 with ⟨h, hall⟩ | ⟨k, h, hk1, hk2, _, hk4⟩
  · have hn : ¬ (w.hil_index + 1 < w.entry_count) := fun hlt =>
      hall _ (by omega) (unhidden_at_of_no_hidden w hnh _ (by omega) hlt)
    rw [h, if_neg hn]
  · have hlt : w.hil_index + 1 < w.entry_count := by omega
    have hk : k = w.hil_index + 1 := by
      by_contra hne
      exact hk4 _ (by omega) (by omega) (unhidden_at_of_no_hidden w hnh _ (by omega) hlt)
    rw [h, if_pos hlt, hk]

theorem select_prev_no_hidden (w : SidebarWindowData) (h0 : 0 ≤ w.hil_index)
    (h1 : w.hil_index < w.entry_count) (hnh : ∀ e ∈ w.entries, e.is_hidden = false) :
    select_prev w = .ok (if 0 < w.hil_index
      then ({ w with hil_index := w.hil_index - 1 }, true) else (w, false)) := by
  rcases select_prev_result w h0 (by omega) (by omega) with ⟨h, hall⟩ | ⟨k, h, hk1, hk2, _, hk4⟩
  · have hn : ¬ (0 < w.hil_index) := fun hlt =>
      hall _ (by omega) (unhidden_at_of_no_hidden w hnh (w.hil_index - 1) (by omega) (by omega))
    rw [h, if_neg hn]
  · have hlt : 0 < w.hil_index := by omega
    have hk : k = w.hil_index - 1 := by
      by_contra hne
      exact hk4 (w.hil_index - 1) (by omega) (by omega)
        (unhidden_at_of_no_hidden w hnh _ (by omega) (by omega))
    rw [h, if_pos hlt, hk]

/-- C23 (amended): in a store without hidden entries and with the highlight in
range, `select_next` followed by `select_prev` returns the highlight to its
original index exactly when the highlight is not on the last entry or the
store has a single entry; `select_prev` followed by `select_next` does so
exactly when the highlight is not on the first entry or the store has a single
entry. -/
theorem select_next_prev_roundtrip (w : SidebarWindowData) (h0 : 0 ≤ w.hil_index)
    (h1 : w.hil_index < w.entry_count) (hnh : ∀ e ∈ w.entries, e.is_hidden = false) :
    (∃ r1 r2, select_next w = .ok r1 ∧ select_prev r1.1 = .ok r2 ∧
      (r2.1.hil_index = w.hil_index ↔
        (w.hil_index + 1 < w.entry_count ∨ w.entry_count = 1))) ∧
    (∃ r1 r2, select_prev w = .ok r1 ∧ select_next r1.1 = .ok r2 ∧
      (r2.1.hil_index = w.hil_index ↔ (0 < w.hil_index ∨ w.entry_count = 1))) := by
  constructor
  · by_cases hlt : w.hil_index + 1 < w.entry_count
    · refine ⟨_, _, (select_next_no_hidden w h0 h1 hnh).trans (by rw [if_pos hlt]),
        (select_prev_no_hidden { w with hil_index := w.hil_index + 1 }
          (by show 0 ≤ w.hil_index + 1; omega) hlt hnh).trans
          (by rw [if_pos (by show 0 < w.hil_index + 1; omega)]), ?_⟩
      simp only [add_sub_cancel_right, true_iff]
      exact Or.inl hlt
    · by_cases hpos : 0 < w.hil_index
      · refine ⟨_, _, (select_next_no_hidden w h0 h1 hnh).trans (by rw [if_neg hlt]),
          (select_prev_no_hidden w h0 h1 hnh).trans (by rw [if_pos hpos]), ?_⟩
        simp only
        constructor
        · intro h; omega
        · intro h; omega
      · refine ⟨_, _, (select_next_no_hidden w h0 h1 hnh).trans (by rw [if_neg hlt]),
          (select_prev_no_hidden w h0 h1 hnh).trans (by rw [if_neg hpos]), ?_⟩
        simp only [true_iff]
        right; omega
  · by_cases hpos : 0 < w.hil_index
    · refine ⟨_, _, (select_prev_no_hidden w h0 h1 hnh).trans (by rw [if_pos hpos]),
        (select_next_no_hidden { w with hil_index := w.hil_index - 1 }
          (by show 0 ≤ w.hil_index - 1; omega)
          (by show w.hil_index - 1 < w.entry_count; omega) hnh).trans
          (by rw [if_pos (by show w.hil_index - 1 + 1 < w.entry_count; omega)]), ?_⟩
      simp only [sub_add_cancel, true_iff]
      exact Or.inl hpos
    · by_cases hlt : w.hil_index + 1 < w.entry_count
      · refine ⟨_, _, (select_prev_no_hidden w h0 h1 hnh).trans (by rw [if_neg hpos]),
          (select_next_no_hidden w h0 h1 hnh).trans (by rw [if_pos hlt]), ?_⟩
        simp only
        constructor
        · intro h; omega
        · intro h; omega
      · refine ⟨_, _, (select_prev_no_hidden w h0 h1 hnh).trans (by rw [if_neg hpos]),
          (select_next_no_hidden w h0 h1 hnh).trans (by rw [if_neg hlt]), ?_⟩
        simp only [true_iff]
        right; omega

theorem select_next_prev_roundtrip_witness :
    0 ≤ w_three.hil_index ∧ w_three.hil_index < w_three.entry_count ∧
    (∀ e ∈ w_three.entries, e.is_hidden = false) ∧
    (∃ r1 r2, select_next w_three = .ok r1 ∧ select_prev r1.1 = .ok r2 ∧
      (r2.1.hil_index = w_three.hil_index ↔
        (w_three.hil_index + 1 < w_three.entry_count ∨ w_three.entry_count = 1))) :=
  ⟨by decide, by decide, by decide,
   (select_next_prev_roundtrip w_three (by decide) (by decide) (by decide)).1⟩

/-- C23 (counterexample): two unhidden entries with the highlight on the last
one: `select_next` fails and leaves the highlight on slot 1, the following
`select_prev` moves it to slot 0. -/
theorem select_next_prev_roundtrip_counterexample :
    (∀ e ∈ w_two_last.entries, e.is_hidden = false) ∧
    0 ≤ w_two_last.hil_index ∧ w_two_last.hil_index < w_two_last.entry_count ∧
    select_next w_two_last = .ok (w_two_last, false) ∧
    select_prev w_two_last = .ok ({ w_two_last with hil_index := 0 }, true) ∧
    ({ w_two_last with hil_index := 0 } : SidebarWindowData).hil_index ≠
      w_two_last.hil_index := by
  decide

/-! ## First, last and page-wise selection -/

theorem select_first_result (w : SidebarWindowData) (hc : 1 ≤ w.entry_count)
    (h0 : 0 ≤ w.hil_index) :
    (select_first w = .ok (w, false) ∧
      ((∀ j, ¬ unhidden_at w j) ∨ (unhidden_at w w.hil_index ∧
        ∀ j, unhidden_at w j → w.hil_index ≤ j))) ∨
    ∃ k, select_first w = .ok ({ w with hil_index := k }, true) ∧ k ≠ w.hil_index ∧
      unhidden_at w k ∧ ∀ j, unhidden_at w j → k ≤ j := by
  unfold select_first
  have hg : ¬ (w.entry_count = 0 ∨ w.hil_index < 0) := by omega
  simp only [hg, if_false]
  obtain ⟨e, he, _⟩ := entry_at_ok w 0 (le_refl _) (by omega)
  have he2 : entry_at { w with hil_index := 0 } 0 = .ok e := he
  simp only [he2]
  by_cases hh : e.is_hidden = true
  · simp only [hh, if_true]
    have hnot := not_unhidden_at_of w 0 e he hh
    rcases select_next_result { w with hil_index := 0 } (le_refl _)
        (by show (0 : Int) < w.entry_count; omega) with ⟨h, hall⟩ | ⟨k, h, hk1, _, hk3, hk4⟩
    · left
      simp only [h, if_true, ne_eq, not_true_eq_false, decide_False, true_and]
      left
      intro j hu
      by_cases hj : j = 0
      · exact hnot (hj ▸ hu)
      · exact hall j (by have := unhidden_at_range w j hu; show (0 : Int) < j; omega) hu
    · have hleast : ∀ j, unhidden_at w j → k ≤ j := by
        intro j hu
        by_contra hlt
        have hr := unhidden_at_range w j hu
        by_cases hj : j = 0
        · exact hnot (hj ▸ hu)
        · exact hk4 j (by show (0 : Int) < j; omega) (by omega) hu
      simp only [h, Bool.true_eq_false, if_false]
      by_cases hk : k = w.hil_index
      · left
        subst hk
        simp only [ne_eq, not_true_eq_false, decide_False, true_and]
        right
        exact ⟨hk3, hleast⟩
      · right
        refine ⟨k, ?_, hk, hk3, hleast⟩
        have hne : w.hil_index ≠ k := fun h => hk h.symm
        simp only [ne_eq, hne, not_false_eq_true, decide_True]
  · have hfl : e.is_hidden = false := by simpa using hh
    simp only [hfl, Bool.false_eq_true, if_false]
    have hun : unhidden_at w 0 := unhidden_at_of w 0 e he hfl
    have hleast : ∀ j, unhidden_at w j → (0 : Int) ≤ j := fun j hu => (unhidden_at_range w j hu).1
    by_cases hk : w.hil_index = 0
    · left
      simp only [hk, ne_eq, not_true_eq_false, decide_False]
      refine ⟨?_, Or.inr ⟨hun, hleast⟩⟩
      rw [← hk]
    · right
      refine ⟨0, ?_, fun h => hk h.symm, hun, hleast⟩
      simp only [ne_eq, hk, not_false_eq_true, decide_True]

theorem select_last_result (w : SidebarWindowData) (hc : 1 ≤ w.entry_count)
    (h0 : 0 ≤ w.hil_index) :
    (select_last w = .ok (w, false) ∧
      ((∀ j, ¬ unhidden_at w j) ∨ (unhidden_at w w.hil_index ∧
        ∀ j, unhidden_at w j → j ≤ w.hil_index))) ∨
    ∃ k, select_last w = .ok ({ w with hil_index := k }, true) ∧ k ≠ w.hil_index ∧
      unhidden_at w k ∧ ∀ j, unhidden_at w j → j ≤ k := by
  unfold select_last
  have hg : ¬ (w.entry_count = 0 ∨ w.hil_index < 0) := by omega
  simp only [hg, if_false]
  rcases select_prev_result { w with hil_index := w.entry_count }
      (by show (0 : Int) ≤ w.entry_count; omega) (le_refl _)
      (by show w.entry_count ≠ 0; omega) with ⟨h, hall⟩ | ⟨k, h, _, hk2, hk3, hk4⟩
  · left
    simp only [h, if_true, ne_eq, not_true_eq_false, decide_False, true_and]
    left
    intro j hu
    exact hall j (unhidden_at_range w j hu).2 hu
  · have hmost : ∀ j, unhidden_at w j → j ≤ k := by
      intro j hu
      by_contra hlt
      exact hk4 j (by omega) (unhidden_at_range w j hu).2 hu
    simp only [h, Bool.true_eq_false, if_false]
    by_cases hk : k = w.hil_index
    · left
      subst hk
      simp only [ne_eq, not_true_eq_false, decide_False, true_and]
      right
      exact ⟨hk3, hmost⟩
    · right
      refine ⟨k, ?_, hk, hk3, hmost⟩
      have hne : w.hil_index ≠ k := fun h => hk h.symm
      simp only [ne_eq, hne, not_false_eq_true, decide_True]

/-- C26: with at least one entry and the highlight in range, `select_first`
leaves the highlight on the least unhidden index and `select_last` on the
greatest unhidden index when an unhidden entry exists, each returning true
exactly when that index differs from the original highlight; when every entry
is hidden the store is returned unchanged with the result false. -/
theorem select_first_last_semantics (w : SidebarWindowData) (hc : 1 ≤ w.entry_count)
    (h0 : 0 ≤ w.hil_index) (h1 : w.hil_index < w.entry_count) :
    (∃ r, select_first w = .ok r ∧ r.1 = { w with hil_index := r.1.hil_index } ∧
      ((∃ j, unhidden_at w j) → unhidden_at w r.1.hil_index ∧
        (∀ j, unhidden_at w j → r.1.hil_index ≤ j) ∧
        (r.2 = true ↔ r.1.hil_index ≠ w.hil_index)) ∧
      ((∀ j, ¬ unhidden_at w j) → r = (w, false))) ∧
    (∃ r, select_last w = .ok r ∧ r.1 = { w with hil_index := r.1.hil_index } ∧
      ((∃ j, unhidden_at w j) → unhidden_at w r.1.hil_index ∧
        (∀ j, unhidden_at w j → j ≤ r.1.hil_index) ∧
        (r.2 = true ↔ r.1.hil_index ≠ w.hil_index)) ∧
      ((∀ j, ¬ unhidden_at w j) → r = (w, false))) := by
  have _ := h1
  constructor
  · rcases select_first_result w hc h0 with ⟨h, hall | ⟨hu, hl⟩⟩ | ⟨k, h, hk, hu, hl⟩
    · exact ⟨_, h, rfl, fun ⟨j, hj⟩ => absurd hj (hall j), fun _ => rfl⟩
    · exact ⟨_, h, rfl, fun _ => ⟨hu, hl, (fun hc => Bool.noConfusion hc),
        (fun hc => absurd rfl hc)⟩, fun _ => rfl⟩
    · exact ⟨_, h, rfl, fun _ => ⟨hu, hl, (fun _ => hk), (fun _ => rfl)⟩,
        fun hall => absurd hu (hall k)⟩
  · rcases select_last_result w hc h0 with ⟨h, hall | ⟨hu, hl⟩⟩ | ⟨k, h, hk, hu, hl⟩
    · exact ⟨_, h, rfl, fun ⟨j, hj⟩ => absurd hj (hall j), fun _ => rfl⟩
    · exact ⟨_, h, rfl, fun _ => ⟨hu, hl, (fun hc => Bool.noConfusion hc),
        (fun hc => absurd rfl hc)⟩, fun _ => rfl⟩
    · exact ⟨_, h, rfl, fun _ => ⟨hu, hl, (fun _ => hk), (fun _ => rfl)⟩,
        fun hall => absurd hu (hall k)⟩

theorem select_first_last_semantics_witness :
    1 ≤ w_flags.entry_count ∧ 0 ≤ w_flags.hil_index ∧
    w_flags.hil_index < w_flags.entry_count ∧
    (∃ r, select_first w_flags = .ok r ∧ r.1 = { w_flags with hil_index := r.1.hil_index } ∧
      ((∃ j, unhidden_at w_flags j) → unhidden_at w_flags r.1.hil_index ∧
        (∀ j, unhidden_at w_flags j → r.1.hil_index ≤ j) ∧
        (r.2 = true ↔ r.1.hil_index ≠ w_flags.hil_index)) ∧
      ((∀ j, ¬ unhidden_at w_flags j) → r = (w_flags, false))) ∧
    w_flags.entries.map (fun e => e.is_hidden) = [true, false, true, false, false] ∧
    select_first w_flags = .ok ({ w_flags with hil_index := 1 }, true) ∧
    select_last w_flags = .ok ({ w_flags with hil_index := 4 }, true) :=
  ⟨by decide, by decide, by decide,
   (select_first_last_semantics w_flags (by decide) (by decide) (by decide)).1,
   by decide, by decide, by decide⟩

/-- Scenario A of the specification: counts `[0, 3, 0, 5, 1]` with
`non_empty_only` give the hidden flags `[true, false, true, false, false]`, and
`select_first` lands on index 1. -/
theorem select_first_scenario_a :
    (update_entries_visibility env_scenario_a
      { w_scenario_a with hil_index := 3 }).entries.map (fun e => e.is_hidden) =
      [true, false, true, false, false] ∧
    (select_first (update_entries_visibility env_scenario_a
      { w_scenario_a with hil_index := 3 })).map (fun r => (r.1.hil_index, r.2)) =
      .ok (1, true) := by
  decide

theorem select_page_down_result (w : SidebarWindowData) (h0 : 0 ≤ w.hil_index)
    (h1 : w.hil_index ≤ w.bot_index) (h2 : w.bot_index < w.entry_count)
    (hu : unhidden_at w w.hil_index) :
    ∃ k, select_page_down w = .ok ({ w with hil_index := k }, decide (w.hil_index ≠ k)) ∧
      unhidden_at w k ∧
      ((w.bot_index < k ∧ ∀ j, w.bot_index < j → j < k → ¬ unhidden_at w j) ∨
       (k ≤ w.bot_index ∧ (∀ j, w.bot_index < j → ¬ unhidden_at w j) ∧
        ∀ j, k < j → j ≤ w.bot_index → ¬ unhidden_at w j)) := by
  unfold select_page_down
  have hg : ¬ (w.entry_count = 0 ∨ w.bot_index < 0) := by omega
  simp only [hg, if_false]
  rcases select_next_result { w with hil_index := w.bot_index }
      (by show 0 ≤ w.bot_index; omega) h2 with ⟨h, hall⟩ | ⟨k, h, hk1, _, hk3, hk4⟩
  · simp only [h]
    obtain ⟨e, he, _⟩ := entry_at_ok w w.bot_index (by omega) h2
    have he2 : entry_at { w with hil_index := w.bot_index } w.bot_index = .ok e := he
    simp only [he2]
    by_cases hh : e.is_hidden = true
    · simp only [hh, if_true]
      have hnot := not_unhidden_at_of w w.bot_index e he hh
      have hlt : w.hil_index < w.bot_index := by
        by_contra hc
        have heq : w.hil_index = w.bot_index := by omega
        exact hnot (heq ▸ hu)
      rcases select_prev_result { w with hil_index := w.bot_index }
          (by show 0 ≤ w.bot_index; omega) (by show w.bot_index ≤ w.entry_count; omega)
          (by show w.entry_count ≠ 0; omega) with ⟨_, hall2⟩ | ⟨k, h2, _, hk2, hk3, hk4⟩
      · exact absurd hu (hall2 w.hil_index hlt)
      · simp only [h2]
        refine ⟨k, rfl, hk3, Or.inr ⟨le_of_lt hk2, hall, fun j hj hjb => ?_⟩⟩
        by_cases hjeq : j = w.bot_index
        · rw [hjeq]; exact hnot
        · exact hk4 j hj (by show j < w.bot_index; omega)
    · have hfl : e.is_hidden = false := by simpa using hh
      simp only [hfl, Bool.false_eq_true, if_false]
      refine ⟨w.bot_index, rfl, unhidden_at_of w _ e he hfl,
        Or.inr ⟨le_refl _, hall, fun j hj hjb => ?_⟩⟩
      omega
  · simp only [h]
    obtain ⟨e, he, hfl⟩ := hk3
    have he2 : entry_at { w with hil_index := k } k = .ok e := he
    simp only [he2, hfl, Bool.false_eq_true, if_false]
    exact ⟨k, rfl, ⟨e, he, hfl⟩, Or.inl ⟨hk1, hk4⟩⟩

theorem select_page_up_result (w : SidebarWindowData) (h0 : 0 ≤ w.top_index)
    (h1 : w.top_index ≤ w.hil_index) (h2 : w.hil_index < w.entry_count)
    (hu : unhidden_at w w.hil_index) :
    ∃ k, select_page_up w = .ok ({ w with hil_index := k }, decide (w.hil_index ≠ k)) ∧
      unhidden_at w k ∧
      ((k < w.top_index ∧ ∀ j, k < j → j < w.top_index → ¬ unhidden_at w j) ∨
       (w.top_index ≤ k ∧ (∀ j, j < w.top_index → ¬ unhidden_at w j) ∧
        ∀ j, w.top_index ≤ j → j < k → ¬ unhidden_at w j)) := by
  unfold select_page_up
  have hg : ¬ (w.entry_count = 0 ∨ w.top_index < 0) := by omega
  simp only [hg, if_false]
  rcases select_prev_result { w with hil_index := w.top_index } h0
      (by show w.top_index ≤ w.entry_count; omega)
      (by show w.entry_count ≠ 0; omega) with ⟨h, hall⟩ | ⟨k, h, _, hk1, hk3, hk4⟩
  · simp only [h]
    obtain ⟨e, he, _⟩ := entry_at_ok w w.top_index h0 (by omega)
    have he2 : entry_at { w with hil_index := w.top_index } w.top_index = .ok e := he
    simp only [he2]
    by_cases hh : e.is_hidden = true
    · simp only [hh, if_true]
      have hnot := not_unhidden_at_of w w.top_index e he hh
      have hlt : w.top_index < w.hil_index := by
        by_contra hc
        have heq : w.hil_index = w.top_index := by omega
        exact hnot (heq ▸ hu)
      rcases select_next_result { w with hil_index := w.top_index } h0
          (by show w.top_index < w.entry_count; omega) with
        ⟨_, hall2⟩ | ⟨k, h2, hk2, _, hk3, hk4⟩
      · exact absurd hu (hall2 w.hil_index hlt)
      · simp only [h2]
        refine ⟨k, rfl, hk3, Or.inr ⟨le_of_lt hk2, hall, fun j hj hjb => ?_⟩⟩
        by_cases hjeq : j = w.top_index
        · rw [hjeq]; exact hnot
        · exact hk4 j (by show w.top_index < j; omega) hjb
    · have hfl : e.is_hidden = false := by simpa using hh
      simp only [hfl, Bool.false_eq_true, if_false]
      refine ⟨w.top_index, rfl, unhidden_at_of w _ e he hfl,
        Or.inr ⟨le_refl _, hall, fun j hj hjb => ?_⟩⟩
      omega
  · simp only [h]
    obtain ⟨e, he, hfl⟩ := hk3
    have he2 : entry_at { w with hil_index := k } k = .ok e := he
    simp only [he2, hfl, Bool.false_eq_true, if_false]
    exact ⟨k, rfl, ⟨e, he, hfl⟩, Or.inl ⟨hk1, hk4⟩⟩

/-- C27: when `0 ≤ top_index ≤ hil_index ≤ bot_index < entry_count` and the
highlighted entry is unhidden, `select_page_down` moves the highlight to the
first unhidden entry after `bot_index` if there is one and otherwise to the last
unhidden entry at or before `bot_index`; `select_page_up` moves it to the last
unhidden entry before `top_index` if there is one and otherwise to the first
unhidden entry at or after `top_index`.  Each returns true exactly when the
highlight changed, changes nothing else, and the final highlighted entry is
unhidden. -/
theorem select_page_semantics (w : SidebarWindowData) (h0 : 0 ≤ w.top_index)
    (h1 : w.top_index ≤ w.hil_index) (h2 : w.hil_index ≤ w.bot_index)
    (h3 : w.bot_index < w.entry_count) (hu : unhidden_at w w.hil_index) :
    (∃ r, select_page_down w = .ok r ∧ r.1 = { w with hil_index := r.1.hil_index } ∧
      unhidden_at w r.1.hil_index ∧ (r.2 = true ↔ r.1.hil_index ≠ w.hil_index) ∧
      ((∃ j, w.bot_index < j ∧ unhidden_at w j) → w.bot_index < r.1.hil_index ∧
        ∀ j, w.bot_index < j → unhidden_at w j → r.1.hil_index ≤ j) ∧
      ((∀ j, w.bot_index < j → ¬ unhidden_at w j) → r.1.hil_index ≤ w.bot_index ∧
        ∀ j, j ≤ w.bot_index → unhidden_at w j → j ≤ r.1.hil_index)) ∧
    (∃ r, select_page_up w = .ok r ∧ r.1 = { w with hil_index := r.1.hil_index } ∧
      unhidden_at w r.1.hil_index ∧ (r.2 = true ↔ r.1.hil_index ≠ w.hil_index) ∧
      ((∃ j, j < w.top_index ∧ unhidden_at w j) → r.1.hil_index < w.top_index ∧
        ∀ j, j < w.top_index → unhidden_at w j → j ≤ r.1.hil_index) ∧
      ((∀ j, j < w.top_index → ¬ unhidden_at w j) → w.top_index ≤ r.1.hil_index ∧
        ∀ j, w.top_index ≤ j → unhidden_at w j → r.1.hil_index ≤ j)) := by
  constructor
  · obtain ⟨k, h, hk, hcase⟩ := select_page_down_result w (by omega) h2 h3 hu
    refine ⟨_, h, rfl, hk, ?_, ?_, ?_⟩
    · simp only [decide_eq_true_eq]
      exact ne_comm
    · rintro ⟨j, hj, huj⟩
      rcases hcase with ⟨hbk, hmin⟩ | ⟨_, hall, _⟩
      · refine ⟨hbk, fun i hi hui => ?_⟩
        by_contra hc
        exact hmin i hi (by simpa using hc) hui
      · exact absurd huj (hall j hj)
    · intro hall
      rcases hcase with ⟨hbk, _⟩ | ⟨hkb, _, hmax⟩
      · exact absurd hk (hall k hbk)
      · refine ⟨hkb, fun i hi hui => ?_⟩
        by_contra hc
        exact hmax i (by simpa using hc) hi hui
  · obtain ⟨k, h, hk, hcase⟩ := select_page_up_result w h0 h1 (by omega) hu
    refine ⟨_, h, rfl, hk, ?_, ?_, ?_⟩
    · simp only [decide_eq_true_eq]
      exact ne_comm
    · rintro ⟨j, hj, huj⟩
      rcases hcase with ⟨hbk, hmin⟩ | ⟨_, hall, _⟩
      · refine ⟨hbk, fun i hi hui => ?_⟩
        by_contra hc
        exact hmin i (by simpa using hc) hi hui
      · exact absurd huj (hall j hj)
    · intro hall
      rcases hcase with ⟨hbk, _⟩ | ⟨hkb, _, hmax⟩
      · exact absurd hk (hall k hbk)
      · refine ⟨hkb, fun i hi hui => ?_⟩
        by_contra hc
        exact hmax i hi (by simpa using hc) hui

theorem select_page_semantics_witness :
    0 ≤ w_flags.top_index ∧ w_flags.top_index ≤ w_flags.hil_index ∧
    w_flags.hil_index ≤ w_flags.bot_index ∧ w_flags.bot_index < w_flags.entry_count ∧
    unhidden_at w_flags w_flags.hil_index ∧
    (∃ r, select_page_down w_flags = .ok r ∧
      r.1 = { w_flags with hil_index := r.1.hil_index } ∧
      unhidden_at w_flags r.1.hil_index ∧ (r.2 = true ↔ r.1.hil_index ≠ w_flags.hil_index) ∧
      ((∃ j, w_flags.bot_index < j ∧ unhidden_at w_flags j) →
        w_flags.bot_index < r.1.hil_index ∧
        ∀ j, w_flags.bot_index < j → unhidden_at w_flags j → r.1.hil_index ≤ j) ∧
      ((∀ j, w_flags.bot_index < j → ¬ unhidden_at w_flags j) →
        r.1.hil_index ≤ w_flags.bot_index ∧
        ∀ j, j ≤ w_flags.bot_index → unhidden_at w_flags j → j ≤ r.1.hil_index)) ∧
    select_page_down w_flags = .ok ({ w_flags with hil_index := 4 }, true) ∧
    select_page_up w_flags = .ok ({ w_flags with hil_index := 1 }, true) :=
  ⟨by decide, by decide, by decide, by decide, ⟨mk_entry 104 4, by decide, by decide⟩,
   (select_page_semantics w_flags (by decide) (by decide) (by decide) (by decide)
     ⟨mk_entry 104 4, by decide, by decide⟩).1, by decide, by decide⟩

/-! ## Lemmas on the new-mail scans -/

theorem new_at_of (env : Env) (w : SidebarWindowData) (k : Int) (e : SbEntry)
    (he : entry_at w k = .ok e) (hh : has_new_mail env e = true) : new_at env w k :=
  ⟨e, he, hh⟩

theorem not_new_at_of (env : Env) (w : SidebarWindowData) (k : Int) (e : SbEntry)
    (he : entry_at w k = .ok e) (hh : has_new_mail env e = false) : ¬ new_at env w k := by
  rintro ⟨e2, he2, hh2⟩
  rw [he] at he2
  cases he2
  rw [hh] at hh2
  cases hh2

theorem not_new_at_oob (env : Env) (w : SidebarWindowData) (k : Int)
    (h : k < 0 ∨ w.entry_count ≤ k) : ¬ new_at env w k := by
  rintro ⟨e2, he2, _⟩
  rw [entry_at_oob w k h] at he2
  cases he2

theorem new_at_range (env : Env) (w : SidebarWindowData) (k : Int) (h : new_at env w k) :
    0 ≤ k ∧ k < w.entry_count := by
  by_contra hc
  exact not_new_at_oob env w k (by omega) h

/-- The forward scan below the highlight: from `entry < hil_index` the loop
stops at the first new-mail entry before the highlight or fails on reaching it. -/
theorem select_next_new_loop_below (env : Env) (w : SidebarWindowData) (fuel : Nat)
    (entry : Int) (h0 : -1 ≤ entry) (h1 : entry < w.hil_index)
    (h2 : w.hil_index < w.entry_count) (hf : w.hil_index - entry ≤ fuel) :
    (select_next_new_loop env w fuel entry = .ok none ∧
      ∀ j, entry < j → j < w.hil_index → ¬ new_at env w j) ∨
    ∃ k, select_next_new_loop env w fuel entry = .ok (some k) ∧ entry < k ∧
      k < w.hil_index ∧ new_at env w k ∧ ∀ j, entry < j → j < k → ¬ new_at env w j := by
  induction fuel generalizing entry with
  | zero => omega
  | succ n ih =>
    simp only [select_next_new_loop]
    have hne : ¬ (entry + 1 = w.entry_count) := by omega
    simp only [hne, if_false]
    by_cases hend : entry + 1 = w.hil_index
    · left
      simp only [hend, if_true, true_and]
      intro j hj hjh
      omega
    · simp only [hend, if_false]
      obtain ⟨e, he, _⟩ := entry_at_ok w (entry + 1) (by omega) (by omega)
      simp only [he]
      by_cases hh : has_new_mail env e = false
      · simp only [hh, if_true]
        have hnot := not_new_at_of env w (entry + 1) e he hh
        rcases ih (entry + 1) (by omega) (by omega) (by omega) with
          ⟨h, hall⟩ | ⟨k, h, hk1, hk2, hk3, hk4⟩
        · left
          refine ⟨h, fun j hj hjh => ?_⟩
          by_cases hje : j = entry + 1
          · rw [hje]; exact hnot
          · exact hall j (by omega) hjh
        · right
          refine ⟨k, h, by omega, hk2, hk3, fun j hj hjk => ?_⟩
          by_cases hje : j = entry + 1
          · rw [hje]; exact hnot
          · exact hk4 j (by omega) hjk
      · have htr : has_new_mail env e = true := by simpa using hh
        simp only [htr, Bool.true_eq_false, if_false]
        right
        refine ⟨entry + 1, rfl, by omega, by omega, new_at_of env w _ e he htr,
          fun j hj hjk => ?_⟩
        omega

/-- With wrapping enabled, the step from the last slot continues like the step
from slot `-1`. -/
theorem select_next_new_loop_wrap (env : Env) (w : SidebarWindowData) (n : Nat)
    (hw : env.C_SidebarNextNewWrap = true) (hc : 0 < w.entry_count) :
    select_next_new_loop env w (n + 1) (w.entry_count - 1) =
      select_next_new_loop env w (n + 1) (-1) := by
  have hne : ¬ ((0 : Int) = w.entry_count) := by omega
  simp only [select_next_new_loop, sub_add_cancel, if_true, hw, neg_add_cancel, hne, if_false]

/-- The forward scan from the highlight on: the loop stops at the first
new-mail entry above `entry`, or (with wrapping) at the first one below the
highlight when none is above, and fails otherwise. -/
theorem select_next_new_loop_full (env : Env) (w : SidebarWindowData) (fuel : Nat)
    (entry : Int) (h0 : 0 ≤ w.hil_index) (h1 : w.hil_index ≤ entry)
    (h2 : entry < w.entry_count) (hf : w.entry_count - entry + w.hil_index ≤ fuel) :
    (select_next_new_loop env w fuel entry = .ok none ∧
      (∀ j, entry < j → ¬ new_at env w j) ∧
      (env.C_SidebarNextNewWrap = true → ∀ j, j < w.hil_index → ¬ new_at env w j)) ∨
    ∃ k, select_next_new_loop env w fuel entry = .ok (some k) ∧ new_at env w k ∧
      ((entry < k ∧ ∀ j, entry < j → j < k → ¬ new_at env w j) ∨
       (env.C_SidebarNextNewWrap = true ∧ k < w.hil_index ∧
        (∀ j, entry < j → ¬ new_at env w j) ∧ ∀ j, j < k → ¬ new_at env w j)) := by
  induction fuel generalizing entry with
  | zero => omega
  | succ n ih =>
    by_cases hend : entry + 1 = w.entry_count
    · have habove : ∀ j, entry < j → ¬ new_at env w j := fun j hj =>
        not_new_at_oob env w j (by omega)
      by_cases hw : env.C_SidebarNextNewWrap = true
      · have hentry : entry = w.entry_count - 1 := by omega
        rw [hentry, select_next_new_loop_wrap env w n hw (by omega)]
        rw [hentry] at habove
        rcases select_next_new_loop_below env w (n + 1) (-1) (le_refl _) (by omega)
            (by omega) (by push_cast; omega) with ⟨h, hall⟩ | ⟨k, h, hk1, hk2, hk3, hk4⟩
        · left
          refine ⟨h, habove, fun _ j hj => ?_⟩
          by_cases hj0 : j < 0
          · exact not_new_at_oob env w j (Or.inl hj0)
          · exact hall j (by omega) hj
        · right
          refine ⟨k, h, hk3, Or.inr ⟨hw, hk2, habove, fun j hj => ?_⟩⟩
          by_cases hj0 : j < 0
          · exact not_new_at_oob env w j (Or.inl hj0)
          · exact hk4 j (by omega) hj
      · have hwf : env.C_SidebarNextNewWrap = false := by simpa using hw
        left
        simp only [select_next_new_loop, hend, if_true, hwf, Bool.false_eq_true, if_false,
          true_and]
        exact ⟨habove, fun hc => hc.elim⟩
    · simp only [select_next_new_loop, hend, if_false]
      have hnh : ¬ (entry + 1 = w.hil_index) := by omega
      simp only [hnh, if_false]
      obtain ⟨e, he, _⟩ := entry_at_ok w (entry + 1) (by omega) (by omega)
      simp only [he]
      by_cases hh : has_new_mail env e = false
      · simp only [hh, if_true]
        have hnot := not_new_at_of env w (entry + 1) e he hh
        have hstep : ∀ j, entry < j → (∀ i, entry + 1 < i → ¬ new_at env w i) →
            ¬ new_at env w j := by
          intro j hj hall
          by_cases hje : j = entry + 1
          · rw [hje]; exact hnot
          · exact hall j (by omega)
        rcases ih (entry + 1) (by omega) (by omega) (by omega) with
          ⟨h, hall, hwrap⟩ | ⟨k, h, hk, ⟨hk1, hk4⟩ | ⟨hw, hk2, hall, hlow⟩⟩
        · left
          exact ⟨h, fun j hj => hstep j hj hall, hwrap⟩
        · right
          refine ⟨k, h, hk, Or.inl ⟨by omega, fun j hj hjk => ?_⟩⟩
          by_cases hje : j = entry + 1
          · rw [hje]; exact hnot
          · exact hk4 j (by omega) hjk
        · right
          exact ⟨k, h, hk, Or.inr ⟨hw, hk2, fun j hj => hstep j hj hall, hlow⟩⟩
      · have htr : has_new_mail env e = true := by simpa using hh
        simp only [htr, Bool.true_eq_false, if_false]
        right
        refine ⟨entry + 1, rfl, new_at_of env w _ e he htr, Or.inl ⟨by omega, fun j hj hjk => ?_⟩⟩
        omega

/-- The backward scan above the highlight: from `entry > hil_index` the loop
stops at the last new-mail entry above the highlight or fails on reaching it. -/
theorem select_prev_new_loop_above (env : Env) (w : SidebarWindowData) (fuel : Nat)
    (entry : Int) (h0 : 0 ≤ w.hil_index) (h1 : w.hil_index < entry)
    (h2 : entry ≤ w.entry_count) (hf : entry - w.hil_index ≤ fuel) :
    (select_prev_new_loop env w fuel entry = .ok none ∧
      ∀ j, w.hil_index < j → j < entry → ¬ new_at env w j) ∨
    ∃ k, select_prev_new_loop env w fuel entry = .ok (some k) ∧ w.hil_index < k ∧
      k < entry ∧ new_at env w k ∧ ∀ j, k < j → j < entry → ¬ new_at env w j := by
  induction fuel generalizing entry with
  | zero => omega
  | succ n ih =>
    simp only [select_prev_new_loop]
    have hne : ¬ (entry - 1 < 0) := by omega
    simp only [hne, if_false]
    by_cases hend : entry - 1 = w.hil_index
    · left
      simp only [hend, if_true, true_and]
      intro j hj hjh
      omega
    · simp only [hend, if_false]
      obtain ⟨e, he, _⟩ := entry_at_ok w (entry - 1) (by omega) (by omega)
      simp only [he]
      by_cases hh : has_new_mail env e = false
      · simp only [hh, if_true]
        have hnot := not_new_at_of env w (entry - 1) e he hh
        rcases ih (entry - 1) (by omega) (by omega) (by omega) with
          ⟨h, hall⟩ | ⟨k, h, hk1, hk2, hk3, hk4⟩
        · left
          refine ⟨h, fun j hj hjh => ?_⟩
          by_cases hje : j = entry - 1
          · rw [hje]; exact hnot
          · exact hall j hj (by omega)
        · right
          refine ⟨k, h, hk1, by omega, hk3, fun j hj hjk => ?_⟩
          by_cases hje : j = entry - 1
          · rw [hje]; exact hnot
          · exact hk4 j hj (by omega)
      · have htr : has_new_mail env e = true := by simpa using hh
        simp only [htr, Bool.true_eq_false, if_false]
        right
        refine ⟨entry - 1, rfl, by omega, by omega, new_at_of env w _ e he htr,
          fun j hj hjk => ?_⟩
        omega

/-- With wrapping enabled, the step from slot 0 continues like the step from
slot `entry_count`. -/
theorem select_prev_new_loop_wrap (env : Env) (w : SidebarWindowData) (n : Nat)
    (hw : env.C_SidebarNextNewWrap = true) (hc : 0 < w.entry_count) :
    select_prev_new_loop env w (n + 1) 0 =
      select_prev_new_loop env w (n + 1) w.entry_count := by
  have hne : ¬ (w.entry_count - 1 < 0) := by omega
  have hlt : (0 : Int) - 1 < 0 := by omega
  simp only [select_prev_new_loop, hlt, if_true, hw, hne, if_false]

/-- The backward scan from the highlight on: the loop stops at the last
new-mail entry below `entry`, or (with wrapping) at the last one above the
highlight when none is below, and fails otherwise. -/
theorem select_prev_new_loop_full (env : Env) (w : SidebarWindowData) (fuel : Nat)
    (entry : Int) (h0 : 0 ≤ entry) (h1 : entry ≤ w.hil_index)
    (h2 : w.hil_index < w.entry_count) (hf : entry + (w.entry_count - w.hil_index) ≤ fuel) :
    (select_prev_new_loop env w fuel entry = .ok none ∧
      (∀ j, j < entry → ¬ new_at env w j) ∧
      (env.C_SidebarNextNewWrap = true → ∀ j, w.hil_index < j → ¬ new_at env w j)) ∨
    ∃ k, select_prev_new_loop env w fuel entry = .ok (some k) ∧ new_at env w k ∧
      ((k < entry ∧ ∀ j, k < j → j < entry → ¬ new_at env w j) ∨
       (env.C_SidebarNextNewWrap = true ∧ w.hil_index < k ∧
        (∀ j, j < entry → ¬ new_at env w j) ∧ ∀ j, k < j → ¬ new_at env w j)) := by
  induction fuel generalizing entry with
  | zero => omega
  | succ n ih =>
    by_cases hend : entry - 1 < 0
    · have hbelow : ∀ j, j < entry → ¬ new_at env w j := fun j hj =>
        not_new_at_oob env w j (by omega)
      by_cases hw : env.C_SidebarNextNewWrap = true
      · have hentry : entry = 0 := by omega
        rw [hentry, select_prev_new_loop_wrap env w n hw (by omega)]
        rw [hentry] at hbelow
        rcases select_prev_new_loop_above env w (n + 1) w.entry_count (by omega) (by omega)
            (le_refl _) (by push_cast; omega) with ⟨h, hall⟩ | ⟨k, h, hk1, hk2, hk3, hk4⟩
        · left
          refine ⟨h, hbelow, fun _ j hj => ?_⟩
          by_cases hj0 : w.entry_count ≤ j
          · exact not_new_at_oob env w j (Or.inr hj0)
          · exact hall j hj (by omega)
        · right
          refine ⟨k, h, hk3, Or.inr ⟨hw, hk1, hbelow, fun j hj => ?_⟩⟩
          by_cases hj0 : w.entry_count ≤ j
          · exact not_new_at_oob env w j (Or.inr hj0)
          · exact hk4 j hj (by omega)
      · have hwf : env.C_SidebarNextNewWrap = false := by simpa using hw
        left
        simp only [select_prev_new_loop, hend, if_true, hwf, Bool.false_eq_true, if_false,
          true_and]
        exact ⟨hbelow, fun hc => hc.elim⟩
    · simp only [select_prev_new_loop, hend, if_false]
      have hnh : ¬ (entry - 1 = w.hil_index) := by omega
      simp only [hnh, if_false]
      obtain ⟨e, he, _⟩ := entry_at_ok w (entry - 1) (by omega) (by omega)
      simp only [he]
      by_cases hh : has_new_mail env e = false
      · simp only [hh, if_true]
        have hnot := not_new_at_of env w (entry - 1) e he hh
        have hstep : ∀ j, j < entry → (∀ i, i < entry - 1 → ¬ new_at env w i) →
            ¬ new_at env w j := by
          intro j hj hall
          by_cases hje : j = entry - 1
          · rw [hje]; exact hnot
          · exact hall j (by omega)
        rcases ih (entry - 1) (by omega) (by omega) (by omega) with
          ⟨h, hall, hwrap⟩ | ⟨k, h, hk, ⟨hk1, hk4⟩ | ⟨hw, hk2, hall, hlow⟩⟩
        · left
          exact ⟨h, fun j hj => hstep j hj hall, hwrap⟩
        · right
          refine ⟨k, h, hk, Or.inl ⟨by omega, fun j hj hjk => ?_⟩⟩
          by_cases hje : j = entry - 1
          · rw [hje]; exact hnot
          · exact hk4 j hj (by omega)
        · right
          exact ⟨k, h, hk, Or.inr ⟨hw, hk2, fun j hj => hstep j hj hall, hlow⟩⟩
      · have htr : has_new_mail env e = true := by simpa using hh
        simp only [htr, Bool.true_eq_false, if_false]
        right
        refine ⟨entry - 1, rfl, new_at_of env w _ e he htr, Or.inl ⟨by omega, fun j hj hjk => ?_⟩⟩
        omega

theorem select_next_new_result (env : Env) (w : SidebarWindowData) (h0 : 0 ≤ w.hil_index)
    (h1 : w.hil_index < w.entry_count) :
    (select_next_new env w = .ok (w, false) ∧
      (∀ j, w.hil_index < j → ¬ new_at env w j) ∧
      (env.C_SidebarNextNewWrap = true → ∀ j, j < w.hil_index → ¬ new_at env w j)) ∨
    ∃ k, select_next_new env w = .ok ({ w with hil_index := k }, true) ∧ new_at env w k ∧
      ((w.hil_index < k ∧ ∀ j, w.hil_index < j → j < k → ¬ new_at env w j) ∨
       (env.C_SidebarNextNewWrap = true ∧ k < w.hil_index ∧
        (∀ j, w.hil_index < j → ¬ new_at env w j) ∧ ∀ j, j < k → ¬ new_at env w j)) := by
  unfold select_next_new
  have hg : ¬ (w.entry_count = 0 ∨ w.hil_index < 0) := by omega
  simp only [hg, if_false]
  rcases select_next_new_loop_full env w (w.entries.length + 1) w.hil_index h0 (le_refl _) h1
      (by unfold SidebarWindowData.entry_count at *; push_cast; omega) with
    ⟨h, hall⟩ | ⟨k, h, hk⟩
  · left; exact ⟨by simp only [h], hall⟩
  · right; exact ⟨k, by simp only [h], hk⟩

theorem select_prev_new_result (env : Env) (w : SidebarWindowData) (h0 : 0 ≤ w.hil_index)
    (h1 : w.hil_index < w.entry_count) :
    (select_prev_new env w = .ok (w, false) ∧
      (∀ j, j < w.hil_index → ¬ new_at env w j) ∧
      (env.C_SidebarNextNewWrap = true → ∀ j, w.hil_index < j → ¬ new_at env w j)) ∨
    ∃ k, select_prev_new env w = .ok ({ w with hil_index := k }, true) ∧ new_at env w k ∧
      ((k < w.hil_index ∧ ∀ j, k < j → j < w.hil_index → ¬ new_at env w j) ∨
       (env.C_SidebarNextNewWrap = true ∧ w.hil_index < k ∧
        (∀ j, j < w.hil_index → ¬ new_at env w j) ∧ ∀ j, k < j → ¬ new_at env w j)) := by
  unfold select_prev_new
  have hg : ¬ (w.entry_count = 0 ∨ w.hil_index < 0) := by omega
  simp only [hg, if_false]
  rcases select_prev_new_loop_full env w (w.entries.length + 1) w.hil_index h0 (le_refl _) h1
      (by unfold SidebarWindowData.entry_count at *; push_cast; omega) with
    ⟨h, hall⟩ | ⟨k, h, hk⟩
  · left; exact ⟨by simp only [h], hall⟩
  · right; exact ⟨k, by simp only [h], hk⟩

theorem not_new_at_of_none (env : Env) (w : SidebarWindowData)
    (hnone : ∀ e ∈ w.entries, (env.mailboxes e.mailbox).has_new = false ∧
      (env.mailboxes e.mailbox).msg_unread = 0) (j : Int) : ¬ new_at env w j := by
  intro hn
  obtain ⟨hj0, hj1⟩ := new_at_range env w j hn
  obtain ⟨e, he, hget⟩ := entry_at_ok w j hj0 hj1
  obtain ⟨hnew, hunread⟩ := hnone e (mem_of_getElem?_some _ _ _ hget)
  refine not_new_at_of env w j e he ?_ hn
  unfold has_new_mail
  simp only [hnew, hunread, ne_eq, not_true_eq_false, decide_False, Bool.or_self]

/-- C24: with the highlight in range and no entry whose mailbox has new mail or
unread messages, `select_next_new` and `select_prev_new` return false and leave
the store unchanged, whatever the wrap option; both scans already end within a
budget of `entry_count` loop iterations. -/
theorem select_new_none_qualifying (env : Env) (w : SidebarWindowData)
    (h0 : 0 ≤ w.hil_index) (h1 : w.hil_index < w.entry_count)
    (hnone : ∀ e ∈ w.entries, (env.mailboxes e.mailbox).has_new = false ∧
      (env.mailboxes e.mailbox).msg_unread = 0) :
    select_next_new env w = .ok (w, false) ∧ select_prev_new env w = .ok (w, false) ∧
    select_next_new_loop env w w.entries.length w.hil_index = .ok none ∧
    select_prev_new_loop env w w.entries.length w.hil_index = .ok none := by
  have hno := not_new_at_of_none env w hnone
  refine ⟨?_, ?_, ?_, ?_⟩
  · rcases select_next_new_result env w h0 h1 with ⟨h, _⟩ | ⟨k, _, hk, _⟩
    · exact h
    · exact absurd hk (hno k)
  · rcases select_prev_new_result env w h0 h1 with ⟨h, _⟩ | ⟨k, _, hk, _⟩
    · exact h
    · exact absurd hk (hno k)
  · rcases select_next_new_loop_full env w w.entries.length w.hil_index h0 (le_refl _) h1
        (by unfold SidebarWindowData.entry_count at *; omega) with ⟨h, _⟩ | ⟨k, _, hk, _⟩
    · exact h
    · exact absurd hk (hno k)
  · rcases select_prev_new_loop_full env w w.entries.length w.hil_index h0 (le_refl _) h1
        (by unfold SidebarWindowData.entry_count at *; omega) with ⟨h, _⟩ | ⟨k, _, hk, _⟩
    · exact h
    · exact absurd hk (hno k)

theorem select_new_none_qualifying_witness :
    env_scenario_e.C_SidebarNextNewWrap = true ∧
    0 ≤ w_scenario_e.hil_index ∧ w_scenario_e.hil_index < w_scenario_e.entry_count ∧
    (∀ e ∈ w_scenario_e.entries, (env_scenario_e.mailboxes e.mailbox).has_new = false ∧
      (env_scenario_e.mailboxes e.mailbox).msg_unread = 0) ∧
    select_next_new env_scenario_e w_scenario_e = .ok (w_scenario_e, false) ∧
    select_prev_new env_scenario_e w_scenario_e = .ok (w_scenario_e, false) ∧
    select_next_new_loop env_scenario_e w_scenario_e w_scenario_e.entries.length
      w_scenario_e.hil_index = .ok none ∧
    select_prev_new_loop env_scenario_e w_scenario_e w_scenario_e.entries.length
      w_scenario_e.hil_index = .ok none :=
  ⟨by decide, by decide, by decide, by decide,
   select_new_none_qualifying env_scenario_e w_scenario_e (by decide) (by decide) (by decide)⟩

theorem fwd_rank_above (w : SidebarWindowData) (j : Int) (h0 : 0 ≤ w.hil_index)
    (h1 : w.hil_index < j) (h2 : j < w.entry_count) :
    fwd_rank w j = j - w.hil_index - 1 := by
  unfold fwd_rank
  rw [Int.emod_eq_of_lt (by omega) (by omega)]
  omega

theorem fwd_rank_below (w : SidebarWindowData) (j : Int) (h0 : 0 ≤ j)
    (h1 : j < w.hil_index) (h2 : w.hil_index < w.entry_count) :
    fwd_rank w j = j - w.hil_index - 1 + w.entry_count := by
  unfold fwd_rank
  rw [← Int.add_emod_self, Int.emod_eq_of_lt (by omega) (by omega)]
  omega

theorem bwd_rank_below (w : SidebarWindowData) (j : Int) (h0 : 0 ≤ j)
    (h1 : j < w.hil_index) (h2 : w.hil_index < w.entry_count) :
    bwd_rank w j = w.hil_index - 1 - j := by
  unfold bwd_rank
  rw [Int.emod_eq_of_lt (by omega) (by omega)]

theorem bwd_rank_above (w : SidebarWindowData) (j : Int) (h0 : 0 ≤ w.hil_index)
    (h1 : w.hil_index < j) (h2 : j < w.entry_count) :
    bwd_rank w j = w.hil_index - 1 - j + w.entry_count := by
  unfold bwd_rank
  rw [← Int.add_emod_self, Int.emod_eq_of_lt (by omega) (by omega)]

theorem select_next_new_first (env : Env) (w : SidebarWindowData) (k : Int)
    (h0 : 0 ≤ w.hil_index) (h1 : w.hil_index < w.entry_count) (hk : new_at env w k)
    (hcase : (w.hil_index < k ∧ ∀ j, w.hil_index < j → j < k → ¬ new_at env w j) ∨
       (env.C_SidebarNextNewWrap = true ∧ k < w.hil_index ∧
        (∀ j, w.hil_index < j → ¬ new_at env w j) ∧ ∀ j, j < k → ¬ new_at env w j))
    (j : Int) (hj : new_at env w j) (hne : j ≠ w.hil_index) :
    fwd_rank w k ≤ fwd_rank w j := by
  obtain ⟨hk0, hk1⟩ := new_at_range env w k hk
  obtain ⟨hj0, hj1⟩ := new_at_range env w j hj
  rcases hcase with ⟨hlt, hmin⟩ | ⟨_, hlt, habove, hbelow⟩
  · rw [fwd_rank_above w k h0 hlt hk1]
    by_cases hja : w.hil_index < j
    · rw [fwd_rank_above w j h0 hja hj1]
      by_contra hc
      exact hmin j hja (by omega) hj
    · rw [fwd_rank_below w j hj0 (by omega) h1]
      omega
  · rw [fwd_rank_below w k hk0 hlt h1]
    by_cases hja : w.hil_index < j
    · exact absurd hj (habove j hja)
    · rw [fwd_rank_below w j hj0 (by omega) h1]
      by_contra hc
      exact hbelow j (by omega) hj

theorem select_prev_new_first (env : Env) (w : SidebarWindowData) (k : Int)
    (h0 : 0 ≤ w.hil_index) (h1 : w.hil_index < w.entry_count) (hk : new_at env w k)
    (hcase : (k < w.hil_index ∧ ∀ j, k < j → j < w.hil_index → ¬ new_at env w j) ∨
       (env.C_SidebarNextNewWrap = true ∧ w.hil_index < k ∧
        (∀ j, j < w.hil_index → ¬ new_at env w j) ∧ ∀ j, k < j → ¬ new_at env w j))
    (j : Int) (hj : new_at env w j) (hne : j ≠ w.hil_index) :
    bwd_rank w k ≤ bwd_rank w j := by
  obtain ⟨hk0, hk1⟩ := new_at_range env w k hk
  obtain ⟨hj0, hj1⟩ := new_at_range env w j hj
  rcases hcase with ⟨hlt, hmin⟩ | ⟨_, hlt, hbelow, habove⟩
  · rw [bwd_rank_below w k hk0 hlt h1]
    by_cases hjb : j < w.hil_index
    · rw [bwd_rank_below w j hj0 hjb h1]
      by_contra hc
      exact hmin j (by omega) hjb hj
    · rw [bwd_rank_above w j h0 (by omega) hj1]
      omega
  · rw [bwd_rank_above w k h0 hlt hk1]
    by_cases hjb : j < w.hil_index
    · exact absurd hj (hbelow j hjb)
    · rw [bwd_rank_above w j h0 (by omega) hj1]
      by_contra hc
      exact habove j (by omega) hj

/-- C25: with the highlight in range, `select_next_new` returns true exactly
when an entry with new mail or unread messages exists above the highlight, or,
with the wrap option, at any index other than the highlight; the highlight then
moves to the first such entry in the forward cyclic order that starts at
`hil_index + 1`.  `select_prev_new` mirrors this with the entries below the
highlight and the backward cyclic order that starts at `hil_index - 1`. -/
theorem select_new_semantics (env : Env) (w : SidebarWindowData) (h0 : 0 ≤ w.hil_index)
    (h1 : w.hil_index < w.entry_count) :
    (∃ r, select_next_new env w = .ok r ∧
      (r.2 = true ↔ ∃ j, new_at env w j ∧
        (w.hil_index < j ∨ (env.C_SidebarNextNewWrap = true ∧ j ≠ w.hil_index))) ∧
      (r.2 = true → r.1 = { w with hil_index := r.1.hil_index } ∧
        new_at env w r.1.hil_index ∧
        (w.hil_index < r.1.hil_index ∨
          (env.C_SidebarNextNewWrap = true ∧ r.1.hil_index ≠ w.hil_index)) ∧
        ∀ j, new_at env w j →
          (w.hil_index < j ∨ (env.C_SidebarNextNewWrap = true ∧ j ≠ w.hil_index)) →
          fwd_rank w r.1.hil_index ≤ fwd_rank w j)) ∧
    (∃ r, select_prev_new env w = .ok r ∧
      (r.2 = true ↔ ∃ j, new_at env w j ∧
        (j < w.hil_index ∨ (env.C_SidebarNextNewWrap = true ∧ j ≠ w.hil_index))) ∧
      (r.2 = true → r.1 = { w with hil_index := r.1.hil_index } ∧
        new_at env w r.1.hil_index ∧
        (r.1.hil_index < w.hil_index ∨
          (env.C_SidebarNextNewWrap = true ∧ r.1.hil_index ≠ w.hil_index)) ∧
        ∀ j, new_at env w j →
          (j < w.hil_index ∨ (env.C_SidebarNextNewWrap = true ∧ j ≠ w.hil_index)) →
          bwd_rank w r.1.hil_index ≤ bwd_rank w j)) := by
  constructor
  · rcases select_next_new_result env w h0 h1 with ⟨h, habove, hwrap⟩ | ⟨k, h, hk, hcase⟩
    · refine ⟨_, h, ⟨fun hc => Bool.noConfusion hc, ?_⟩, fun hc => Bool.noConfusion hc⟩
      rintro ⟨j, hj, hlt | ⟨hw, hne⟩⟩
      · exact absurd hj (habove j hlt)
      · by_cases hja : w.hil_index < j
        · exact absurd hj (habove j hja)
        · exact absurd hj (hwrap hw j (by omega))
    · have hq : w.hil_index < k ∨ (env.C_SidebarNextNewWrap = true ∧ k ≠ w.hil_index) := by
        rcases hcase with ⟨hlt, _⟩ | ⟨hw, hlt, _⟩
        · exact Or.inl hlt
        · exact Or.inr ⟨hw, by omega⟩
      refine ⟨_, h, ⟨fun _ => ⟨k, hk, hq⟩, fun _ => rfl⟩, fun _ => ⟨rfl, hk, hq, ?_⟩⟩
      intro j hj hjq
      exact select_next_new_first env w k h0 h1 hk hcase j hj (by
        rcases hjq with hlt | ⟨_, hne⟩
        · omega
        · exact hne)
  · rcases select_prev_new_result env w h0 h1 with ⟨h, hbelow, hwrap⟩ | ⟨k, h, hk, hcase⟩
    · refine ⟨_, h, ⟨fun hc => Bool.noConfusion hc, ?_⟩, fun hc => Bool.noConfusion hc⟩
      rintro ⟨j, hj, hlt | ⟨hw, hne⟩⟩
      · exact absurd hj (hbelow j hlt)
      · by_cases hjb : j < w.hil_index
        · exact absurd hj (hbelow j hjb)
        · exact absurd hj (hwrap hw j (by omega))
    · have hq : k < w.hil_index ∨ (env.C_SidebarNextNewWrap = true ∧ k ≠ w.hil_index) := by
        rcases hcase with ⟨hlt, _⟩ | ⟨hw, hlt, _⟩
        · exact Or.inl hlt
        · exact Or.inr ⟨hw, by omega⟩
      refine ⟨_, h, ⟨fun _ => ⟨k, hk, hq⟩, fun _ => rfl⟩, fun _ => ⟨rfl, hk, hq, ?_⟩⟩
      intro j hj hjq
      exact select_prev_new_first env w k h0 h1 hk hcase j hj (by
        rcases hjq with hlt | ⟨_, hne⟩
        · omega
        · exact hne)

theorem select_new_semantics_witness :
    0 ≤ w_five.hil_index ∧ w_five.hil_index < w_five.entry_count ∧
    (∃ r, select_next_new (env_new_mail true) w_five = .ok r ∧
      (r.2 = true ↔ ∃ j, new_at (env_new_mail true) w_five j ∧
        (w_five.hil_index < j ∨
          ((env_new_mail true).C_SidebarNextNewWrap = true ∧ j ≠ w_five.hil_index))) ∧
      (r.2 = true → r.1 = { w_five with hil_index := r.1.hil_index } ∧
        new_at (env_new_mail true) w_five r.1.hil_index ∧
        (w_five.hil_index < r.1.hil_index ∨
          ((env_new_mail true).C_SidebarNextNewWrap = true ∧
            r.1.hil_index ≠ w_five.hil_index)) ∧
        ∀ j, new_at (env_new_mail true) w_five j →
          (w_five.hil_index < j ∨
            ((env_new_mail true).C_SidebarNextNewWrap = true ∧ j ≠ w_five.hil_index)) →
          fwd_rank w_five r.1.hil_index ≤ fwd_rank w_five j)) ∧
    select_next_new (env_new_mail true) w_five = .ok ({ w_five with hil_index := 1 }, true) ∧
    select_next_new (env_new_mail false) w_five = .ok (w_five, false) ∧
    select_prev_new (env_new_mail false) w_five = .ok ({ w_five with hil_index := 1 }, true) :=
  ⟨by decide, by decide,
   (select_new_semantics (env_new_mail true) w_five (by decide) (by decide)).1,
   by decide, by decide, by decide⟩

/-! ## Frame and totality of the navigator -/

theorem hil_frame_decide (w w2 : SidebarWindowData)
    (h : ∃ k, w2 = { w with hil_index := k }) :
    hil_frame w (w2, decide (w.hil_index ≠ w2.hil_index)) := by
  obtain ⟨k, rfl⟩ := h
  refine ⟨⟨k, rfl⟩, fun hd => ?_⟩
  have hk : w.hil_index = k := by simpa using hd
  show ({ w with hil_index := k } : SidebarWindowData) = w
  rw [← hk]

theorem hil_change_trans (w w1 w2 : SidebarWindowData) (k0 : Int)
    (h1 : ∃ k, w1 = { ({ w with hil_index := k0 } : SidebarWindowData) with hil_index := k })
    (h2 : ∃ k, w2 = { w1 with hil_index := k }) : ∃ k, w2 = { w with hil_index := k } := by
  obtain ⟨k1, rfl⟩ := h1
  obtain ⟨k2, rfl⟩ := h2
  exact ⟨k2, rfl⟩

theorem select_next_frame (w : SidebarWindowData) (r : SidebarWindowData × Bool)
    (h : select_next w = .ok r) : hil_frame w r := by
  unfold select_next at h
  split at h
  · cases h; exact ⟨⟨w.hil_index, rfl⟩, fun _ => rfl⟩
  · split at h
    · cases h
    · cases h; exact ⟨⟨w.hil_index, rfl⟩, fun _ => rfl⟩
    · cases h; exact ⟨⟨_, rfl⟩, fun hc => Bool.noConfusion hc⟩

theorem select_prev_frame (w : SidebarWindowData) (r : SidebarWindowData × Bool)
    (h : select_prev w = .ok r) : hil_frame w r := by
  unfold select_prev at h
  split at h
  · cases h; exact ⟨⟨w.hil_index, rfl⟩, fun _ => rfl⟩
  · split at h
    · cases h
    · cases h; exact ⟨⟨w.hil_index, rfl⟩, fun _ => rfl⟩
    · cases h; exact ⟨⟨_, rfl⟩, fun hc => Bool.noConfusion hc⟩

theorem select_next_new_frame (env : Env) (w : SidebarWindowData)
    (r : SidebarWindowData × Bool) (h : select_next_new env w = .ok r) : hil_frame w r := by
  unfold select_next_new at h
  split at h
  · cases h; exact ⟨⟨w.hil_index, rfl⟩, fun _ => rfl⟩
  · split at h
    · cases h
    · cases h; exact ⟨⟨w.hil_index, rfl⟩, fun _ => rfl⟩
    · cases h; exact ⟨⟨_, rfl⟩, fun hc => Bool.noConfusion hc⟩

theorem select_prev_new_frame (env : Env) (w : SidebarWindowData)
    (r : SidebarWindowData × Bool) (h : select_prev_new env w = .ok r) : hil_frame w r := by
  unfold select_prev_new at h
  split at h
  · cases h; exact ⟨⟨w.hil_index, rfl⟩, fun _ => rfl⟩
  · split at h
    · cases h
    · cases h; exact ⟨⟨w.hil_index, rfl⟩, fun _ => rfl⟩
    · cases h; exact ⟨⟨_, rfl⟩, fun hc => Bool.noConfusion hc⟩

theorem select_page_down_frame (w : SidebarWindowData) (r : SidebarWindowData × Bool)
    (h : select_page_down w = .ok r) : hil_frame w r := by
  unfold select_page_down at h
  split at h
  · cases h; exact ⟨⟨w.hil_index, rfl⟩, fun _ => rfl⟩
  · split at h
    · cases h
    · rename_i r1 hr1
      have f1 := (select_next_frame _ _ hr1).1
      split at h
      · cases h
      · split at h
        · split at h
          · cases h
          · rename_i r2 hr2
            have f2 := (select_prev_frame _ _ hr2).1
            cases h
            exact hil_frame_decide w r2.1 (hil_change_trans w r1.1 r2.1 w.bot_index f1 f2)
        · cases h
          exact hil_frame_decide w r1.1 f1

theorem select_page_up_frame (w : SidebarWindowData) (r : SidebarWindowData × Bool)
    (h : select_page_up w = .ok r) : hil_frame w r := by
  unfold select_page_up at h
  split at h
  · cases h; exact ⟨⟨w.hil_index, rfl⟩, fun _ => rfl⟩
  · split at h
    · cases h
    · rename_i r1 hr1
      have f1 := (select_prev_frame _ _ hr1).1
      split at h
      · cases h
      · split at h
        · split at h
          · cases h
          · rename_i r2 hr2
            have f2 := (select_next_frame _ _ hr2).1
            cases h
            exact hil_frame_decide w r2.1 (hil_change_trans w r1.1 r2.1 w.top_index f1 f2)
        · cases h
          exact hil_frame_decide w r1.1 f1

theorem select_first_frame (w : SidebarWindowData) (r : SidebarWindowData × Bool)
    (h : select_first w = .ok r) : hil_frame w r := by
  unfold select_first at h
  split at h
  · cases h; exact ⟨⟨w.hil_index, rfl⟩, fun _ => rfl⟩
  · split at h
    · cases h
    · split at h
      · split at h
        · cases h
        · rename_i r1 hr1
          have f1 := (select_next_frame _ _ hr1).1
          cases h
          exact hil_frame_decide w _ (hil_change_trans w r1.1 _ 0 f1 ⟨_, rfl⟩)
      · cases h
        exact hil_frame_decide w _ ⟨0, rfl⟩

theorem select_last_frame (w : SidebarWindowData) (r : SidebarWindowData × Bool)
    (h : select_last w = .ok r) : hil_frame w r := by
  unfold select_last at h
  split at h
  · cases h; exact ⟨⟨w.hil_index, rfl⟩, fun _ => rfl⟩
  · split at h
    · cases h
    · rename_i r1 hr1
      have f1 := (select_prev_frame _ _ hr1).1
      cases h
      exact hil_frame_decide w _ (hil_change_trans w r1.1 _ w.entry_count f1 ⟨_, rfl⟩)

theorem select_next_in_range (w : SidebarWindowData) (h0 : 0 ≤ w.hil_index)
    (h1 : w.hil_index < w.entry_count) :
    ∃ k b, select_next w = .ok ({ w with hil_index := k }, b) ∧ 0 ≤ k ∧ k < w.entry_count := by
  rcases select_next_result w h0 h1 with ⟨h, _⟩ | ⟨k, h, hk1, hk2, _⟩
  · exact ⟨w.hil_index, false, h, h0, h1⟩
  · exact ⟨k, true, h, by omega, hk2⟩

theorem select_prev_in_range (w : SidebarWindowData) (h0 : 0 ≤ w.hil_index)
    (h1 : w.hil_index < w.entry_count) :
    ∃ k b, select_prev w = .ok ({ w with hil_index := k }, b) ∧ 0 ≤ k ∧ k < w.entry_count := by
  rcases select_prev_result w h0 (by omega) (by omega) with ⟨h, _⟩ | ⟨k, h, hk1, hk2, _⟩
  · exact ⟨w.hil_index, false, h, h0, h1⟩
  · exact ⟨k, true, h, hk1, by omega⟩

theorem select_next_total (w : SidebarWindowData) (h : cursor_ok w.entry_count w.hil_index) :
    ∃ r, select_next w = .ok r := by
  rcases h with h | ⟨h0, h1⟩
  · exact ⟨(w, false), by unfold select_next; simp [h]⟩
  · obtain ⟨k, b, hk, _⟩ := select_next_in_range w h0 h1
    exact ⟨_, hk⟩

theorem select_prev_total (w : SidebarWindowData) (h : cursor_ok w.entry_count w.hil_index) :
    ∃ r, select_prev w = .ok r := by
  rcases h with h | ⟨h0, h1⟩
  · exact ⟨(w, false), by unfold select_prev; simp [h]⟩
  · obtain ⟨k, b, hk, _⟩ := select_prev_in_range w h0 h1
    exact ⟨_, hk⟩

theorem select_next_new_total (env : Env) (w : SidebarWindowData)
    (h : cursor_ok w.entry_count w.hil_index) : ∃ r, select_next_new env w = .ok r := by
  rcases h with h | ⟨h0, h1⟩
  · exact ⟨(w, false), by unfold select_next_new; simp [h]⟩
  · rcases select_next_new_result env w h0 h1 with ⟨h, _⟩ | ⟨k, h, _⟩
    · exact ⟨_, h⟩
    · exact ⟨_, h⟩

theorem select_prev_new_total (env : Env) (w : SidebarWindowData)
    (h : cursor_ok w.entry_count w.hil_index) : ∃ r, select_prev_new env w = .ok r := by
  rcases h with h | ⟨h0, h1⟩
  · exact ⟨(w, false), by unfold select_prev_new; simp [h]⟩
  · rcases select_prev_new_result env w h0 h1 with ⟨h, _⟩ | ⟨k, h, _⟩
    · exact ⟨_, h⟩
    · exact ⟨_, h⟩

theorem select_page_down_total (w : SidebarWindowData)
    (h : cursor_ok w.entry_count w.bot_index) : ∃ r, select_page_down w = .ok r := by
  rcases h with h | ⟨h0, h1⟩
  · exact ⟨(w, false), by unfold select_page_down; simp [h]⟩
  · unfold select_page_down
    have hg : ¬ (w.entry_count = 0 ∨ w.bot_index < 0) := by omega
    simp only [hg, if_false]
    obtain ⟨k, b, hk, hk0, hk1⟩ := select_next_in_range { w with hil_index := w.bot_index } h0 h1
    simp only [hk]
    obtain ⟨e, he, _⟩ := entry_at_ok w k hk0 hk1
    have he2 : entry_at { w with hil_index := k } k = .ok e := he
    simp only [he2]
    by_cases hh : e.is_hidden = true
    · simp only [hh, if_true]
      obtain ⟨k2, b2, hk2, _⟩ := select_prev_in_range { w with hil_index := k } hk0 hk1
      simp only [hk2]
      exact ⟨_, rfl⟩
    · have hfl : e.is_hidden = false := by simpa using hh
      simp only [hfl, Bool.false_eq_true, if_false]
      exact ⟨_, rfl⟩

theorem select_page_up_total (w : SidebarWindowData)
    (h : cursor_ok w.entry_count w.top_index) : ∃ r, select_page_up w = .ok r := by
  rcases h with h | ⟨h0, h1⟩
  · exact ⟨(w, false), by unfold select_page_up; simp [h]⟩
  · unfold select_page_up
    have hg : ¬ (w.entry_count = 0 ∨ w.top_index < 0) := by omega
    simp only [hg, if_false]
    obtain ⟨k, b, hk, hk0, hk1⟩ := select_prev_in_range { w with hil_index := w.top_index } h0 h1
    simp only [hk]
    obtain ⟨e, he, _⟩ := entry_at_ok w k hk0 hk1
    have he2 : entry_at { w with hil_index := k } k = .ok e := he
    simp only [he2]
    by_cases hh : e.is_hidden = true
    · simp only [hh, if_true]
      obtain ⟨k2, b2, hk2, _⟩ := select_next_in_range { w with hil_index := k } hk0 hk1
      simp only [hk2]
      exact ⟨_, rfl⟩
    · have hfl : e.is_hidden = false := by simpa using hh
      simp only [hfl, Bool.false_eq_true, if_false]
      exact ⟨_, rfl⟩

theorem select_first_total (w : SidebarWindowData) : ∃ r, select_first w = .ok r := by
  by_cases hg : w.entry_count = 0 ∨ w.hil_index < 0
  · exact ⟨(w, false), by unfold select_first; simp only [hg, if_true]⟩
  · rcases select_first_result w (by unfold SidebarWindowData.entry_count at *; omega)
        (by omega) with ⟨h, _⟩ | ⟨k, h, _⟩
    · exact ⟨_, h⟩
    · exact ⟨_, h⟩

theorem select_last_total (w : SidebarWindowData) : ∃ r, select_last w = .ok r := by
  by_cases hg : w.entry_count = 0 ∨ w.hil_index < 0
  · exact ⟨(w, false), by unfold select_last; simp only [hg, if_true]⟩
  · rcases select_last_result w (by unfold SidebarWindowData.entry_count at *; omega)
        (by omega) with ⟨h, _⟩ | ⟨k, h, _⟩
    · exact ⟨_, h⟩
    · exact ⟨_, h⟩

/-- C21: each of the eight navigator operations returns a store that differs
from its argument in `hil_index` at most (entries with their hidden flags,
`entry_count`, `top_index`, `bot_index` and `opn_index` are untouched), and the
store itself when the operation returns false; with every cursor unset or in
range each operation does return. -/
theorem navigator_frame (env : Env) (w : SidebarWindowData) :
    (∀ r, select_next w = .ok r → hil_frame w r) ∧
    (∀ r, select_prev w = .ok r → hil_frame w r) ∧
    (∀ r, select_next_new env w = .ok r → hil_frame w r) ∧
    (∀ r, select_prev_new env w = .ok r → hil_frame w r) ∧
    (∀ r, select_page_down w = .ok r → hil_frame w r) ∧
    (∀ r, select_page_up w = .ok r → hil_frame w r) ∧
    (∀ r, select_first w = .ok r → hil_frame w r) ∧
    (∀ r, select_last w = .ok r → hil_frame w r) ∧
    (cursors_ok w →
      (∃ r, select_next w = .ok r) ∧ (∃ r, select_prev w = .ok r) ∧
      (∃ r, select_next_new env w = .ok r) ∧ (∃ r, select_prev_new env w = .ok r) ∧
      (∃ r, select_page_down w = .ok r) ∧ (∃ r, select_page_up w = .ok r) ∧
      (∃ r, select_first w = .ok r) ∧ (∃ r, select_last w = .ok r)) :=
  ⟨select_next_frame w, select_prev_frame w, select_next_new_frame env w,
   select_prev_new_frame env w, select_page_down_frame w, select_page_up_frame w,
   select_first_frame w, select_last_frame w,
   fun ⟨ht, hb, _, hh⟩ =>
     ⟨select_next_total w hh, select_prev_total w hh, select_next_new_total env w hh,
      select_prev_new_total env w hh, select_page_down_total w hb, select_page_up_total w ht,
      select_first_total w, select_last_total w⟩⟩

theorem navigator_frame_witness :
    cursors_ok w_flags ∧
    (∃ r, select_page_down w_flags = .ok r ∧ hil_frame w_flags r) ∧
    (∃ r, select_next_new (env_new_mail false) w_five = .ok r ∧ r.2 = false ∧ r.1 = w_five) :=
  ⟨by decide,
   ((navigator_frame env_plain w_flags).2.2.2.2.2.2.2.2 (by decide)).2.2.2.2.1.elim
     (fun r hr => ⟨r, hr, (navigator_frame env_plain w_flags).2.2.2.2.1 r hr⟩),
   ⟨(w_five, false), by decide, rfl, rfl⟩⟩

/-- C28: on an empty store each of the eight navigator operations returns false
and the store unchanged, whatever the cursors; `sb_get_highlight` returns no
mailbox (`0`) when the store is empty or the highlight is unset, and with the
sidebar visible and the highlight on an entry it returns that entry's mailbox. -/
theorem navigator_empty (env : Env) (w : SidebarWindowData) :
    (w.entry_count = 0 →
      select_next w = .ok (w, false) ∧ select_prev w = .ok (w, false) ∧
      select_next_new env w = .ok (w, false) ∧ select_prev_new env w = .ok (w, false) ∧
      select_page_down w = .ok (w, false) ∧ select_page_up w = .ok (w, false) ∧
      select_first w = .ok (w, false) ∧ select_last w = .ok (w, false)) ∧
    (w.entry_count = 0 ∨ w.hil_index < 0 → sb_get_highlight env w = .ok 0) ∧
    (env.C_SidebarVisible = true → w.entry_count ≠ 0 → 0 ≤ w.hil_index →
      w.hil_index < w.entry_count →
      ∃ e, w.entries[w.hil_index.toNat]? = some e ∧
        sb_get_highlight env w = .ok e.mailbox) := by
  refine ⟨fun h => ?_, fun h => ?_, fun hv hc h0 h1 => ?_⟩
  · unfold select_next select_prev select_next_new select_prev_new select_page_down
      select_page_up select_first select_last
    simp only [h, true_or, if_true, and_self]
  · unfold sb_get_highlight
    simp only [h, if_true, ite_self]
  · obtain ⟨e, he, hget⟩ := entry_at_ok w w.hil_index h0 h1
    refine ⟨e, hget, ?_⟩
    unfold sb_get_highlight
    have hg : ¬ (w.entry_count = 0 ∨ w.hil_index < 0) := by omega
    simp only [hv, Bool.true_eq_false, if_false, hg, he]

theorem navigator_empty_witness :
    w_empty.entry_count = 0 ∧
    select_page_down w_empty = .ok (w_empty, false) ∧
    select_last w_empty = .ok (w_empty, false) ∧
    sb_get_highlight env_plain w_empty = .ok 0 ∧
    (∃ e, w_three.entries[w_three.hil_index.toNat]? = some e ∧
      sb_get_highlight env_plain w_three = .ok e.mailbox) ∧
    sb_get_highlight env_plain w_three = .ok 2 :=
  ⟨by decide, ((navigator_empty env_plain w_empty).1 (by decide)).2.2.2.2.1,
   ((navigator_empty env_plain w_empty).1 (by decide)).2.2.2.2.2.2.2,
   (navigator_empty env_plain w_empty).2.1 (by decide),
   (navigator_empty env_plain w_three).2.2 (by decide) (by decide) (by decide) (by decide),
   by decide⟩

/-! ## The divider fallback -/

theorem calc_divider_ascii_utf8 (env : Env) (w : SidebarWindowData)
    (h : w.divider_type = DivType.SB_DIV_UTF8) :
    calc_divider_ascii env w = .ok { w with divider_type :=
      if env.C_AsciiChars = true then DivType.SB_DIV_ASCII else DivType.SB_DIV_UTF8 } := by
  unfold calc_divider_ascii
  by_cases ha : env.C_AsciiChars = true
  · simp [ha, h]
  · have hf : env.C_AsciiChars = false := by simpa using ha
    simp only [hf, Bool.false_eq_true, false_and, if_false]
    cases w
    simp only at h
    simp only [h]

/-- C29 (amended): when the divider option is unset or malformed (set, with a
negative measured width), `calc_divider` selects a single fallback character:
`divider_width = 1` and `divider_type` is `SB_DIV_ASCII` with `$ascii_chars` and
`SB_DIV_UTF8` without.  When the option is set to a string of measured width 0
(the empty string) it returns with `divider_width = 0` and `divider_type =
SB_DIV_UTF8`.  In each of these cases the type is not `SB_DIV_USER` and no
other field changes. -/
theorem calc_divider_fallback (env : Env) (w : SidebarWindowData)
    (h : env.C_SidebarDividerChar = none ∨
      ∃ s, env.C_SidebarDividerChar = some s ∧ env.mutt_strwidth s ≤ 0) :
    ∃ w2, calc_divider env w = .ok w2 ∧
      w2 = { w with divider_type := w2.divider_type, divider_width := w2.divider_width } ∧
      w2.divider_type ≠ DivType.SB_DIV_USER ∧
      ((env.C_SidebarDividerChar = none ∨
          ∃ s, env.C_SidebarDividerChar = some s ∧ env.mutt_strwidth s < 0) →
        w2.divider_width = 1 ∧ w2.divider_type =
          if env.C_AsciiChars = true then DivType.SB_DIV_ASCII else DivType.SB_DIV_UTF8) ∧
      ((∃ s, env.C_SidebarDividerChar = some s ∧ env.mutt_strwidth s = 0) →
        w2.divider_width = 0 ∧ w2.divider_type = DivType.SB_DIV_UTF8) := by
  have htype : (if env.C_AsciiChars = true then DivType.SB_DIV_ASCII else DivType.SB_DIV_UTF8)
      ≠ DivType.SB_DIV_USER := by
    split <;> decide
  rcases h with hnone | ⟨s, hs, hw⟩
  · refine ⟨{ w with divider_width := 1, divider_type :=
      if env.C_AsciiChars = true then DivType.SB_DIV_ASCII else DivType.SB_DIV_UTF8 },
      ?_, rfl, htype, fun _ => ⟨rfl, rfl⟩, ?_⟩
    · unfold calc_divider
      simp only [hnone, lt_self_iff_false, if_false, if_true, Option.isSome_none,
        Bool.false_eq_true]
      rw [calc_divider_ascii_utf8 env _ rfl]
    · rintro ⟨s, hs, _⟩
      rw [hnone] at hs
      cases hs
  · by_cases hneg : env.mutt_strwidth s < 0
    · refine ⟨{ w with divider_width := 1, divider_type :=
        if env.C_AsciiChars = true then DivType.SB_DIV_ASCII else DivType.SB_DIV_UTF8 },
        ?_, rfl, htype, fun _ => ⟨rfl, rfl⟩, ?_⟩
      · unfold calc_divider
        simp only [hs, hneg, if_true]
        rw [calc_divider_ascii_utf8 env _ rfl]
      · rintro ⟨s2, hs2, hz⟩
        rw [hs] at hs2
        cases hs2
        omega
    · have hz : env.mutt_strwidth s = 0 := by omega
      refine ⟨{ w with divider_width := 0, divider_type := DivType.SB_DIV_UTF8 },
        ?_, rfl, fun hc => DivType.noConfusion hc, ?_, fun _ => ⟨rfl, rfl⟩⟩
      · unfold calc_divider
        simp only [hs, hz, lt_self_iff_false, if_false, if_true, Option.isSome_some]
      · rintro (hn | ⟨s2, hs2, hlt⟩)
        · rw [hs] at hn
          cases hn
        · rw [hs] at hs2
          cases hs2
          omega

theorem calc_divider_fallback_witness :
    (∃ s, env_divider_bad.C_SidebarDividerChar = some s ∧
      env_divider_bad.mutt_strwidth s ≤ 0) ∧
    (calc_divider env_divider_bad w_one).map (fun w => (w.divider_type, w.divider_width)) =
      .ok (DivType.SB_DIV_ASCII, 1) ∧
    (calc_divider env_plain w_one).map (fun w => (w.divider_type, w.divider_width)) =
      .ok (DivType.SB_DIV_UTF8, 1) ∧
    ∃ w2, calc_divider env_divider_bad w_one = .ok w2 ∧
      w2 = { w_one with divider_type := w2.divider_type,
                        divider_width := w2.divider_width } ∧
      w2.divider_type ≠ DivType.SB_DIV_USER ∧
      ((env_divider_bad.C_SidebarDividerChar = none ∨
          ∃ s, env_divider_bad.C_SidebarDividerChar = some s ∧
            env_divider_bad.mutt_strwidth s < 0) →
        w2.divider_width = 1 ∧ w2.divider_type =
          if env_divider_bad.C_AsciiChars = true then DivType.SB_DIV_ASCII
          else DivType.SB_DIV_UTF8) ∧
      ((∃ s, env_divider_bad.C_SidebarDividerChar = some s ∧
          env_divider_bad.mutt_strwidth s = 0) →
        w2.divider_width = 0 ∧ w2.divider_type = DivType.SB_DIV_UTF8) :=
  ⟨⟨[0xFF], rfl, by decide⟩, by decide, by decide,
   calc_divider_fallback env_divider_bad w_one (Or.inr ⟨[0xFF], rfl, by decide⟩)⟩

/-- C29 (counterexample): with the divider option set to the empty string, whose
measured width is 0, `calc_divider` returns with `divider_width = 0`, not 1. -/
theorem calc_divider_fallback_counterexample :
    env_divider_empty.C_SidebarDividerChar = some [] ∧
    env_divider_empty.mutt_strwidth [] ≤ 0 ∧
    (calc_divider env_divider_empty w_one).map (fun w => (w.divider_type, w.divider_width)) =
      .ok (DivType.SB_DIV_UTF8, 0) ∧
    ¬ ∃ w2, calc_divider env_divider_empty w_one = .ok w2 ∧ w2.divider_width = 1 := by
  refine ⟨rfl, by decide, by decide, ?_⟩
  rintro ⟨w2, h, hw⟩
  have h2 : calc_divider env_divider_empty w_one =
      .ok { w_one with divider_type := DivType.SB_DIV_UTF8, divider_width := 0 } := by decide
  rw [h2] at h
  cases h
  exact absurd hw (by decide)

/-! ## Splitting a string into a list -/

theorem join_fields_cons (sep : Char) (f : List Char) (fs : List (List Char))
    (h : fs ≠ []) : join_fields sep (f :: fs) = f ++ sep :: join_fields sep fs := by
  cases fs with
  | nil => exact absurd rfl h
  | cons g rest => rfl

theorem str_split_loop_spec (sep : Char) (s field : List Char) (head : List (List Char))
    (count : Nat) :
    ∃ fields, str_split_loop sep s field head count =
        (count + (s.count sep + 1), head ++ fields) ∧
      fields.length = s.count sep + 1 ∧
      (sep ∉ field → ∀ f ∈ fields, sep ∉ f) ∧
      join_fields sep fields = field ++ s := by
  induction s generalizing field head count with
  | nil =>
    refine ⟨[field], ?_, ?_, ?_, ?_⟩
    · simp only [str_split_loop, List.count_nil, zero_add]
    · simp only [List.length_singleton, List.count_nil, zero_add]
    · intro hf f hmem
      rw [List.mem_singleton] at hmem
      rw [hmem]; exact hf
    · simp only [join_fields, List.append_nil]
  | cons c rest ih =>
    by_cases hc : c = sep
    · obtain ⟨fields, h1, h2, h3, h4⟩ := ih [] (head ++ [field]) (count + 1)
      refine ⟨field :: fields, ?_, ?_, ?_, ?_⟩
      · simp only [str_split_loop, hc, if_true, h1, List.count_cons_self, List.append_assoc,
          List.singleton_append, Prod.mk.injEq, and_true]
        omega
      · simp only [List.length_cons, h2, hc, List.count_cons_self]
      · intro hf f hmem
        rcases List.mem_cons.mp hmem with hmem | hmem
        · rw [hmem]; exact hf
        · exact h3 (List.not_mem_nil sep) f hmem
      · have hne : fields ≠ [] := by
          intro hnil
          rw [hnil] at h2
          simp at h2
        rw [join_fields_cons sep field fields hne, h4, hc, List.nil_append]
    · obtain ⟨fields, h1, h2, h3, h4⟩ := ih (field ++ [c]) head count
      have hcount : (c :: rest).count sep = rest.count sep := by
        rw [List.count_cons_of_ne (fun h => hc h.symm)]
      refine ⟨fields, ?_, ?_, ?_, ?_⟩
      · simp only [str_split_loop, hc, if_false, h1, hcount]
      · rw [h2, hcount]
      · intro hf
        refine h3 ?_
        intro hmem
        rcases List.mem_append.mp hmem with hm | hm
        · exact hf hm
        · rw [List.mem_singleton] at hm
          exact hc hm.symm
      · rw [h4, List.append_assoc, List.singleton_append]

/-- C30: for a non-empty `src`, `mutt_list_str_split` returns `k + 1`, where `k`
counts the occurrences of `sep` in `src`, and appends `k + 1` fields to the
list, none of which contains `sep` and which joined with `sep` give back `src`
(so a leading or trailing separator gives an empty field); for a `NULL` or
empty `src` it returns 0 and leaves the list as it was. -/
theorem mutt_list_str_split_spec (src : List Char) (sep : Char) (head : List (List Char)) :
    (src ≠ [] → ∃ fields,
      mutt_list_str_split (some src) sep head = (src.count sep + 1, head ++ fields) ∧
      fields.length = src.count sep + 1 ∧ (∀ f ∈ fields, sep ∉ f) ∧
      join_fields sep fields = src) ∧
    mutt_list_str_split none sep head = (0, head) ∧
    mutt_list_str_split (some []) sep head = (0, head) := by
  refine ⟨fun hne => ?_, rfl, rfl⟩
  cases src with
  | nil => exact absurd rfl hne
  | cons c rest =>
    obtain ⟨fields, h1, h2, h3, h4⟩ := str_split_loop_spec sep (c :: rest) [] head 0
    refine ⟨fields, ?_, h2, h3 (List.not_mem_nil sep), ?_⟩
    · simp only [mutt_list_str_split, h1, zero_add]
    · rw [h4, List.nil_append]

theorem mutt_list_str_split_spec_witness :
    "hello world ".toList ≠ [] ∧
    (∃ fields, mutt_list_str_split (some "hello world ".toList) ' ' [] =
        ("hello world ".toList.count ' ' + 1, [] ++ fields) ∧
      fields.length = "hello world ".toList.count ' ' + 1 ∧ (∀ f ∈ fields, ' ' ∉ f) ∧
      join_fields ' ' fields = "hello world ".toList) ∧
    mutt_list_str_split (some "hello world ".toList) ' ' [] =
      (3, ["hello".toList, "world".toList, []]) :=
  ⟨by decide, (mutt_list_str_split_spec "hello world ".toList ' ' []).1 (by decide), by decide⟩

/-- The vectors of `test_mutt_list_str_split` (test/list/mutt_list_str_split.c:45). -/
theorem mutt_list_str_split_test_vectors :
    mutt_list_str_split none ',' [] = (0, []) ∧
    mutt_list_str_split none ' ' [] = (0, []) ∧
    mutt_list_str_split (some "".toList) ' ' [] = (0, []) ∧
    mutt_list_str_split (some "hello".toList) ' ' [] = (1, ["hello".toList]) ∧
    mutt_list_str_split (some "hello world".toList) ' ' [] =
      (2, ["hello".toList, "world".toList]) ∧
    mutt_list_str_split (some "hello neomutt world! what's up?".toList) ' ' [] =
      (5, ["hello".toList, "neomutt".toList, "world!".toList, "what's".toList,
           "up?".toList]) ∧
    mutt_list_str_split (some "hello world ".toList) ' ' [] =
      (3, ["hello".toList, "world".toList, "".toList]) ∧
    mutt_list_str_split (some " hello world".toList) ' ' [] =
      (3, ["".toList, "hello".toList, "world".toList]) ∧
    mutt_list_str_split (some "hello,world".toList) ',' [] =
      (2, ["hello".toList, "world".toList]) := by
  decide

/-! ## The visibility fast path -/

theorem hidden_flag_no_filter (env : Env) (m : Nat) (at_opn : Bool)
    (h1 : env.C_SidebarNewMailOnly = false) (h2 : env.C_SidebarNonEmptyMailboxOnly = false) :
    hidden_flag env m at_opn = false := by
  unfold hidden_flag
  simp only [h1, h2, Bool.false_and, Bool.or_self, ite_self]

theorem visibility_loop_no_filter (env : Env) (opn : Int) (es : List SbEntry) (i : Nat)
    (h1 : env.C_SidebarNewMailOnly = false) (h2 : env.C_SidebarNonEmptyMailboxOnly = false) :
    visibility_loop env opn i es = es.map (fun sbe => { sbe with is_hidden := false }) := by
  induction es generalizing i with
  | nil => rfl
  | cons e rest ih =>
    simp only [visibility_loop, List.map_cons, ih (i + 1), entry_visibility_eq,
      hidden_flag_no_filter env _ _ h1 h2]

/-- C35: with neither the new-mail-only nor the non-empty-only filter enabled,
`update_entries_visibility` leaves every entry unhidden, whatever its counts
and previous flag, changes nothing else, and its result is the one the general
per-entry loop computes under the same (filter-free) configuration. -/
theorem update_entries_visibility_fast_path (env : Env) (w : SidebarWindowData)
    (h1 : env.C_SidebarNewMailOnly = false) (h2 : env.C_SidebarNonEmptyMailboxOnly = false) :
    (∀ e ∈ (update_entries_visibility env w).entries, e.is_hidden = false) ∧
    update_entries_visibility env w =
      { w with entries := w.entries.map (fun sbe => { sbe with is_hidden := false }) } ∧
    update_entries_visibility env w =
      { w with entries := visibility_loop env w.opn_index 0 w.entries } := by
  have hfast : update_entries_visibility env w =
      { w with entries := w.entries.map (fun sbe => { sbe with is_hidden := false }) } := by
    unfold update_entries_visibility
    simp only [h1, h2, and_self, if_true]
  refine ⟨?_, hfast, ?_⟩
  · rw [hfast]
    intro e he
    obtain ⟨e0, _, rfl⟩ := List.mem_map.mp he
    rfl
  · rw [hfast, visibility_loop_no_filter env w.opn_index w.entries 0 h1 h2]

theorem update_entries_visibility_fast_path_witness :
    env_plain.C_SidebarNewMailOnly = false ∧ env_plain.C_SidebarNonEmptyMailboxOnly = false ∧
    w_flags.entries.map (fun e => e.is_hidden) = [true, false, true, false, false] ∧
    (update_entries_visibility env_plain w_flags).entries.map (fun e => e.is_hidden) =
      [false, false, false, false, false] ∧
    update_entries_visibility env_plain w_flags =
      { w_flags with entries := visibility_loop env_plain w_flags.opn_index 0 w_flags.entries } :=
  ⟨by decide, by decide, by decide, by decide,
   (update_entries_visibility_fast_path env_plain w_flags (by decide) (by decide)).2.2⟩

/-! ## Comparator arithmetic -/

/-- C37: in a numeric sort mode, for two entries whose compared counts lie in
`[0, 2^31 - 1]`, the 32-bit subtraction of `cb_qsort_sbe` does not wrap, so its
result is negative exactly when the first mailbox has the larger count and
positive exactly when it has the smaller; for different counts it is what the
comparator returns (negated under the reverse flag); and the comparator's
results for `(a, b)` and `(b, a)` have opposite signs, where for equal counts
the collation of the two paths is taken to change sign with its arguments. -/
theorem cb_qsort_sbe_arithmetic (env : Env) (a b : SbEntry) (hmode : numeric_mode env)
    (ha : 0 ≤ numeric_key env a.mailbox ∧ numeric_key env a.mailbox ≤ 2147483647)
    (hb : 0 ≤ numeric_key env b.mailbox ∧ numeric_key env b.mailbox ≤ 2147483647)
    (hcoll : numeric_key env a.mailbox = numeric_key env b.mailbox →
      (env.strcoll (entry_path env a) (entry_path env b) < 0 ↔
        0 < env.strcoll (entry_path env b) (entry_path env a)) ∧
      (0 < env.strcoll (entry_path env a) (entry_path env b) ↔
        env.strcoll (entry_path env b) (entry_path env a) < 0)) :
    wrap32 (numeric_key env b.mailbox - numeric_key env a.mailbox) =
      numeric_key env b.mailbox - numeric_key env a.mailbox ∧
    (wrap32 (numeric_key env b.mailbox - numeric_key env a.mailbox) < 0 ↔
      numeric_key env b.mailbox < numeric_key env a.mailbox) ∧
    (0 < wrap32 (numeric_key env b.mailbox - numeric_key env a.mailbox) ↔
      numeric_key env a.mailbox < numeric_key env b.mailbox) ∧
    (numeric_key env a.mailbox ≠ numeric_key env b.mailbox →
      cb_qsort_sbe env a b =
        if env.C_SidebarSortMethod &&& SORT_REVERSE ≠ 0
          then -wrap32 (numeric_key env b.mailbox - numeric_key env a.mailbox)
          else wrap32 (numeric_key env b.mailbox - numeric_key env a.mailbox)) ∧
    (cb_qsort_sbe env a b < 0 ↔ 0 < cb_qsort_sbe env b a) ∧
    (0 < cb_qsort_sbe env a b ↔ cb_qsort_sbe env b a < 0) := by
  have hw1 := wrap32_eq_self (numeric_key env b.mailbox - numeric_key env a.mailbox)
    (by omega) (by omega)
  have hw2 := wrap32_eq_self (numeric_key env a.mailbox - numeric_key env b.mailbox)
    (by omega) (by omega)
  have hab := cb_qsort_sbe_numeric env a b hmode
  have hba := cb_qsort_sbe_numeric env b a hmode
  refine ⟨hw1, ?_, ?_, fun hne => ?_, ?_, ?_⟩
  · rw [hw1]; omega
  · rw [hw1]; omega
  · have hne2 : ¬ (numeric_key env b.mailbox = numeric_key env a.mailbox) :=
      fun h => hne h.symm
    rw [hab]
    simp only [hne2, if_false]
  · by_cases htie : numeric_key env a.mailbox = numeric_key env b.mailbox
    · obtain ⟨c1, c2⟩ := hcoll htie
      rw [hab, hba]
      simp only [htie, if_true]
      split <;> omega
    · have hne2 : ¬ (numeric_key env b.mailbox = numeric_key env a.mailbox) :=
        fun h => htie h.symm
      rw [hab, hba]
      simp only [htie, hne2, if_false, hw1, hw2]
      split <;> omega
  · by_cases htie : numeric_key env a.mailbox = numeric_key env b.mailbox
    · obtain ⟨c1, c2⟩ := hcoll htie
      rw [hab, hba]
      simp only [htie, if_true]
      split <;> omega
    · have hne2 : ¬ (numeric_key env b.mailbox = numeric_key env a.mailbox) :=
        fun h => htie h.symm
      rw [hab, hba]
      simp only [htie, hne2, if_false, hw1, hw2]
      split <;> omega

theorem cb_qsort_sbe_arithmetic_witness :
    numeric_mode env_scenario_b ∧
    (0 ≤ numeric_key env_scenario_b (mk_entry 101 1).mailbox ∧
      numeric_key env_scenario_b (mk_entry 101 1).mailbox ≤ 2147483647) ∧
    (0 ≤ numeric_key env_scenario_b (mk_entry 103 3).mailbox ∧
      numeric_key env_scenario_b (mk_entry 103 3).mailbox ≤ 2147483647) ∧
    cb_qsort_sbe env_scenario_b (mk_entry 101 1) (mk_entry 103 3) = 3 ∧
    cb_qsort_sbe env_scenario_b (mk_entry 103 3) (mk_entry 101 1) = -3 ∧
    (cb_qsort_sbe env_scenario_b (mk_entry 101 1) (mk_entry 103 3) < 0 ↔
      0 < cb_qsort_sbe env_scenario_b (mk_entry 103 3) (mk_entry 101 1)) :=
  ⟨by decide, by decide, by decide, by decide, by decide,
   (cb_qsort_sbe_arithmetic env_scenario_b (mk_entry 101 1) (mk_entry 103 3) (by decide)
     (by decide) (by decide) (fun h => absurd h (by decide))).2.2.2.2.1⟩

/-- Equal counts are ordered by the path collation: sorting by unread count,
mailboxes 2 and 1 both have 2 unread messages and the comparator returns the
collation of their paths `a` and `b`; the reverse flag negates the result. -/
theorem cb_qsort_sbe_tie_example :
    numeric_key env_scenario_b (mk_entry 102 2).mailbox = 2 ∧
    numeric_key env_scenario_b (mk_entry 101 1).mailbox = 2 ∧
    cb_qsort_sbe env_scenario_b (mk_entry 102 2) (mk_entry 101 1) < 0 ∧
    0 < cb_qsort_sbe env_scenario_b (mk_entry 101 1) (mk_entry 102 2) ∧
    0 < cb_qsort_sbe { env_scenario_b with C_SidebarSortMethod := SORT_UNREAD ||| SORT_REVERSE }
      (mk_entry 103 3) (mk_entry 101 1) := by
  decide

/-! ## Path abbreviation -/

theorem strchr_some (s : List Char) (c : Char) (m : List Char) (h : strchr s c = some m) :
    ∃ p r, s = p ++ c :: r ∧ m = c :: r ∧ c ∉ p := by
  induction s with
  | nil => simp [strchr] at h
  | cons x rest ih =>
    simp only [strchr] at h
    by_cases hx : x = c
    · simp only [hx, if_true, Option.some.injEq] at h
      exact ⟨[], rest, by rw [hx]; rfl, h.symm, List.not_mem_nil c⟩
    · simp only [hx, if_false] at h
      obtain ⟨p, r, h1, h2, h3⟩ := ih h
      refine ⟨x :: p, r, by rw [h1]; rfl, h2, ?_⟩
      intro hmem
      rcases List.mem_cons.mp hmem with hc | hc
      · exact hx hc.symm
      · exact h3 hc

theorem strchr_none (s : List Char) (c : Char) (h : strchr s c = none) : c ∉ s := by
  induction s with
  | nil => exact List.not_mem_nil c
  | cons x rest ih =>
    simp only [strchr] at h
    by_cases hx : x = c
    · simp [hx] at h
    · simp only [hx, if_false] at h
      intro hmem
      rcases List.mem_cons.mp hmem with hc | hc
      · exact hx hc.symm
      · exact ih h hc

theorem strchr_append (p r : List Char) (c : Char) (h : c ∉ p) :
    strchr (p ++ c :: r) c = some (c :: r) := by
  induction p with
  | nil => simp [strchr]
  | cons x rest ih =>
    have hx : ¬ (x = c) := fun hxc => h (hxc ▸ List.mem_cons_self x rest)
    simp only [List.cons_append, strchr, hx, if_false]
    exact ih (fun hm => h (List.mem_cons_of_mem x hm))

/-- What `abbrev_url` computes for the four URL mailbox types on a string of at
least 10 characters: the part after the first split character at index 10 or
later, the whole string when there is none. -/
theorem abbrev_url_skip (s : List Char) (type : MailboxType) (hlen : 10 ≤ s.length)
    (htype : type = MailboxType.MUTT_NNTP ∨ type = MailboxType.MUTT_IMAP ∨
      type = MailboxType.MUTT_NOTMUCH ∨ type = MailboxType.MUTT_POP)
    (split : Char)
    (hsplit : split = if type = MailboxType.MUTT_NOTMUCH then '?' else '/') :
    (∀ p r, s.drop 10 = p ++ split :: r → split ∉ p → abbrev_url (some s) type = some r) ∧
    (split ∉ s.drop 10 → abbrev_url (some s) type = some s) := by
  have hguard : ¬ (mutt_str_strlen (some s) < 10 ∨ (type ≠ MailboxType.MUTT_NNTP ∧
      type ≠ MailboxType.MUTT_IMAP ∧ type ≠ MailboxType.MUTT_NOTMUCH ∧
      type ≠ MailboxType.MUTT_POP)) := by
    rintro (h | ⟨h1, h2, h3, h4⟩)
    · have hl : mutt_str_strlen (some s) = s.length := rfl
      omega
    · rcases htype with h | h | h | h
      · exact h1 h
      · exact h2 h
      · exact h3 h
      · exact h4 h
  constructor
  · intro p r hdrop hp
    unfold abbrev_url
    simp only [hguard, if_false, ← hsplit, hdrop, strchr_append p r split hp, List.tail_cons]
  · intro hno
    unfold abbrev_url
    simp only [hguard, if_false, ← hsplit]
    cases hs : strchr (List.drop 10 s) split with
    | none => rfl
    | some m =>
      obtain ⟨p, r, h1, _, _⟩ := strchr_some _ _ _ hs
      exact absurd (h1 ▸ List.mem_append_right p (List.mem_cons_self split r)) hno

/-- C36: `abbrev_url` returns `apple/banana` for `imap://user@host.com/apple/banana`
and the query for a Notmuch URL, and returns other mailbox types and strings
shorter than 10 characters unchanged; but for the IMAP URL `imap://h/apple/banana`,
whose host ends before index 10, it returns `banana`, not the path
`apple/banana`. -/
theorem abbrev_url_short_host :
    abbrev_url (some "imap://user@host.com/apple/banana".toList) MailboxType.MUTT_IMAP =
      some "apple/banana".toList ∧
    abbrev_url (some "notmuch:///home/user/db?query=hello".toList) MailboxType.MUTT_NOTMUCH =
      some "query=hello".toList ∧
    (∀ s : Option (List Char), ∀ type, mutt_str_strlen s < 10 ∨
        (type ≠ MailboxType.MUTT_NNTP ∧ type ≠ MailboxType.MUTT_IMAP ∧
         type ≠ MailboxType.MUTT_NOTMUCH ∧ type ≠ MailboxType.MUTT_POP) →
      abbrev_url s type = s) ∧
    abbrev_url (some "imap://h/apple/banana".toList) MailboxType.MUTT_IMAP =
      some "banana".toList ∧
    abbrev_url (some "imap://h/apple/banana".toList) MailboxType.MUTT_IMAP ≠
      some "apple/banana".toList := by
  refine ⟨by decide, by decide, ?_, by decide, by decide⟩
  intro s type h
  unfold abbrev_url
  simp only [h, if_true]

theorem strpbrk_none (s acc : List Char) (h : strpbrk s acc = none) : ∀ c ∈ s, c ∉ acc := by
  induction s with
  | nil => intro c hc; exact absurd hc (List.not_mem_nil c)
  | cons x rest ih =>
    simp only [strpbrk] at h
    by_cases hx : x ∈ acc
    · simp [hx] at h
    · simp only [hx, if_false] at h
      intro c hc
      rcases List.mem_cons.mp hc with hcx | hcr
      · rw [hcx]; exact hx
      · exact ih h c hcr

theorem strpbrk_some (s acc m : List Char) (h : strpbrk s acc = some m) :
    ∃ p d r, s = p ++ d :: r ∧ m = d :: r ∧ d ∈ acc ∧ ∀ c ∈ p, c ∉ acc := by
  induction s with
  | nil => simp [strpbrk] at h
  | cons x rest ih =>
    simp only [strpbrk] at h
    by_cases hx : x ∈ acc
    · simp only [hx, if_true, Option.some.injEq] at h
      exact ⟨[], x, rest, rfl, h.symm, hx, fun c hc => absurd hc (List.not_mem_nil c)⟩
    · simp only [hx, if_false] at h
      obtain ⟨p, d, r, h1, h2, h3, h4⟩ := ih h
      refine ⟨x :: p, d, r, by rw [h1]; rfl, h2, h3, ?_⟩
      intro c hc
      rcases List.mem_cons.mp hc with hcx | hcp
      · rw [hcx]; exact hx
      · exact h4 c hcp

theorem countP_delims_zero (delims p : List Char) (h : ∀ c ∈ p, c ∉ delims) :
    p.countP (fun c => decide (c ∈ delims)) = 0 := by
  rw [List.countP_eq_zero]
  intro c hc
  simpa using h c hc

theorem calc_path_depth_loop_spec (delims : List Char) (fuel : Nat) (mbox : List Char)
    (depth : Int) (hf : mbox.length + 1 ≤ fuel) :
    ∃ pre last, calc_path_depth_loop delims fuel mbox depth =
        .ok (depth + (mbox.countP (fun c => decide (c ∈ delims)) : Nat), last) ∧
      mbox = pre ++ last ∧ (∀ c ∈ last, c ∉ delims) ∧
      (pre = [] ∨ ∃ p d, pre = p ++ [d] ∧ d ∈ delims) := by
  induction fuel generalizing mbox depth with
  | zero => omega
  | succ n ih =>
    simp only [calc_path_depth_loop]
    cases hs : strpbrk mbox delims with
    | none =>
      have hno := strpbrk_none mbox delims hs
      refine ⟨[], mbox, ?_, rfl, hno, Or.inl rfl⟩
      simp only [countP_delims_zero delims mbox hno, Nat.cast_zero, add_zero]
    | some m =>
      obtain ⟨p, d, r, h1, h2, h3, h4⟩ := strpbrk_some mbox delims m hs
      have hlen : r.length + 1 ≤ n := by
        rw [h1] at hf
        simp only [List.length_append, List.length_cons] at hf
        omega
      obtain ⟨pre, last, e1, e2, e3, e4⟩ := ih r (depth + 1) hlen
      have htail : m.tail = r := by rw [h2]; rfl
      refine ⟨p ++ d :: pre, last, ?_, ?_, e3, Or.inr ?_⟩
      · simp only [htail, e1]
        have hcount : mbox.countP (fun c => decide (c ∈ delims)) =
            r.countP (fun c => decide (c ∈ delims)) + 1 := by
          rw [h1, List.countP_append, countP_delims_zero delims p h4, List.countP_cons]
          simp only [h3, decide_True, if_true, zero_add]
        rw [hcount]
        push_cast
        congr 2
        omega
      · rw [h1, e2]
        simp only [List.append_assoc, List.cons_append]
      · rcases e4 with hnil | ⟨p2, d2, hp2, hd2⟩
        · exact ⟨p, d, by rw [hnil], h3⟩
        · refine ⟨p ++ d :: p2, d2, ?_, hd2⟩
          rw [hp2]
          simp only [List.append_assoc, List.cons_append]

/-- C38: for a non-null path and delimiter set, `calc_path_depth` returns the
number of characters of the path that belong to the delimiter set and stores
in `last_part` the suffix of the path after the last such character (the whole
path when there is none), which contains no delimiter; with a null path,
delimiter set or `last_part` it returns 0 and stores nothing. -/
theorem calc_path_depth_spec (mbox delims : List Char) (lp : Option (List Char))
    (m d : Option (List Char)) (l : Option (Option (List Char))) :
    (∃ pre last, calc_path_depth (some mbox) (some delims) (some lp) =
        .ok (((mbox.countP (fun c => decide (c ∈ delims)) : Nat) : Int), some (some last)) ∧
      mbox = pre ++ last ∧ (∀ c ∈ last, c ∉ delims) ∧
      (pre = [] ∨ ∃ p c, pre = p ++ [c] ∧ c ∈ delims)) ∧
    (m = none ∨ d = none ∨ l = none → calc_path_depth m d l = .ok (0, l)) := by
  constructor
  · obtain ⟨pre, last, e1, e2, e3, e4⟩ :=
      calc_path_depth_loop_spec delims (mbox.length + 1) mbox 0 (le_refl _)
    refine ⟨pre, last, ?_, e2, e3, e4⟩
    simp only [calc_path_depth, e1, zero_add]
  · intro h
    unfold calc_path_depth
    rcases h with h | h | h
    · subst h; rfl
    · subst h; cases m <;> rfl
    · subst h; cases m <;> cases d <;> rfl

/-- The path `apple/banana.cherry` with the delimiters `/` and `.`: depth 2 and
last part `cherry`. -/
theorem calc_path_depth_example :
    calc_path_depth (some "apple/banana.cherry".toList) (some "/.".toList) (some none) =
      .ok (2, some (some "cherry".toList)) ∧
    calc_path_depth (some "inbox".toList) (some "/.".toList) (some none) =
      .ok (0, some (some "inbox".toList)) ∧
    calc_path_depth none (some "/.".toList) (some none) = .ok (0, some none) := by
  decide
theorem calc_path_depth_spec_witness :
    calc_path_depth none (some "/.".toList) (some none) = .ok (0, some none) ∧
    ∃ pre last, calc_path_depth (some "a/b".toList) (some "/".toList) (some none) =
        .ok ((("a/b".toList.countP (fun c => decide (c ∈ "/".toList)) : Nat) : Int),
          some (some last)) ∧
      "a/b".toList = pre ++ last ∧ (∀ c ∈ last, c ∉ "/".toList) ∧
      (pre = [] ∨ ∃ p c, pre = p ++ [c] ∧ c ∈ "/".toList) :=
  ⟨(calc_path_depth_spec [] [] none none (some "/.".toList) (some none)).2 (Or.inl rfl),
   (calc_path_depth_spec "a/b".toList "/".toList none none none none).1⟩

/-! ## The steps of calc_page -/

theorem calc_page_eq_steps (env : Env) (w : SidebarWindowData) (page_size : Int)
    (hps : 1 ≤ page_size) :
    calc_page env w page_size =
      match calc_page_resolve env w with
      | .error f => .error f
      | .ok wr =>
        match repair_highlight env wr with
        | .error f => .error f
        | .ok w3 =>
          match frame_page env w3 page_size with
          | .error f => .error f
          | .ok w4 => .ok { w4 with previous_sort := env.C_SidebarSortMethod } := by
  have hn : ¬ (page_size ≤ 0) := by omega
  unfold calc_page calc_page_resolve
  simp only [hn, if_false]
  cases remember_entry w w.opn_index <;> cases remember_entry w w.hil_index <;> rfl

theorem calc_page_inv (env : Env) (w : SidebarWindowData) (page_size : Int)
    (hps : 1 ≤ page_size) (w2 : SidebarWindowData) (h : calc_page env w page_size = .ok w2) :
    ∃ wr w3 w4, calc_page_resolve env w = .ok wr ∧ repair_highlight env wr = .ok w3 ∧
      frame_page env w3 page_size = .ok w4 ∧
      w2 = { w4 with previous_sort := env.C_SidebarSortMethod } := by
  rw [calc_page_eq_steps env w page_size hps] at h
  cases hr : calc_page_resolve env w with
  | error f => rw [hr] at h; cases h
  | ok wr =>
    rw [hr] at h
    simp only at h
    cases h3 : repair_highlight env wr with
    | error f => rw [h3] at h; cases h
    | ok w3 =>
      rw [h3] at h
      simp only at h
      cases h4 : frame_page env w3 page_size with
      | error f => rw [h4] at h; cases h
      | ok w4 =>
        rw [h4] at h
        simp only at h
        cases h
        exact ⟨wr, w3, w4, rfl, h3, h4, rfl⟩

theorem frame_page_inv (env : Env) (w : SidebarWindowData) (page_size : Int)
    (w4 : SidebarWindowData) (h : frame_page env w page_size = .ok w4) :
    ∃ t b, frame_bounds env w page_size = .ok (t, b) ∧
      w4 = { w with top_index := t,
                    bot_index := if b > w.entry_count - 1 then w.entry_count - 1 else b } := by
  unfold frame_page at h
  cases hb : frame_bounds env w page_size with
  | error f => rw [hb] at h; cases h
  | ok tb =>
    obtain ⟨t, b⟩ := tb
    rw [hb] at h
    simp only at h
    cases h
    exact ⟨t, b, rfl, rfl⟩

theorem calc_page_resolve_entries (env : Env) (w wr : SidebarWindowData)
    (h : calc_page_resolve env w = .ok wr) :
    wr.entries = (sort_entries env (update_entries_visibility env w)).entries ∧
    wr.previous_sort = w.previous_sort := by
  unfold calc_page_resolve at h
  cases h1 : remember_entry w w.opn_index with
  | error f => rw [h1] at h; cases hh : remember_entry w w.hil_index <;> rw [hh] at h <;> cases h
  | ok oe =>
    cases h2 : remember_entry w w.hil_index with
    | error f => rw [h1, h2] at h; cases h
    | ok he =>
      rw [h1, h2] at h
      simp only at h
      cases h
      refine ⟨rfl, ?_⟩
      show (sort_entries env (update_entries_visibility env w)).previous_sort = w.previous_sort
      rw [(sort_entries_cursors env _).2.2.2.2.1]
      unfold update_entries_visibility
      split <;> rfl

theorem entry_at_ok_range (w : SidebarWindowData) (i : Int) (e : SbEntry)
    (h : entry_at w i = .ok e) : 0 ≤ i ∧ i < w.entry_count := by
  by_contra hc
  rw [entry_at_oob w i (by omega)] at h
  cases h

theorem repair_highlight_cases (env : Env) (w w3 : SidebarWindowData)
    (h : repair_highlight env w = .ok w3) :
    (∃ k, w3 = { w with hil_index := k }) ∧
    (repair_needed env w → 0 ≤ w.opn_index → w3.hil_index = w.opn_index) ∧
    (repair_needed env w → w.opn_index < 0 →
      ((∃ j, unhidden_at w j) →
        unhidden_at w w3.hil_index ∧ ∀ j, unhidden_at w j → w3.hil_index ≤ j) ∧
      ((∀ j, ¬ unhidden_at w j) → w3.hil_index = 0)) ∧
    (¬ repair_needed env w → w3 = w) := by
  have hsnap : (if w.opn_index ≥ 0 then
        (Except.ok { w with hil_index := w.opn_index } : Except Fault SidebarWindowData)
      else
        match entry_at { w with hil_index := 0 } 0 with
        | .error f => .error f
        | .ok sbe =>
          if sbe.is_hidden = true then
            match select_next { w with hil_index := 0 } with
            | .error f => .error f
            | .ok r => .ok r.1
          else .ok { w with hil_index := 0 }) = .ok w3 →
      (∃ k, w3 = { w with hil_index := k }) ∧
      (0 ≤ w.opn_index → w3.hil_index = w.opn_index) ∧
      (w.opn_index < 0 →
        ((∃ j, unhidden_at w j) →
          unhidden_at w w3.hil_index ∧ ∀ j, unhidden_at w j → w3.hil_index ≤ j) ∧
        ((∀ j, ¬ unhidden_at w j) → w3.hil_index = 0)) := by
    intro hs
    by_cases hopn : w.opn_index ≥ 0
    · simp only [hopn, if_true] at hs
      cases hs
      exact ⟨⟨_, rfl⟩, fun _ => rfl, fun hlt => absurd hopn (by omega)⟩
    · simp only [hopn, if_false] at hs
      cases he : entry_at { w with hil_index := 0 } 0 with
      | error f => rw [he] at hs; cases hs
      | ok e =>
        rw [he] at hs
        simp only at hs
        have he0 : entry_at w 0 = .ok e := he
        have hcount := (entry_at_ok_range w 0 e he0).2
        by_cases hhid : e.is_hidden = true
        · simp only [hhid, if_true] at hs
          have hnot := not_unhidden_at_of w 0 e he0 hhid
          rcases select_next_result { w with hil_index := 0 } (le_refl _) hcount with
            ⟨hsel, hall⟩ | ⟨k, hsel, hk1, _, hk3, hk4⟩
          · rw [hsel] at hs
            cases hs
            have hnone : ∀ j, ¬ unhidden_at w j := by
              intro j hu
              by_cases hj : j = 0
              · exact hnot (hj ▸ hu)
              · exact hall j (by
                  have := unhidden_at_range w j hu
                  show (0 : Int) < j
                  omega) hu
            exact ⟨⟨0, rfl⟩, fun h0 => absurd h0 (by omega),
              fun _ => ⟨fun ⟨j, hj⟩ => absurd hj (hnone j), fun _ => rfl⟩⟩
          · rw [hsel] at hs
            cases hs
            refine ⟨⟨k, rfl⟩, fun h0 => absurd h0 (by omega),
              fun _ => ⟨fun _ => ⟨hk3, fun j hu => ?_⟩, fun hall => absurd hk3 (hall k)⟩⟩
            by_contra hlt
            have hr := unhidden_at_range w j hu
            by_cases hj : j = 0
            · exact hnot (hj ▸ hu)
            · exact hk4 j (by show (0 : Int) < j; omega) (by simpa using hlt) hu
        · have hfl : e.is_hidden = false := by simpa using hhid
          simp only [hfl, Bool.false_eq_true, if_false] at hs
          cases hs
          have hun : unhidden_at w 0 := unhidden_at_of w 0 e he0 hfl
          exact ⟨⟨0, rfl⟩, fun h0 => absurd h0 (by omega),
            fun _ => ⟨fun _ => ⟨hun, fun j hu => (unhidden_at_range w j hu).1⟩,
              fun hall => absurd hun (hall 0)⟩⟩
  unfold repair_highlight at h
  simp only at h
  by_cases hneg : w.hil_index < 0
  · simp only [hneg, if_true] at h
    obtain ⟨s1, s2, s3⟩ := hsnap h
    exact ⟨s1, fun _ => s2, fun _ => s3, fun hno => absurd (Or.inl hneg) hno⟩
  · simp only [hneg, if_false] at h
    cases he : entry_at w w.hil_index with
    | error f => rw [he] at h; cases h
    | ok e =>
      rw [he] at h
      simp only at h
      by_cases hc : e.is_hidden = true ∨ env.C_SidebarSortMethod ≠ w.previous_sort
      · simp only [hc, if_true] at h
        obtain ⟨s1, s2, s3⟩ := hsnap h
        refine ⟨s1, fun _ => s2, fun _ => s3, fun hno => ?_⟩
        rcases hc with hc | hc
        · exact absurd (Or.inr (Or.inl ⟨e, he, hc⟩)) hno
        · exact absurd (Or.inr (Or.inr hc)) hno
      · simp only [hc, if_false] at h
        cases h
        refine ⟨⟨w.hil_index, rfl⟩, fun hn => ?_, fun hn => ?_, fun _ => rfl⟩
        · rcases hn with hn | ⟨e2, he2, hh2⟩ | hn
          · exact absurd hn hneg
          · rw [he] at he2; cases he2; exact absurd (Or.inl hh2) hc
          · exact absurd (Or.inr hn) hc
        · rcases hn with hn | ⟨e2, he2, hh2⟩ | hn
          · exact absurd hn hneg
          · rw [he] at he2; cases he2; exact absurd (Or.inl hh2) hc
          · exact absurd (Or.inr hn) hc

/-- C31: in a `calc_page` pass on a store with at least one entry, let `wr` be
the state after the re-resolution loop.  If there `hil_index` is negative, or
on a hidden entry, or the sort method differs from `previous_sort`, the final
`hil_index` is `opn_index` when that is `>= 0`, and otherwise the least
unhidden index, or 0 when every entry is hidden; if none of the three holds,
`hil_index` and the entries stay as resolved.  With every cursor unset or in
range the pass returns. -/
theorem calc_page_highlight_repair (env : Env) (w : SidebarWindowData) (page_size : Int)
    (hn : 1 ≤ w.entry_count) (hps : 1 ≤ page_size) :
    (∀ wr w2, calc_page_resolve env w = .ok wr → calc_page env w page_size = .ok w2 →
      w2.entries = wr.entries ∧ w2.opn_index = wr.opn_index ∧
      (repair_needed env wr → 0 ≤ wr.opn_index → w2.hil_index = wr.opn_index) ∧
      (repair_needed env wr → wr.opn_index < 0 →
        ((∃ j, unhidden_at wr j) →
          unhidden_at wr w2.hil_index ∧ ∀ j, unhidden_at wr j → w2.hil_index ≤ j) ∧
        ((∀ j, ¬ unhidden_at wr j) → w2.hil_index = 0)) ∧
      (¬ repair_needed env wr → w2.hil_index = wr.hil_index)) ∧
    (cursors_ok w → ∃ wr w2, calc_page_resolve env w = .ok wr ∧
      calc_page env w page_size = .ok w2) := by
  constructor
  · intro wr w2 hr h2
    obtain ⟨wr2, w3, w4, hr2, h3, h4, hw2⟩ := calc_page_inv env w page_size hps w2 h2
    rw [hr] at hr2
    cases hr2
    obtain ⟨t, b, _, hw4⟩ := frame_page_inv env w3 page_size w4 h4
    obtain ⟨⟨k, hk⟩, c1, c2, c3⟩ := repair_highlight_cases env wr w3 h3
    have hhil : w2.hil_index = w3.hil_index := by rw [hw2, hw4]
    have hent : w2.entries = wr.entries := by rw [hw2, hw4, hk]
    have hopn : w2.opn_index = wr.opn_index := by rw [hw2, hw4, hk]
    rw [hhil]
    exact ⟨hent, hopn, c1, c2, fun hno => by rw [c3 hno]⟩
  · intro hc
    obtain ⟨w2, h2, _⟩ := calc_page_spec env w page_size hn hc hps
    obtain ⟨wr, _, _, hr, _⟩ := calc_page_inv env w page_size hps w2 h2
    exact ⟨wr, w2, hr, h2⟩

theorem calc_page_highlight_repair_witness :
    1 ≤ w_scenario_a.entry_count ∧ (1 : Int) ≤ 2 ∧ cursors_ok w_scenario_a ∧
    (∃ wr w2, calc_page_resolve env_scenario_a w_scenario_a = .ok wr ∧
      calc_page env_scenario_a w_scenario_a 2 = .ok w2) ∧
    (calc_page_resolve env_scenario_a w_scenario_a).map
      (fun w => (w.opn_index, w.hil_index)) = .ok (-1, -1) ∧
    (calc_page env_scenario_a w_scenario_a 2).map (fun w => w.hil_index) = .ok 1 :=
  ⟨by decide, by decide, by decide,
   (calc_page_highlight_repair env_scenario_a w_scenario_a 2 (by decide) (by decide)).2
     (by decide), by decide, by decide⟩

theorem repair_highlight_nonneg (env : Env) (w w3 : SidebarWindowData)
    (h : repair_highlight env w = .ok w3) : 0 ≤ w3.hil_index := by
  obtain ⟨_, c1, c2, c3⟩ := repair_highlight_cases env w w3 h
  by_cases hneed : repair_needed env w
  · by_cases hopn : 0 ≤ w.opn_index
    · rw [c1 hneed hopn]; exact hopn
    · obtain ⟨d1, d2⟩ := c2 hneed (by omega)
      by_cases hex : ∃ j, unhidden_at w j
      · exact (unhidden_at_range w _ (d1 hex).1).1
      · rw [d2 (fun j hj => hex ⟨j, hj⟩)]
  · rw [c3 hneed]
    by_contra hlt
    exact hneed (Or.inl (by omega))

/-- C33: with neither filter enabled and `page_size >= 1`, after `calc_page`
`top_index = hil_index - (hil_index mod page_size)`, a multiple of `page_size`,
and `bot_index = min (top_index + page_size - 1, entry_count - 1)`; on a store
with at least one entry and every cursor unset or in range `calc_page` returns. -/
theorem calc_page_unfiltered_frame (env : Env) (w : SidebarWindowData) (page_size : Int)
    (hps : 1 ≤ page_size) (h1 : env.C_SidebarNewMailOnly = false)
    (h2 : env.C_SidebarNonEmptyMailboxOnly = false) :
    (∀ w2, calc_page env w page_size = .ok w2 →
      w2.top_index = w2.hil_index - w2.hil_index % page_size ∧
      page_size ∣ w2.top_index ∧
      w2.bot_index = min (w2.top_index + page_size - 1) (w2.entry_count - 1)) ∧
    (1 ≤ w.entry_count → cursors_ok w → ∃ w2, calc_page env w page_size = .ok w2) := by
  constructor
  · intro w2 hw
    obtain ⟨wr, w3, w4, _, h3, h4, hw2⟩ := calc_page_inv env w page_size hps w2 hw
    obtain ⟨t, b, hb, hw4⟩ := frame_page_inv env w3 page_size w4 h4
    have h0 := repair_highlight_nonneg env wr w3 h3
    have hfil : ¬ (env.C_SidebarNewMailOnly = true ∨ env.C_SidebarNonEmptyMailboxOnly = true) := by
      rw [h1, h2]; simp
    unfold frame_bounds at hb
    simp only [hfil, if_false, Except.ok.injEq, Prod.mk.injEq] at hb
    obtain ⟨ht, hbb⟩ := hb
    have hdiv : Int.tdiv w3.hil_index page_size = w3.hil_index / page_size :=
      Int.tdiv_eq_ediv h0 (by omega)
    rw [hdiv] at ht hbb
    have hmod := Int.emod_add_ediv w3.hil_index page_size
    have hcomm : w3.hil_index / page_size * page_size = page_size * (w3.hil_index / page_size) :=
      mul_comm _ _
    have htop : w2.top_index = t := by rw [hw2, hw4]
    have hhil : w2.hil_index = w3.hil_index := by rw [hw2, hw4]
    have hcnt : w2.entry_count = w3.entry_count := by rw [hw2, hw4]; rfl
    have hbot : w2.bot_index = if b > w3.entry_count - 1 then w3.entry_count - 1 else b := by
      rw [hw2, hw4]
    refine ⟨?_, ?_, ?_⟩
    · rw [htop, hhil, ← ht]; omega
    · rw [htop, ← ht]; exact Dvd.intro_left _ rfl
    · rw [hbot, htop, hcnt, ← hbb, ← ht, min_def]
      split <;> split <;> omega
  · intro hn hc
    obtain ⟨w2, hw, _⟩ := calc_page_spec env w page_size hn hc hps
    exact ⟨w2, hw⟩

theorem calc_page_unfiltered_frame_witness :
    (1 : Int) ≤ 2 ∧ env_plain.C_SidebarNewMailOnly = false ∧
    env_plain.C_SidebarNonEmptyMailboxOnly = false ∧
    1 ≤ w_five.entry_count ∧ cursors_ok w_five ∧
    (∃ w2, calc_page env_plain w_five 2 = .ok w2) ∧
    (calc_page env_plain w_five 2).map
      (fun w => (w.top_index, w.hil_index, w.bot_index)) = .ok (2, 3, 3) ∧
    (calc_page env_plain { w_five with hil_index := 4 } 2).map
      (fun w => (w.top_index, w.hil_index, w.bot_index)) = .ok (4, 4, 4) :=
  ⟨by decide, by decide, by decide, by decide, by decide,
   (calc_page_unfiltered_frame env_plain w_five 2 (by decide) (by decide) (by decide)).2
     (by decide) (by decide), by decide, by decide⟩

/-! ## Cursors follow their entries -/

theorem remembered_entry_found (env : Env) (w : SidebarWindowData)
    (hd : addrs_distinct w.entries) (i : Nat) (e0 : SbEntry) (h0 : w.entries[i]? = some e0)
    (s : SidebarWindowData) (hs : s = sort_entries env (update_entries_visibility env w)) :
    ∃ (k : Nat) (e1 : SbEntry), s.entries[k]? = some e1 ∧ e1.addr = e0.addr ∧
      e1.mailbox = e0.mailbox ∧
      (∀ he c, (resolve_loop (some e0.addr) he 0 s.entries c).1 = (k : Int)) ∧
      (∀ oe c, (resolve_loop oe (some e0.addr) 0 s.entries c).2 = (k : Int)) := by
  have hmem : e0.addr ∈ s.entries.map (fun e => e.addr) := by
    have h1 : e0.addr ∈ w.entries.map (fun e => e.addr) :=
      List.mem_map.mpr ⟨e0, mem_of_getElem?_some _ _ _ h0, rfl⟩
    rw [← update_entries_visibility_addrs env w] at h1
    rw [hs]
    exact ((sort_entries_perm env (update_entries_visibility env w)).map _).symm.subset h1
  obtain ⟨e1, he1, ha⟩ := List.mem_map.mp hmem
  obtain ⟨k, hk⟩ := List.mem_iff_getElem?.mp he1
  have hsd : addrs_distinct s.entries := by rw [hs]; exact sorted_addrs_distinct env w hd
  have hk0 := hk
  rw [hs] at hk0
  obtain ⟨j, e00, hj, hja, hjm, _⟩ := sorted_entry_origin env w k e1 hk0
  have hji : j = i := addrs_distinct_inj w.entries hd j i e00 e0 hj h0 (by rw [← hja, ha])
  rw [hji, h0] at hj
  cases hj
  refine ⟨k, e1, hk, ha, hjm, fun he c => ?_, fun oe c => ?_⟩
  · have := resolve_loop_found_fst he s.entries 0 k c e1 hsd hk
    rw [ha] at this
    simpa using this
  · have := resolve_loop_found_snd oe s.entries 0 k c e1 hsd hk
    rw [ha] at this
    simpa using this

theorem calc_page_resolve_eq (env : Env) (w : SidebarWindowData) (oe he : Option Nat)
    (hoe : remember_entry w w.opn_index = .ok oe) (hhe : remember_entry w w.hil_index = .ok he) :
    calc_page_resolve env w = .ok
      { sort_entries env (update_entries_visibility env w) with
        opn_index := (resolve_loop oe he 0
          (sort_entries env (update_entries_visibility env w)).entries
          (w.opn_index, w.hil_index)).1,
        hil_index := (resolve_loop oe he 0
          (sort_entries env (update_entries_visibility env w)).entries
          (w.opn_index, w.hil_index)).2 } := by
  unfold calc_page_resolve
  rw [hoe, hhe]
  simp only [(sort_entries_cursors env _).2.1, (sort_entries_cursors env _).2.2.1,
    (update_entries_visibility_cursors env w).2.1, (update_entries_visibility_cursors env w).2.2.1]

/-- C34: on a store of pairwise distinct entries with every cursor unset or in
range, the re-resolution of `calc_page` returns, and after `calc_page` the entry
at the new `opn_index` is the entry (same cell, same mailbox) that was at the
old `opn_index` whenever that was `>= 0`; the same holds for `hil_index`
whenever the repair step does not apply to the resolved state, whatever the
sort did to the order. -/
theorem calc_page_cursors_follow (env : Env) (w : SidebarWindowData) (page_size : Int)
    (hd : addrs_distinct w.entries) (hc : cursors_ok w) (hps : 1 ≤ page_size) :
    (∃ wr, calc_page_resolve env w = .ok wr) ∧
    (0 ≤ w.opn_index → ∃ w2 e0 e1, calc_page env w page_size = .ok w2 ∧ 0 ≤ w2.opn_index ∧
      w.entries[w.opn_index.toNat]? = some e0 ∧ w2.entries[w2.opn_index.toNat]? = some e1 ∧
      e1.addr = e0.addr ∧ e1.mailbox = e0.mailbox) ∧
    (∀ wr, calc_page_resolve env w = .ok wr → ¬ repair_needed env wr →
      ∃ w2 e0 e1, calc_page env w page_size = .ok w2 ∧ 0 ≤ w.hil_index ∧ 0 ≤ w2.hil_index ∧
        w.entries[w.hil_index.toNat]? = some e0 ∧ w2.entries[w2.hil_index.toNat]? = some e1 ∧
        e1.addr = e0.addr ∧ e1.mailbox = e0.mailbox) := by
  obtain ⟨_, _, hopn, hhil⟩ := hc
  have hc2 : cursors_ok w := ⟨by assumption, by assumption, hopn, hhil⟩
  obtain ⟨oe, hoe⟩ : ∃ oe, remember_entry w w.opn_index = .ok oe := by
    rcases remember_entry_ok w _ hopn with ⟨_, hr⟩ | ⟨_, e0, _, _, hr⟩
    · exact ⟨_, hr⟩
    · exact ⟨_, hr⟩
  obtain ⟨he, hhe⟩ : ∃ he, remember_entry w w.hil_index = .ok he := by
    rcases remember_entry_ok w _ hhil with ⟨_, hr⟩ | ⟨_, e0, _, _, hr⟩
    · exact ⟨_, hr⟩
    · exact ⟨_, hr⟩
  have hres := calc_page_resolve_eq env w oe he hoe hhe
  refine ⟨⟨_, hres⟩, fun h0 => ?_, fun wr hwr hno => ?_⟩
  · rcases remember_entry_ok w _ hopn with ⟨hneg, _⟩ | ⟨_, e0, _, he0, hr⟩
    · omega
    · rw [hr] at hoe
      cases hoe
      have hn : 1 ≤ w.entry_count := by
        rcases hopn with h | ⟨_, h⟩ <;> omega
      obtain ⟨w2, hw2, _⟩ := calc_page_spec env w page_size hn hc2 hps
      obtain ⟨wr, w3, w4, hwr, h3, h4, hw2e⟩ := calc_page_inv env w page_size hps w2 hw2
      rw [hres] at hwr
      cases hwr
      obtain ⟨t, b, _, hw4⟩ := frame_page_inv env w3 page_size w4 h4
      obtain ⟨⟨k3, hk3⟩, _⟩ := repair_highlight_cases env _ w3 h3
      obtain ⟨k, e1, hk, ha, hm, hfst, _⟩ := remembered_entry_found env w hd _ e0 he0 _ rfl
      refine ⟨w2, e0, e1, hw2, ?_, he0, ?_, ha, hm⟩
      · rw [hw2e, hw4, hk3]
        show 0 ≤ (resolve_loop (some e0.addr) he 0 _ _).1
        rw [hfst]
        omega
      · rw [hw2e, hw4, hk3]
        show (sort_entries env (update_entries_visibility env w)).entries[
          ((resolve_loop (some e0.addr) he 0 _ _).1).toNat]? = some e1
        rw [hfst]
        simpa using hk
  · rw [hres] at hwr
    cases hwr
    rcases remember_entry_ok w _ hhil with ⟨hneg, hr⟩ | ⟨hpos, e0, _, he0, hr⟩
    · rw [hr] at hhe
      cases hhe
      exfalso
      apply hno
      left
      show (resolve_loop oe none 0 _ _).2 < 0
      rw [resolve_loop_none_snd]
      exact hneg
    · rw [hr] at hhe
      cases hhe
      have hn : 1 ≤ w.entry_count := by
        rcases hhil with h | ⟨_, h⟩ <;> omega
      obtain ⟨w2, hw2, _⟩ := calc_page_spec env w page_size hn hc2 hps
      obtain ⟨wr, w3, w4, hwr, h3, h4, hw2e⟩ := calc_page_inv env w page_size hps w2 hw2
      rw [hres] at hwr
      cases hwr
      obtain ⟨t, b, _, hw4⟩ := frame_page_inv env w3 page_size w4 h4
      obtain ⟨_, _, _, hsame⟩ := repair_highlight_cases env _ w3 h3
      have hw3 := hsame hno
      obtain ⟨k, e1, hk, ha, hm, _, hsnd⟩ := remembered_entry_found env w hd _ e0 he0 _ rfl
      refine ⟨w2, e0, e1, hw2, hpos, ?_, he0, ?_, ha, hm⟩
      · rw [hw2e, hw4, hw3]
        show 0 ≤ (resolve_loop oe (some e0.addr) 0 _ _).2
        rw [hsnd]
        omega
      · rw [hw2e, hw4, hw3]
        show (sort_entries env (update_entries_visibility env w)).entries[
          ((resolve_loop oe (some e0.addr) 0 _ _).2).toNat]? = some e1
        rw [hsnd]
        simpa using hk

theorem calc_page_cursors_follow_witness :
    addrs_distinct w_three.entries ∧ cursors_ok w_three ∧ (1 : Int) ≤ 2 ∧
    0 ≤ w_three.opn_index ∧
    (∃ w2 e0 e1, calc_page env_scenario_b w_three 2 = .ok w2 ∧ 0 ≤ w2.opn_index ∧
      w_three.entries[w_three.opn_index.toNat]? = some e0 ∧
      w2.entries[w2.opn_index.toNat]? = some e1 ∧
      e1.addr = e0.addr ∧ e1.mailbox = e0.mailbox) ∧
    w_three.entries.map (fun e => e.mailbox) = [1, 2, 3] ∧
    (calc_page env_scenario_b w_three 2).map
      (fun w => (w.opn_index, w.entries.map (fun e => e.mailbox))) = .ok (0, [3, 2, 1]) :=
  ⟨by decide, by decide, by decide, by decide,
   (calc_page_cursors_follow env_scenario_b w_three 2 (by decide) (by decide) (by decide)).2.1
     (by decide), by decide, by decide⟩

/-! ## Counting the unhidden entries of a page -/

theorem unhidden_through_neg (w : SidebarWindowData) (b : Int) (h : b ≤ -1) :
    unhidden_through w b = 0 := by
  unfold unhidden_through unhidden_count
  have hz : (b + 1).toNat = 0 := by omega
  rw [hz]
  rfl

theorem unhidden_through_step (w : SidebarWindowData) (b : Int) (e : SbEntry)
    (he : entry_at w (b + 1) = .ok e) :
    unhidden_through w (b + 1) =
      unhidden_through w b + (if e.is_hidden = false then 1 else 0) := by
  obtain ⟨hr0, hr1⟩ := entry_at_ok_range w (b + 1) e he
  obtain ⟨e2, he2, hget⟩ := entry_at_ok w (b + 1) hr0 hr1
  rw [he] at he2
  cases he2
  unfold unhidden_through unhidden_count
  have hn : (b + 1 + 1).toNat = (b + 1).toNat + 1 := by omega
  rw [hn, List.take_succ, hget, List.countP_append]
  simp only [Option.toList_some, List.countP_singleton]
  cases e.is_hidden <;> simp

theorem unhidden_window (w : SidebarWindowData) (lo hi : Int) (h1 : lo ≤ hi + 1) :
    (unhidden_count (window_entries w lo hi) : Int) =
      unhidden_through w hi - unhidden_through w (lo - 1) := by
  unfold unhidden_through unhidden_count window_entries
  have hlo : (lo - 1 + 1).toNat = lo.toNat := by
    congr 1
    omega
  rw [hlo]
  have hsplit := List.take_append_drop lo.toNat (List.take (hi + 1).toNat w.entries)
  rw [List.take_take, min_eq_left (by omega)] at hsplit
  have hc := congrArg (List.countP (fun e => !e.is_hidden)) hsplit
  rw [List.countP_append] at hc
  omega

theorem frame_inner_count (w : SidebarWindowData) (page_size : Int) (fuel : Nat)
    (bot page_entries base : Int) (h0 : -1 ≤ bot) (h1 : bot < w.entry_count)
    (hf : w.entry_count - bot ≤ fuel)
    (hpe : page_entries = unhidden_through w bot - base) (hle : page_entries ≤ page_size) :
    ∃ b, frame_inner w page_size fuel bot page_entries = .ok b ∧ bot ≤ b ∧
      (page_entries < page_size → bot < b) ∧
      ((b < w.entry_count ∧ unhidden_through w b - base = page_size) ∨
       (b = w.entry_count ∧ unhidden_through w (w.entry_count - 1) - base < page_size)) := by
  induction fuel generalizing bot page_entries with
  | zero => omega
  | succ n ih =>
    simp only [frame_inner]
    by_cases hp : page_entries < page_size
    · simp only [hp, if_true]
      by_cases hend : bot + 1 ≥ w.entry_count
      · simp only [hend, if_true]
        have hb : bot = w.entry_count - 1 := by omega
        refine ⟨bot + 1, rfl, by omega, fun _ => by omega, Or.inr ⟨by omega, ?_⟩⟩
        rw [← hb, ← hpe]
        exact hp
      · simp only [hend, if_false]
        obtain ⟨e, he, _⟩ := entry_at_ok w (bot + 1) (by omega) (by omega)
        simp only [he]
        have hstep := unhidden_through_step w bot e he
        obtain ⟨b, hb, hb1, _, hb3⟩ := ih (bot + 1)
          (if e.is_hidden = false then page_entries + 1 else page_entries)
          (by omega) (by omega) (by omega)
          (by rw [hstep, hpe]; split <;> omega) (by split <;> omega)
        exact ⟨b, hb, by omega, fun _ => by omega, hb3⟩
    · simp only [hp, if_false]
      refine ⟨bot, rfl, le_refl _, fun h => h.elim, Or.inl ⟨h1, ?_⟩⟩
      omega

theorem frame_outer_count (w : SidebarWindowData) (page_size : Int) (hps : 1 ≤ page_size)
    (fuel : Nat) (top bot : Int) (h0 : -1 ≤ bot) (h1 : bot ≤ w.entry_count)
    (h0h : 0 ≤ w.hil_index) (hh : w.hil_index < w.entry_count) (hf1 : 1 ≤ fuel)
    (hf : w.hil_index - bot + 1 ≤ fuel)
    (hinv : bot = -1 ∨ (0 ≤ top ∧ page_size ∣ unhidden_through w (top - 1) ∧
      ((bot < w.entry_count ∧
          unhidden_through w bot - unhidden_through w (top - 1) = page_size) ∨
       (bot = w.entry_count ∧
          unhidden_through w (w.entry_count - 1) - unhidden_through w (top - 1)
            < page_size)))) :
    ∃ t b, frame_outer w page_size fuel top bot = .ok (t, b) ∧ 0 ≤ t ∧
      page_size ∣ unhidden_through w (t - 1) ∧
      ((b < w.entry_count ∧
          unhidden_through w b - unhidden_through w (t - 1) = page_size) ∨
       (b = w.entry_count ∧
          unhidden_through w (w.entry_count - 1) - unhidden_through w (t - 1)
            < page_size)) := by
  induction fuel generalizing top bot with
  | zero => omega
  | succ n ih =>
    simp only [frame_outer]
    by_cases hlt : bot < w.hil_index
    · simp only [hlt, if_true]
      obtain ⟨b1, hb, hb1, hb2, hb3⟩ := frame_inner_count w page_size (w.entries.length + 1)
        bot 0 (unhidden_through w bot) h0 (by omega)
        (by unfold SidebarWindowData.entry_count at *; push_cast; omega) (by omega) (by omega)
      have hb4 := hb2 (by omega)
      have hb5 : b1 ≤ w.entry_count := by
        rcases hb3 with ⟨h, _⟩ | ⟨h, _⟩ <;> omega
      have hdvd : page_size ∣ unhidden_through w bot := by
        rcases hinv with hm | ⟨_, hd, ⟨_, heq⟩ | ⟨hbc, _⟩⟩
        · rw [hm, unhidden_through_neg w (-1) (le_refl _)]
          exact dvd_zero _
        · have : unhidden_through w bot = unhidden_through w (top - 1) + page_size := by omega
          rw [this]
          exact dvd_add hd (dvd_refl _)
        · omega
      simp only [hb]
      have htop : bot + 1 - 1 = bot := by omega
      exact ih (bot + 1) b1 (by omega) hb5 (by omega) (by omega)
        (Or.inr ⟨by omega, by rw [htop]; exact hdvd, by rw [htop]; exact hb3⟩)
    · simp only [hlt, if_false]
      rcases hinv with h | ⟨h2, h3, h4⟩
      · omega
      · exact ⟨top, bot, rfl, h2, h3, h4⟩

/-- C32: with a filter enabled, on a store with at least one entry, every
cursor unset or in range and `page_size >= 1`, after `calc_page` the slots
`[top_index, bot_index]` hold exactly `page_size` unhidden entries, or fewer and
then `bot_index = entry_count - 1`; and the number of unhidden entries before
`top_index` is a multiple of `page_size`. -/
theorem calc_page_filtered_frame (env : Env) (w : SidebarWindowData) (page_size : Int)
    (hn : 1 ≤ w.entry_count) (hc : cursors_ok w) (hps : 1 ≤ page_size)
    (hfil : env.C_SidebarNewMailOnly = true ∨ env.C_SidebarNonEmptyMailboxOnly = true) :
    ∃ w2, calc_page env w page_size = .ok w2 ∧
      (((unhidden_count (window_entries w2 w2.top_index w2.bot_index) : Int) = page_size) ∨
       ((unhidden_count (window_entries w2 w2.top_index w2.bot_index) : Int) < page_size ∧
        w2.bot_index = w2.entry_count - 1)) ∧
      page_size ∣ (unhidden_count (w2.entries.take w2.top_index.toNat) : Int) := by
  obtain ⟨w2, hw2, _, ht0, hth, hhb, hbc, _⟩ := calc_page_spec env w page_size hn hc hps
  obtain ⟨wr, w3, w4, _, h3, h4, hw2e⟩ := calc_page_inv env w page_size hps w2 hw2
  obtain ⟨t, b, hb, hw4⟩ := frame_page_inv env w3 page_size w4 h4
  have htop : w2.top_index = t := by rw [hw2e, hw4]
  have hhil : w2.hil_index = w3.hil_index := by rw [hw2e, hw4]
  have hcnt : w2.entry_count = w3.entry_count := by rw [hw2e, hw4]; rfl
  have hent : w2.entries = w3.entries := by rw [hw2e, hw4]
  have hbot : w2.bot_index = if b > w3.entry_count - 1 then w3.entry_count - 1 else b := by
    rw [hw2e, hw4]
  have hh0 : 0 ≤ w3.hil_index := by rw [← hhil]; omega
  have hh1 : w3.hil_index < w3.entry_count := by rw [← hhil, ← hcnt]; omega
  unfold frame_bounds at hb
  simp only [hfil, if_true] at hb
  obtain ⟨t2, b2, hfo, ht2, hdvd, hcase⟩ := frame_outer_count w3 page_size hps
    (w3.entries.length + 1) (-1) (-1) (le_refl _) (by omega) hh0 hh1 (by omega)
    (by unfold SidebarWindowData.entry_count at *; push_cast; omega) (Or.inl rfl)
  rw [hfo] at hb
  simp only [Except.ok.injEq, Prod.mk.injEq] at hb
  obtain ⟨rfl, rfl⟩ := hb
  have hthr : ∀ x, unhidden_through w2 x = unhidden_through w3 x := by
    intro x
    unfold unhidden_through
    rw [hent]
  have hwin := unhidden_window w2 w2.top_index w2.bot_index (by omega)
  rw [hthr, hthr] at hwin
  refine ⟨w2, hw2, ?_, ?_⟩
  · rw [hwin, htop]
    rcases hcase with ⟨hlt, heq⟩ | ⟨hbe, hlt⟩
    · left
      have hbb : w2.bot_index = b2 := by rw [hbot]; split <;> omega
      rw [hbb]
      exact heq
    · right
      have hbb : w2.bot_index = w3.entry_count - 1 := by rw [hbot]; split <;> omega
      rw [hbb]
      exact ⟨hlt, by rw [hcnt]⟩
  · have hpre : (unhidden_count (w2.entries.take w2.top_index.toNat) : Int) =
        unhidden_through w3 (t2 - 1) := by
      unfold unhidden_through
      rw [hent, htop]
      have hlo : (t2 - 1 + 1).toNat = t2.toNat := by
        congr 1
        omega
      rw [hlo]
    rw [hpre]
    exact hdvd

theorem calc_page_filtered_frame_witness :
    1 ≤ w_scenario_a.entry_count ∧ cursors_ok w_scenario_a ∧ (1 : Int) ≤ 2 ∧
    env_scenario_a.C_SidebarNonEmptyMailboxOnly = true ∧
    (∃ w2, calc_page env_scenario_a w_scenario_a 2 = .ok w2 ∧
      (((unhidden_count (window_entries w2 w2.top_index w2.bot_index) : Int) = 2) ∨
       ((unhidden_count (window_entries w2 w2.top_index w2.bot_index) : Int) < 2 ∧
        w2.bot_index = w2.entry_count - 1)) ∧
      (2 : Int) ∣ (unhidden_count (w2.entries.take w2.top_index.toNat) : Int)) ∧
    (calc_page env_scenario_a w_scenario_a 2).map
      (fun w => (w.entries.map (fun e => e.is_hidden), w.top_index, w.hil_index,
        w.bot_index)) = .ok ([true, false, true, false, false], 0, 1, 3) ∧
    (calc_page env_scenario_a { w_scenario_a with hil_index := 4 } 2).map
      (fun w => (w.top_index, w.hil_index, w.bot_index)) = .ok (4, 4, 4) :=
  ⟨by decide, by decide, by decide, by decide,
   calc_page_filtered_frame env_scenario_a w_scenario_a 2 (by decide) (by decide) (by decide)
     (Or.inr (by decide)), by decide, by decide⟩

/-! ## The page cursors stay set -/

theorem frame_inner_ge (w : SidebarWindowData) (page_size : Int) (fuel : Nat)
    (bot page_entries b : Int) (h : frame_inner w page_size fuel bot page_entries = .ok b) :
    bot ≤ b := by
  induction fuel generalizing bot page_entries with
  | zero => simp [frame_inner] at h
  | succ n ih =>
    simp only [frame_inner] at h
    split at h
    · split at h
      · cases h; omega
      · split at h
        · cases h
        · have := ih _ _ h
          omega
    · cases h; exact le_refl _

theorem frame_outer_ge (w : SidebarWindowData) (page_size : Int) (fuel : Nat)
    (top bot t b : Int) (h : frame_outer w page_size fuel top bot = .ok (t, b))
    (hbot : -1 ≤ bot) (hinv : bot < w.hil_index ∨ 0 ≤ top) :
    0 ≤ t ∧ w.hil_index ≤ b := by
  induction fuel generalizing top bot with
  | zero => simp [frame_outer] at h
  | succ n ih =>
    simp only [frame_outer] at h
    split at h
    · split at h
      · cases h
      · rename_i b1 hb1
        have hge := frame_inner_ge w page_size _ _ _ _ hb1
        exact ih (bot + 1) b1 h (by omega) (Or.inr (by omega))
    · rename_i hnlt
      cases h
      rcases hinv with hi | hi
      · exact absurd hi hnlt
      · exact ⟨hi, by omega⟩

/-- A pass of `calc_page` that returns leaves the page cursors set: on a
non-empty store the highlight is `>= 0` after the repair and the frame is put
around it. -/
theorem calc_page_page_cursors (env : Env) (w w2 : SidebarWindowData) (page_size : Int)
    (h : calc_page env w page_size = .ok w2) (hp : page_cursors_set w) :
    page_cursors_set w2 := by
  by_cases hps : page_size ≤ 0
  · have he : calc_page env w page_size = .ok w := by
      unfold calc_page; simp only [hps, if_true]
    rw [he] at h
    cases h
    exact hp
  · have hps1 : 1 ≤ page_size := by omega
    obtain ⟨wr, w3, w4, _, h3, h4, hw2⟩ := calc_page_inv env w page_size hps1 w2 h
    obtain ⟨t, b, hb, hw4⟩ := frame_page_inv env w3 page_size w4 h4
    have h0 := repair_highlight_nonneg env wr w3 h3
    have htop : w2.top_index = t := by rw [hw2, hw4]
    have hbot : w2.bot_index = if b > w3.entry_count - 1 then w3.entry_count - 1 else b := by
      rw [hw2, hw4]
    have hcnt : w2.entry_count = w3.entry_count := by rw [hw2, hw4]; rfl
    unfold page_cursors_set
    by_cases hz : w3.entry_count = 0
    · right; rw [hcnt]; exact hz
    · left
      have hpos : 1 ≤ w3.entry_count := by
        unfold SidebarWindowData.entry_count at *; omega
      have htb : 0 ≤ t ∧ 0 ≤ b := by
        unfold frame_bounds at hb
        split at hb
        · have := frame_outer_ge w3 page_size _ (-1) (-1) t b hb (le_refl _) (Or.inl (by omega))
          omega
        · simp only [Except.ok.injEq, Prod.mk.injEq] at hb
          have hq : 0 ≤ Int.tdiv w3.hil_index page_size := by
            rw [Int.tdiv_eq_ediv h0 (by omega)]
            exact Int.ediv_nonneg h0 (by omega)
          have hm : 0 ≤ Int.tdiv w3.hil_index page_size * page_size :=
            Int.mul_nonneg hq (by omega)
          omega
      rw [htop, hbot]
      constructor
      · exact htb.1
      · split <;> omega

/-- A navigator call, which changes `hil_index` at most, leaves the page
cursors set. -/
theorem hil_frame_page_cursors (w : SidebarWindowData) (r : SidebarWindowData × Bool)
    (h : hil_frame w r) (hp : page_cursors_set w) : page_cursors_set r.1 := by
  obtain ⟨⟨k, hk⟩, _⟩ := h
  rw [hk]
  exact hp

/-- A pass over the three-entry store of Scenario B leaves the page cursors
set. -/
theorem calc_page_page_cursors_witness :
    page_cursors_set w_three ∧
    (∃ w2, calc_page env_scenario_b w_three 2 = .ok w2 ∧ page_cursors_set w2) :=
  ⟨by decide, _, rfl,
   calc_page_page_cursors env_scenario_b w_three _ 2 rfl (by decide)⟩


end Sidebar
